import Mathlib

/-!
Shallow embedding of the Go package `interval` (files `interval.go`, `arith.go`):
floating-point interval arithmetic with open/closed endpoints, after
Hickey, Ju, and van Emden.

Float64 bound values are modelled by `ER`: an extended rational together with
a NaN element.  Two arithmetic layers are used.  `ER.add`/`ER.mul`/`ER.div`
are exact rational operations with IEEE-style NaN/infinity propagation: they
are faithful to binary64 for every comparison, sign classification and
endpoint-mask computation, and for NaN production (NaN arises only from
inf-inf, 0*inf, inf/inf and 0/0, never from rounding), so the claims that
depend only on those aspects are settled over this layer.  Where binary64
rounding itself matters - overflow to an infinity, underflow to zero -
`roundQ` implements IEEE round-to-nearest, ties-to-even onto the binary64
grid exactly, and `ER.addF`/`ER.mulF` (with `AddF`/`MulF` at the interval
level) are the correctly rounded counterparts, since IEEE basic operations
are correctly rounded.  Signed zero is not modelled: -0.0 and +0.0 compare
equal in IEEE, and no statement proved here distinguishes them.
Go comparison operators on float64 (false on NaN) are modelled by `ER.flt`,
`ER.feq`, `ER.fgt`; `math.Max`/`math.Min` by `ER.fmax`/`ER.fmin`.

The Go `Ends` bitmask type (an `int`) is modelled by `Nat` with
`Nat.land`/`Nat.lor`/`Nat.xor`; `Open = 0`, `LeftClosed = 1`,
`RightClosed = 2`, `Closed = 3` as in the source.

`Mul` and `Div` recurse (negative operands reduce to positive ones via `Neg`);
the recursion depth is bounded by the case structure, so they are embedded
with explicit fuel (4 for `Mul`, 3 for `Div`), returning `none` when fuel runs
out or when the `default: panic(...)` branch is reached.  Totality over valid
operands is then a theorem, not an assumption.
-/

namespace IntervalGo

/-- Extended real bound value: NaN, -inf, +inf, or a finite (rational) value. -/
inductive ER where
  | nan : ER
  | ninf : ER
  | pinf : ER
  | fin : ℚ → ER
deriving DecidableEq

/-- Go `x < y` on float64: false whenever either argument is NaN. -/
def ER.flt : ER → ER → Bool
  | .nan, _ => false
  | _, .nan => false
  | .ninf, .ninf => false
  | .ninf, _ => true
  | _, .ninf => false
  | .pinf, _ => false
  | _, .pinf => true
  | .fin p, .fin q => decide (p < q)

/-- Go `x == y` on float64: false whenever either argument is NaN. -/
def ER.feq : ER → ER → Bool
  | .ninf, .ninf => true
  | .pinf, .pinf => true
  | .fin p, .fin q => decide (p = q)
  | _, _ => false

/-- Go `x > y` on float64. -/
def ER.fgt (x y : ER) : Bool := ER.flt y x

/-- Float64 negation. -/
def ER.neg : ER → ER
  | .nan => .nan
  | .ninf => .pinf
  | .pinf => .ninf
  | .fin q => .fin (-q)

/-- Float64 addition: NaN propagates, (-inf) + (+inf) = NaN. -/
def ER.add : ER → ER → ER
  | .nan, _ => .nan
  | _, .nan => .nan
  | .ninf, .pinf => .nan
  | .pinf, .ninf => .nan
  | .ninf, _ => .ninf
  | _, .ninf => .ninf
  | .pinf, _ => .pinf
  | _, .pinf => .pinf
  | .fin p, .fin q => .fin (p + q)

/-- Float64 multiplication: NaN propagates, 0 * (±inf) = NaN. -/
def ER.mul : ER → ER → ER
  | .nan, _ => .nan
  | _, .nan => .nan
  | .ninf, .ninf => .pinf
  | .ninf, .pinf => .ninf
  | .pinf, .ninf => .ninf
  | .pinf, .pinf => .pinf
  | .pinf, .fin q => if 0 < q then .pinf else if q < 0 then .ninf else .nan
  | .ninf, .fin q => if 0 < q then .ninf else if q < 0 then .pinf else .nan
  | .fin q, .pinf => if 0 < q then .pinf else if q < 0 then .ninf else .nan
  | .fin q, .ninf => if 0 < q then .ninf else if q < 0 then .pinf else .nan
  | .fin p, .fin q => .fin (p * q)

/-- Float64 division: NaN propagates, inf/inf = NaN, 0/0 = NaN,
nonzero/0 = signed infinity, finite/inf = 0 (unsigned zero model),
inf/finite = signed infinity with a zero divisor treated as +0. -/
def ER.div : ER → ER → ER
  | .nan, _ => .nan
  | _, .nan => .nan
  | .ninf, .ninf => .nan
  | .ninf, .pinf => .nan
  | .pinf, .ninf => .nan
  | .pinf, .pinf => .nan
  | .pinf, .fin q => if q < 0 then .ninf else .pinf
  | .ninf, .fin q => if q < 0 then .pinf else .ninf
  | .fin _, .pinf => .fin 0
  | .fin _, .ninf => .fin 0
  | .fin p, .fin q =>
      if q = 0 then (if 0 < p then .pinf else if p < 0 then .ninf else .nan)
      else .fin (p / q)

/-- Go `math.Max`: NaN if either argument is NaN, else the larger. -/
def ER.fmax (x y : ER) : ER :=
  if x = .nan ∨ y = .nan then .nan else if ER.flt x y then y else x

/-- Go `math.Min`: NaN if either argument is NaN, else the smaller. -/
def ER.fmin (x y : ER) : ER :=
  if x = .nan ∨ y = .nan then .nan else if ER.flt y x then y else x

/-- `Ends` constant `Open` (no endpoint contained). -/
def EOpen : Nat := 0

/-- `Ends` constant `LeftClosed`. -/
def ELeftClosed : Nat := 1

/-- `Ends` constant `RightClosed`. -/
def ERightClosed : Nat := 2

/-- `Ends` constant `Closed` (both endpoints contained). -/
def EClosed : Nat := 3

/-- `leftEndMask`: bit 0 marks a closed left endpoint. -/
def leftEndMask : Nat := 1

/-- `rightEndMask`: bit 1 marks a closed right endpoint. -/
def rightEndMask : Nat := 2

/-- Go `func (e Ends) flip() Ends { return e&leftEndMask<<1 + e&rightEndMask>>1 }`
(in Go, `&` and `<<` share a precedence level and associate left, so this is
`((e & leftEndMask) << 1) + ((e & rightEndMask) >> 1)`). -/
def endsFlip (e : Nat) : Nat :=
  Nat.land e leftEndMask * 2 + Nat.land e rightEndMask / 2

/-- Go `type Interval struct { a, b float64; ends Ends }`. -/
structure Interval where
  a : ER
  b : ER
  ends : Nat
deriving DecidableEq

/-- Go `LeftIsClosed`: `in.ends&leftEndMask != 0`. -/
def Interval.LeftIsClosed (x : Interval) : Bool := Nat.land x.ends leftEndMask != 0

/-- Go `RightIsClosed`: `in.ends&rightEndMask != 0`. -/
def Interval.RightIsClosed (x : Interval) : Bool := Nat.land x.ends rightEndMask != 0

/-- Go `IsEmpty`: `in.a > in.b || in.a == in.b && in.ends != Closed`. -/
def Interval.IsEmpty (x : Interval) : Bool :=
  ER.fgt x.a x.b || (ER.feq x.a x.b && x.ends != EClosed)

/-- Go `IsMixed`: `in.a < 0 && 0 < in.b`. -/
def Interval.IsMixed (x : Interval) : Bool :=
  ER.flt x.a (ER.fin 0) && ER.flt (ER.fin 0) x.b

/-- Go `IsSingle`: `in.a == in.b && in.ends == Closed`. -/
def Interval.IsSingle (x : Interval) : Bool :=
  ER.feq x.a x.b && x.ends == EClosed

/-- Go `IsZero`: `in.IsSingle() && in.a == 0`. -/
def Interval.IsZero (x : Interval) : Bool :=
  x.IsSingle && ER.feq x.a (ER.fin 0)

/-- Go `Contains`:
`(in.a < x || in.a == x && in.LeftIsClosed()) && (in.b > x || in.b == x && in.RightIsClosed())`. -/
def Interval.Contains (x : Interval) (v : ER) : Bool :=
  (ER.flt x.a v || (ER.feq x.a v && x.LeftIsClosed)) &&
  (ER.fgt x.b v || (ER.feq x.b v && x.RightIsClosed))

/-- Go `Equal`: both empty, or identical bounds and ends. -/
def Equal (x y : Interval) : Bool :=
  if x.IsEmpty then y.IsEmpty
  else ER.feq x.a y.a && ER.feq x.b y.b && x.ends == y.ends

/-- Go `empty()`: the canonical empty interval (0, 0). -/
def emptyI : Interval := ⟨ER.fin 0, ER.fin 0, EOpen⟩

/-- Go `zero()`: the closed interval [0, 0]. -/
def zeroI : Interval := ⟨ER.fin 0, ER.fin 0, EClosed⟩

/-- Go `Neg`: `&Interval{-in.b, -in.a, in.ends.flip()}`. -/
def Interval.Neg (x : Interval) : Interval :=
  ⟨ER.neg x.b, ER.neg x.a, endsFlip x.ends⟩

/-- Go `isP0` (final revision, `arith.go`):
`in.a == 0 && in.b > 0 && in.LeftIsClosed()`. -/
def Interval.isP0 (x : Interval) : Bool :=
  ER.feq x.a (ER.fin 0) && ER.fgt x.b (ER.fin 0) && x.LeftIsClosed

/-- Go `isP1`: `in.b > 0 && !in.Contains(0)`. -/
def Interval.isP1 (x : Interval) : Bool :=
  ER.fgt x.b (ER.fin 0) && !(x.Contains (ER.fin 0))

/-- Go `isPos`: `in.isP0() || in.isP1()`. -/
def Interval.isPos (x : Interval) : Bool := x.isP0 || x.isP1

/-- Go `isN0`: `in.Neg().isP0()`. -/
def Interval.isN0 (x : Interval) : Bool := x.Neg.isP0

/-- Go `isN1`: `in.Neg().isP1()`. -/
def Interval.isN1 (x : Interval) : Bool := x.Neg.isP1

/-- Go `isNeg`: `in.Neg().isPos()`. -/
def Interval.isNeg (x : Interval) : Bool := x.Neg.isPos

/-- Go `has0`: `in.isP0() || in.IsMixed() || in.isN0()`. -/
def Interval.has0 (x : Interval) : Bool := x.isP0 || x.IsMixed || x.isN0

/-- Go `Intersection` (`interval.go`). The two `switch` blocks accumulate the
result's `Ends` by XOR of masked bits; when a comparison three-way falls
through (only possible with NaN bounds) the contribution is 0. -/
def Intersection (x y : Interval) : Interval :=
  if x.IsEmpty || y.IsEmpty then emptyI
  else if Equal x y then ⟨x.a, x.b, x.ends⟩
  else if !(x.Contains y.a) && !(x.Contains y.b) && !(y.Contains x.a) && !(y.Contains x.b) then
    emptyI
  else
    let e1 : Nat :=
      if ER.flt x.a y.a then Nat.land y.ends leftEndMask
      else if ER.feq x.a y.a then Nat.land (Nat.land x.ends y.ends) leftEndMask
      else if ER.fgt x.a y.a then Nat.land x.ends leftEndMask
      else 0
    let e2 : Nat :=
      if ER.flt x.b y.b then Nat.land x.ends rightEndMask
      else if ER.feq x.b y.b then Nat.land (Nat.land x.ends y.ends) rightEndMask
      else if ER.fgt x.b y.b then Nat.land y.ends rightEndMask
      else 0
    ⟨ER.fmax x.a y.a, ER.fmin x.b y.b, Nat.xor e1 e2⟩

/-- Go `Union` (`interval.go`): union when the operands overlap or touch,
else the empty interval. -/
def Union (x y : Interval) : Interval :=
  if x.IsEmpty || y.IsEmpty then emptyI
  else if Equal x y then ⟨x.a, x.b, x.ends⟩
  else if !(x.Contains y.a) && !(x.Contains y.b) && !(y.Contains x.a) && !(y.Contains x.b) then
    emptyI
  else
    let e1 : Nat :=
      if ER.flt x.a y.a then Nat.land x.ends leftEndMask
      else if ER.feq x.a y.a then Nat.land (Nat.lor x.ends y.ends) leftEndMask
      else if ER.fgt x.a y.a then Nat.land y.ends leftEndMask
      else 0
    let e2 : Nat :=
      if ER.flt x.b y.b then Nat.land y.ends rightEndMask
      else if ER.feq x.b y.b then Nat.land (Nat.lor x.ends y.ends) rightEndMask
      else if ER.fgt x.b y.b then Nat.land x.ends rightEndMask
      else 0
    ⟨ER.fmin x.a y.a, ER.fmax x.b y.b, Nat.xor e1 e2⟩

/-- Go `Add`: `&Interval{x.a + y.a, x.b + y.b, x.ends & y.ends}`. -/
def Add (x y : Interval) : Interval :=
  if x.IsEmpty || y.IsEmpty then emptyI
  else ⟨ER.add x.a y.a, ER.add x.b y.b, Nat.land x.ends y.ends⟩

/-- Go `Sub`: `Add(x, y.Neg())` after the emptiness guard. -/
def Sub (x y : Interval) : Interval :=
  if x.IsEmpty || y.IsEmpty then emptyI
  else Add x y.Neg

/-- The `Ends` of `Mul`'s positive-times-positive branch:
`e := x.ends & y.ends`, then `e |= leftEndMask` when either factor has a
closed left endpoint of value 0. -/
def posPosEnds (x y : Interval) : Nat :=
  if (ER.feq x.a (ER.fin 0) && x.LeftIsClosed) || (ER.feq y.a (ER.fin 0) && y.LeftIsClosed) then
    Nat.lor (Nat.land x.ends y.ends) leftEndMask
  else Nat.land x.ends y.ends

/-- First sub-interval `Ends` of `Mul`'s mixed-times-mixed branch:
`x.ends&y.ends.flip()&leftEndMask + x.ends&y.ends&rightEndMask`. -/
def mmEnds1 (x y : Interval) : Nat :=
  Nat.land (Nat.land x.ends (endsFlip y.ends)) leftEndMask +
    Nat.land (Nat.land x.ends y.ends) rightEndMask

/-- Second sub-interval `Ends` of `Mul`'s mixed-times-mixed branch:
`x.ends.flip()&y.ends&leftEndMask + x.ends.flip()&y.ends.flip()&rightEndMask`. -/
def mmEnds2 (x y : Interval) : Nat :=
  Nat.land (Nat.land (endsFlip x.ends) y.ends) leftEndMask +
    Nat.land (Nat.land (endsFlip x.ends) (endsFlip y.ends)) rightEndMask

/-- Go `Mul` with explicit fuel; `none` models reaching the
`default: panic(...)` branch (or fuel exhaustion, which cannot occur from the
top-level entry point `Mul`, whose fuel covers the maximal recursion depth). -/
def MulAux : Nat → Interval → Interval → Option Interval
  | 0, _, _ => none
  | n + 1, x, y =>
    if x.IsEmpty || y.IsEmpty then some emptyI
    else if x.IsZero || y.IsZero then some zeroI
    else if x.isNeg then (MulAux n x.Neg y).map Interval.Neg
    else if y.isNeg then (MulAux n y.Neg x).map Interval.Neg
    else if x.isPos && y.isPos then
      some ⟨ER.mul x.a y.a, ER.mul x.b y.b, posPosEnds x y⟩
    else if x.isPos && y.IsMixed then
      some (if x.RightIsClosed then ⟨ER.mul x.b y.a, ER.mul x.b y.b, y.ends⟩
            else ⟨ER.mul x.b y.a, ER.mul x.b y.b, EOpen⟩)
    else if x.IsMixed && y.IsMixed then
      some (Union ⟨ER.mul x.a y.b, ER.mul x.b y.b, mmEnds1 x y⟩
                  ⟨ER.mul x.b y.a, ER.mul x.a y.a, mmEnds2 x y⟩)
    else if y.isPos then MulAux n y x
    else none

/-- Go `Mul`: fuel 4 covers the deepest reduction chain
(negative-x step, negative-y step, operand swap, terminal case). -/
def Mul (x y : Interval) : Option Interval := MulAux 4 x y

/-- The two error values `Div` can return. -/
inductive DivErr where
  | DisjointUnion : DivErr
  | DivByZero : DivErr
deriving DecidableEq

/-- Go `Div` with explicit fuel; the result pairs the interval with the
(optional) error, and `none` models the `default: panic(...)` branch. -/
def DivAux : Nat → Interval → Interval → Option (Interval × Option DivErr)
  | 0, _, _ => none
  | n + 1, x, y =>
    if x.IsEmpty || y.IsEmpty then some (emptyI, none)
    else if y.IsZero then some (emptyI, some .DivByZero)
    else if x.IsZero then some (zeroI, none)
    else if x.isNeg then (DivAux n x.Neg y).map (fun p => (p.1.Neg, p.2))
    else if y.isNeg then (DivAux n x y.Neg).map (fun p => (p.1.Neg, p.2))
    else if (x.has0 && y.IsMixed) || (x.IsMixed && y.has0) then
      some (⟨ER.ninf, ER.pinf, EOpen⟩, none)
    else if x.isP1 && y.IsMixed then
      some (⟨ER.ninf, ER.pinf, EOpen⟩, some .DisjointUnion)
    else if y.isP0 then
      some (⟨ER.div x.a y.b, ER.pinf,
             Nat.land (Nat.land x.ends (endsFlip y.ends)) leftEndMask⟩, none)
    else if x.isPos then
      some (⟨ER.div x.a y.b, ER.div x.b y.a, Nat.land x.ends (endsFlip y.ends)⟩, none)
    else if x.IsMixed then
      some (⟨ER.div x.a y.a, ER.div x.b y.a,
             Nat.land (Nat.land x.ends y.ends) leftEndMask +
               Nat.land (Nat.land x.ends (endsFlip y.ends)) rightEndMask⟩, none)
    else none

/-- Go `Div`: fuel 3 covers the deepest reduction chain
(negative-x step, negative-y step, terminal case). -/
def Div (x y : Interval) : Option (Interval × Option DivErr) := DivAux 3 x y

/-! ### Binary64 rounding

The exact `ER` operations above idealize float64 arithmetic: they are faithful
for every comparison and endpoint-mask computation, and for NaN production,
but they omit binary64 rounding.  Where rounding matters (overflow to ±inf,
underflow to zero), the following layer models it exactly: IEEE 754 basic
operations are correctly rounded, so `fl(a ∘ b) = roundQ (a ∘ b)` with
`roundQ` the round-to-nearest, ties-to-even function onto the binary64 grid
(no signed zero, consistent with the rest of the model). -/

/-- Round a rational to the nearest integer, ties to even. -/
def nearestEven (t : ℚ) : ℤ :=
  if t - ⌊t⌋ < 1/2 then ⌊t⌋
  else if 1/2 < t - ⌊t⌋ then ⌊t⌋ + 1
  else if ⌊t⌋ % 2 = 0 then ⌊t⌋ else ⌊t⌋ + 1

/-- Floor of log2 of a positive rational, computed from the bit lengths of
numerator and denominator with a one-step correction. -/
def ratLog2 (a : ℚ) : ℤ :=
  if (2:ℚ)^((Nat.log2 a.num.toNat : ℤ) - (Nat.log2 a.den : ℤ)) ≤ a
  then (Nat.log2 a.num.toNat : ℤ) - (Nat.log2 a.den : ℤ)
  else (Nat.log2 a.num.toNat : ℤ) - (Nat.log2 a.den : ℤ) - 1

/-- Exponent of the binary64 rounding grid at positive magnitude `a`:
`⌊log2 a⌋ - 52` for normal numbers, clamped at `-1074` for subnormals. -/
def floatE (a : ℚ) : ℤ := max (-1074) (ratLog2 a - 52)

/-- Correctly rounded magnitude (with unbounded exponent range) of a
positive rational: the nearest-even multiple of the grid step. -/
def floatR (a : ℚ) : ℚ := (nearestEven (a / (2:ℚ)^(floatE a)) : ℚ) * (2:ℚ)^(floatE a)

/-- Binary64 round-to-nearest, ties-to-even: exact zero stays zero, a rounded
magnitude reaching `2^1024` overflows to the signed infinity, anything else
is the signed rounded value. -/
def roundQ (v : ℚ) : ER :=
  if v = 0 then ER.fin 0
  else if (2:ℚ)^1024 ≤ floatR |v| then (if v < 0 then ER.ninf else ER.pinf)
  else ER.fin (if v < 0 then -(floatR |v|) else floatR |v|)

/-- Binary64 addition: the special-value table of `ER.add` with the finite
case correctly rounded. -/
def ER.addF : ER → ER → ER
  | .nan, _ => .nan
  | _, .nan => .nan
  | .ninf, .pinf => .nan
  | .pinf, .ninf => .nan
  | .ninf, _ => .ninf
  | _, .ninf => .ninf
  | .pinf, _ => .pinf
  | _, .pinf => .pinf
  | .fin p, .fin q => roundQ (p + q)

/-- Binary64 multiplication: the special-value table of `ER.mul` with the
finite case correctly rounded. -/
def ER.mulF : ER → ER → ER
  | .nan, _ => .nan
  | _, .nan => .nan
  | .ninf, .ninf => .pinf
  | .ninf, .pinf => .ninf
  | .pinf, .ninf => .ninf
  | .pinf, .pinf => .pinf
  | .pinf, .fin q => if 0 < q then .pinf else if q < 0 then .ninf else .nan
  | .ninf, .fin q => if 0 < q then .ninf else if q < 0 then .pinf else .nan
  | .fin q, .pinf => if 0 < q then .pinf else if q < 0 then .ninf else .nan
  | .fin q, .ninf => if 0 < q then .ninf else if q < 0 then .pinf else .nan
  | .fin p, .fin q => roundQ (p * q)

/-- Go `Add` over binary64 bounds. -/
def AddF (x y : Interval) : Interval :=
  if x.IsEmpty || y.IsEmpty then emptyI
  else ⟨ER.addF x.a y.a, ER.addF x.b y.b, Nat.land x.ends y.ends⟩

/-- Go `Mul` over binary64 bounds: same dispatch as `MulAux`, products
correctly rounded. -/
def MulAuxF : Nat → Interval → Interval → Option Interval
  | 0, _, _ => none
  | n + 1, x, y =>
    if x.IsEmpty || y.IsEmpty then some emptyI
    else if x.IsZero || y.IsZero then some zeroI
    else if x.isNeg then (MulAuxF n x.Neg y).map Interval.Neg
    else if y.isNeg then (MulAuxF n y.Neg x).map Interval.Neg
    else if x.isPos && y.isPos then
      some ⟨ER.mulF x.a y.a, ER.mulF x.b y.b, posPosEnds x y⟩
    else if x.isPos && y.IsMixed then
      some (if x.RightIsClosed then ⟨ER.mulF x.b y.a, ER.mulF x.b y.b, y.ends⟩
            else ⟨ER.mulF x.b y.a, ER.mulF x.b y.b, EOpen⟩)
    else if x.IsMixed && y.IsMixed then
      some (Union ⟨ER.mulF x.a y.b, ER.mulF x.b y.b, mmEnds1 x y⟩
                  ⟨ER.mulF x.b y.a, ER.mulF x.a y.a, mmEnds2 x y⟩)
    else if y.isPos then MulAuxF n y x
    else none

/-- Go `Mul` over binary64 bounds. -/
def MulF (x y : Interval) : Option Interval := MulAuxF 4 x y

/-- The section-3 validity invariants of a constructed interval: the canonical
empty interval (0, 0), or a non-empty interval whose `Ends` value is one of
the four declared constants, whose bounds are not NaN, and which has no
closed endpoint at an infinite value.  These are exactly the values the
validating constructor `New` can return. -/
def Valid (x : Interval) : Prop :=
  x = emptyI ∨
    (x.IsEmpty = false ∧ x.ends < 4 ∧ x.a ≠ ER.nan ∧ x.b ≠ ER.nan ∧
      ¬(x.a = ER.ninf ∧ x.LeftIsClosed = true) ∧ ¬(x.b = ER.pinf ∧ x.RightIsClosed = true))

instance (x : Interval) : Decidable (Valid x) := by
  unfold Valid; infer_instance

/-- No bound of `x` is NaN. -/
def NoNaN (x : Interval) : Prop := x.a ≠ ER.nan ∧ x.b ≠ ER.nan

instance (x : Interval) : Decidable (NoNaN x) := by
  unfold NoNaN; infer_instance

/-- `x` has no closed endpoint at an infinite value. -/
def NoClosedInf (x : Interval) : Prop :=
  ¬(x.a = ER.ninf ∧ x.LeftIsClosed = true) ∧ ¬(x.b = ER.pinf ∧ x.RightIsClosed = true)

instance (x : Interval) : Decidable (NoClosedInf x) := by
  unfold NoClosedInf; infer_instance

/-- Negation of the disjointness guard shared by `Intersection` and `Union`:
some endpoint of one operand lies in the other. -/
def Overlaps (x y : Interval) : Bool :=
  x.Contains y.a || x.Contains y.b || y.Contains x.a || y.Contains x.b

/-- Library equality lifted to `Mul`/`Div`-style optional results. -/
def OEqual : Option Interval → Option Interval → Bool
  | some p, some q => Equal p q
  | none, none => true
  | _, _ => false

/-- Endpoint rule of spec §4.3 for Intersection, written from the spec's
words: each side is closed according to whichever input supplied the binding
(larger left / smaller right) bound; on a numeric tie it is closed only if
both inputs are closed there (AND semantics). -/
def interEndsSpec (x y : Interval) : Nat :=
  (if ER.flt x.a y.a then (if y.LeftIsClosed then 1 else 0)
   else if ER.feq x.a y.a then (if x.LeftIsClosed && y.LeftIsClosed then 1 else 0)
   else if ER.fgt x.a y.a then (if x.LeftIsClosed then 1 else 0)
   else 0) +
  (if ER.flt x.b y.b then (if x.RightIsClosed then 2 else 0)
   else if ER.feq x.b y.b then (if x.RightIsClosed && y.RightIsClosed then 2 else 0)
   else if ER.fgt x.b y.b then (if y.RightIsClosed then 2 else 0)
   else 0)

/-- Endpoint rule of spec §4.3 for Union, written from the spec's words:
each side is closed according to whichever input supplied the binding
(smaller left / larger right) bound; on a numeric tie it is closed if either
input is closed there (OR semantics). -/
def unionEndsSpec (x y : Interval) : Nat :=
  (if ER.flt x.a y.a then (if x.LeftIsClosed then 1 else 0)
   else if ER.feq x.a y.a then (if x.LeftIsClosed || y.LeftIsClosed then 1 else 0)
   else if ER.fgt x.a y.a then (if y.LeftIsClosed then 1 else 0)
   else 0) +
  (if ER.flt x.b y.b then (if y.RightIsClosed then 2 else 0)
   else if ER.feq x.b y.b then (if x.RightIsClosed || y.RightIsClosed then 2 else 0)
   else if ER.fgt x.b y.b then (if x.RightIsClosed then 2 else 0)
   else 0)

/-! ### Shape lemmas for `ER` comparisons -/

lemma ER.flt_zero_shape {v : ER} (h : ER.flt v (ER.fin 0) = true) :
    v = ER.ninf ∨ ∃ q : ℚ, v = ER.fin q ∧ q < 0 := by
  cases v with
  | nan => simp [ER.flt] at h
  | ninf => exact Or.inl rfl
  | pinf => simp [ER.flt] at h
  | fin q => exact Or.inr ⟨q, rfl, by simpa [ER.flt] using h⟩

lemma ER.zero_flt_shape {v : ER} (h : ER.flt (ER.fin 0) v = true) :
    v = ER.pinf ∨ ∃ q : ℚ, v = ER.fin q ∧ 0 < q := by
  cases v with
  | nan => simp [ER.flt] at h
  | ninf => simp [ER.flt] at h
  | pinf => exact Or.inl rfl
  | fin q => exact Or.inr ⟨q, rfl, by simpa [ER.flt] using h⟩

lemma ER.feq_fin_left {v : ER} {q : ℚ} (h : ER.feq v (ER.fin q) = true) : v = ER.fin q := by
  cases v with
  | nan => simp [ER.feq] at h
  | ninf => simp [ER.feq] at h
  | pinf => simp [ER.feq] at h
  | fin p => simp [ER.feq] at h; simp [h]

lemma ER.feq_fin_right {v : ER} {q : ℚ} (h : ER.feq (ER.fin q) v = true) : v = ER.fin q := by
  cases v with
  | nan => simp [ER.feq] at h
  | ninf => simp [ER.feq] at h
  | pinf => simp [ER.feq] at h
  | fin p => simp [ER.feq] at h; simp [h]

lemma ER.not_flt_zero_shape {v : ER} (h : ER.flt v (ER.fin 0) = false)
    (hn : v ≠ ER.nan) (hp : v ≠ ER.pinf) : ∃ q : ℚ, v = ER.fin q ∧ 0 ≤ q := by
  cases v with
  | nan => exact absurd rfl hn
  | ninf => simp [ER.flt] at h
  | pinf => exact absurd rfl hp
  | fin q => exact ⟨q, rfl, by simpa [ER.flt] using h⟩

lemma ER.not_zero_flt_shape {v : ER} (h : ER.flt (ER.fin 0) v = false)
    (hn : v ≠ ER.nan) (hp : v ≠ ER.ninf) : ∃ q : ℚ, v = ER.fin q ∧ q ≤ 0 := by
  cases v with
  | nan => exact absurd rfl hn
  | ninf => exact absurd rfl hp
  | pinf => simp [ER.flt] at h
  | fin q => exact ⟨q, rfl, by simpa [ER.flt] using h⟩

/-! ### Bitmask arithmetic on `Ends` values -/

lemma land1_cases (e : Nat) : Nat.land e 1 = 0 ∨ Nat.land e 1 = 1 := by
  have h : Nat.land e 1 ≤ 1 := Nat.and_le_right
  omega

lemma land2_cases (e : Nat) : Nat.land e 2 = 0 ∨ Nat.land e 2 = 2 := by
  have h : e &&& 2 = (Nat.testBit e 1).toNat * 2 := by simpa using Nat.and_two_pow e 1
  cases hh : Nat.testBit e 1
  · left; rw [hh] at h; simpa using h
  · right; rw [hh] at h; simpa using h

lemma land_land_one (m n : Nat) :
    Nat.land (Nat.land m n) 1 = Nat.land (Nat.land m 1) (Nat.land n 1) := by
  have h1 : (1 : Nat) &&& 1 = 1 := rfl
  calc (m &&& n) &&& 1 = (m &&& n) &&& (1 &&& 1) := by rw [h1]
    _ = (m &&& 1) &&& (n &&& 1) := by ac_rfl

lemma land_land_two (m n : Nat) :
    Nat.land (Nat.land m n) 2 = Nat.land (Nat.land m 2) (Nat.land n 2) := by
  have h2 : (2 : Nat) &&& 2 = 2 := rfl
  calc (m &&& n) &&& 2 = (m &&& n) &&& (2 &&& 2) := by rw [h2]
    _ = (m &&& 2) &&& (n &&& 2) := by ac_rfl

lemma lor_land_one (m n : Nat) :
    Nat.land (Nat.lor m n) 1 = Nat.lor (Nat.land m 1) (Nat.land n 1) := by
  show ((m ||| n) &&& 1) = ((m &&& 1) ||| (n &&& 1))
  apply Nat.eq_of_testBit_eq
  intro k
  rw [Nat.testBit_land, Nat.testBit_lor, Nat.testBit_lor, Nat.testBit_land, Nat.testBit_land]
  cases hm : Nat.testBit m k <;> cases hn : Nat.testBit n k <;> simp

lemma lor_land_two (m n : Nat) :
    Nat.land (Nat.lor m n) 2 = Nat.lor (Nat.land m 2) (Nat.land n 2) := by
  show ((m ||| n) &&& 2) = ((m &&& 2) ||| (n &&& 2))
  apply Nat.eq_of_testBit_eq
  intro k
  rw [Nat.testBit_land, Nat.testBit_lor, Nat.testBit_lor, Nat.testBit_land, Nat.testBit_land]
  cases hm : Nat.testBit m k <;> cases hn : Nat.testBit n k <;> simp

lemma endsFlip_land1 (e : Nat) : Nat.land (endsFlip e) 1 = Nat.land e 2 / 2 := by
  rcases land1_cases e with h1 | h1 <;> rcases land2_cases e with h2 | h2 <;>
    rw [endsFlip, leftEndMask, rightEndMask, h1, h2] <;> rfl

lemma endsFlip_land2 (e : Nat) : Nat.land (endsFlip e) 2 = Nat.land e 1 * 2 := by
  rcases land1_cases e with h1 | h1 <;> rcases land2_cases e with h2 | h2 <;>
    rw [endsFlip, leftEndMask, rightEndMask, h1, h2] <;> rfl

/-- Negation swaps the two closedness flags. -/
lemma lc_neg (x : Interval) : x.Neg.LeftIsClosed = x.RightIsClosed := by
  show (Nat.land (endsFlip x.ends) 1 != 0) = (Nat.land x.ends 2 != 0)
  rw [endsFlip_land1]
  rcases land2_cases x.ends with h | h <;> rw [h] <;> rfl

/-- Negation swaps the two closedness flags. -/
lemma rc_neg (x : Interval) : x.Neg.RightIsClosed = x.LeftIsClosed := by
  show (Nat.land (endsFlip x.ends) 2 != 0) = (Nat.land x.ends 1 != 0)
  rw [endsFlip_land2]
  rcases land1_cases x.ends with h | h <;> rw [h] <;> rfl

/-! ### Validity and non-emptiness -/

lemma emptyI_isEmpty : emptyI.IsEmpty = true := by decide

lemma valid_nonempty_facts {x : Interval} (hv : Valid x) (he : x.IsEmpty = false) :
    x.ends < 4 ∧ x.a ≠ ER.nan ∧ x.b ≠ ER.nan ∧
      ¬(x.a = ER.ninf ∧ x.LeftIsClosed = true) ∧ ¬(x.b = ER.pinf ∧ x.RightIsClosed = true) := by
  rcases hv with h | h
  · rw [h] at he; exact absurd he (by decide)
  · exact ⟨h.2.1, h.2.2.1, h.2.2.2.1, h.2.2.2.2.1, h.2.2.2.2.2⟩

lemma ends_ne_closed_rc {e : Nat} (h : (e != EClosed) = true) (h4 : e < 4) :
    Nat.land e leftEndMask = 0 ∨ Nat.land e rightEndMask = 0 := by
  interval_cases e <;> revert h <;> decide

/-- A valid non-empty interval never has left bound +inf. -/
lemma nonempty_a_ne_pinf {x : Interval} (hv : Valid x) (he : x.IsEmpty = false) :
    x.a ≠ ER.pinf := by
  obtain ⟨h4, han, hbn, _, hbc⟩ := valid_nonempty_facts hv he
  intro ha
  cases hb : x.b with
  | nan => exact hbn hb
  | pinf =>
      have hfeq : ER.feq x.a x.b = true := by rw [ha, hb]; rfl
      have : x.IsEmpty = true ∨ x.RightIsClosed = true := by
        by_cases hc : x.ends = EClosed
        · right
          simp [Interval.RightIsClosed, hc, EClosed, rightEndMask]
        · left
          simp [Interval.IsEmpty, hfeq, bne_iff_ne, hc]
      rcases this with h | h
      · rw [he] at h; exact absurd h (by decide)
      · exact hbc ⟨hb, h⟩
  | ninf =>
      have : x.IsEmpty = true := by
        simp [Interval.IsEmpty, ER.fgt, ha, hb, ER.flt]
      rw [he] at this; exact absurd this (by decide)
  | fin q =>
      have : x.IsEmpty = true := by
        simp [Interval.IsEmpty, ER.fgt, ha, hb, ER.flt]
      rw [he] at this; exact absurd this (by decide)

/-- A valid non-empty interval never has right bound -inf. -/
lemma nonempty_b_ne_ninf {x : Interval} (hv : Valid x) (he : x.IsEmpty = false) :
    x.b ≠ ER.ninf := by
  obtain ⟨h4, han, hbn, hac, _⟩ := valid_nonempty_facts hv he
  intro hb
  cases ha : x.a with
  | nan => exact han ha
  | ninf =>
      have hfeq : ER.feq x.a x.b = true := by rw [ha, hb]; rfl
      have : x.IsEmpty = true ∨ x.LeftIsClosed = true := by
        by_cases hc : x.ends = EClosed
        · right
          simp [Interval.LeftIsClosed, hc, EClosed, leftEndMask]
        · left
          simp [Interval.IsEmpty, hfeq, bne_iff_ne, hc]
      rcases this with h | h
      · rw [he] at h; exact absurd h (by decide)
      · exact hac ⟨ha, h⟩
  | pinf =>
      have : x.IsEmpty = true := by
        simp [Interval.IsEmpty, ER.fgt, ha, hb, ER.flt]
      rw [he] at this; exact absurd this (by decide)
  | fin q =>
      have : x.IsEmpty = true := by
        simp [Interval.IsEmpty, ER.fgt, ha, hb, ER.flt]
      rw [he] at this; exact absurd this (by decide)

/-- Bound shape of a valid non-empty interval: `a` is -inf or finite,
`b` is +inf or finite. -/
lemma nonempty_shape {x : Interval} (hv : Valid x) (he : x.IsEmpty = false) :
    (x.a = ER.ninf ∨ ∃ q : ℚ, x.a = ER.fin q) ∧
      (x.b = ER.pinf ∨ ∃ q : ℚ, x.b = ER.fin q) := by
  obtain ⟨h4, han, hbn, _, _⟩ := valid_nonempty_facts hv he
  constructor
  · cases ha : x.a with
    | nan => exact absurd ha han
    | ninf => exact Or.inl rfl
    | pinf => exact absurd ha (nonempty_a_ne_pinf hv he)
    | fin q => exact Or.inr ⟨q, rfl⟩
  · cases hb : x.b with
    | nan => exact absurd hb hbn
    | ninf => exact absurd hb (nonempty_b_ne_ninf hv he)
    | pinf => exact Or.inl rfl
    | fin q => exact Or.inr ⟨q, rfl⟩

/-! ### Sign-classification lemmas -/

lemma isP0_shape {x : Interval} (h : x.isP0 = true) :
    x.a = ER.fin 0 ∧ x.LeftIsClosed = true ∧ ER.flt (ER.fin 0) x.b = true := by
  unfold Interval.isP0 at h
  simp only [Bool.and_eq_true] at h
  obtain ⟨⟨h1, h2⟩, h3⟩ := h
  exact ⟨ER.feq_fin_left h1, h3, h2⟩

lemma isP1_facts {x : Interval} (h : x.isP1 = true) :
    ER.flt (ER.fin 0) x.b = true ∧ ER.flt x.a (ER.fin 0) = false ∧
      (ER.feq x.a (ER.fin 0) = false ∨ x.LeftIsClosed = false) := by
  unfold Interval.isP1 at h
  simp only [Bool.and_eq_true, Bool.not_eq_true'] at h
  obtain ⟨hb, hc⟩ := h
  refine ⟨hb, ?_, ?_⟩ <;>
  · unfold Interval.Contains at hc
    rw [hb] at hc
    simp only [Bool.true_or, Bool.or_true, Bool.and_true, Bool.true_and,
      Bool.or_eq_false_iff, Bool.and_eq_false_iff] at hc
    tauto

lemma mixed_shape {x : Interval} (h : x.IsMixed = true) :
    (x.a = ER.ninf ∨ ∃ q : ℚ, x.a = ER.fin q ∧ q < 0) ∧
      (x.b = ER.pinf ∨ ∃ q : ℚ, x.b = ER.fin q ∧ 0 < q) := by
  unfold Interval.IsMixed at h
  simp only [Bool.and_eq_true] at h
  exact ⟨ER.flt_zero_shape h.1, ER.zero_flt_shape h.2⟩

lemma mixed_nonempty {x : Interval} (h : x.IsMixed = true) : x.IsEmpty = false := by
  obtain ⟨ha, hb⟩ := mixed_shape h
  unfold Interval.IsEmpty
  rcases ha with ha | ⟨qa, ha, hqa⟩ <;> rcases hb with hb | ⟨qb, hb, hqb⟩ <;> rw [ha, hb]
  · rfl
  · rfl
  · rfl
  · have h1 : ¬(qb < qa) := by linarith
    have h2 : qa ≠ qb := by linarith
    simp [ER.fgt, ER.flt, ER.feq, h1, h2]

lemma neg_mixed {x : Interval} (h : x.IsMixed = true) : x.Neg.IsMixed = true := by
  obtain ⟨ha, hb⟩ := mixed_shape h
  show (ER.flt (ER.neg x.b) (ER.fin 0) && ER.flt (ER.fin 0) (ER.neg x.a)) = true
  rcases ha with ha | ⟨qa, ha, hqa⟩ <;> rcases hb with hb | ⟨qb, hb, hqb⟩ <;> rw [ha, hb]
  · rfl
  · simp [ER.neg, ER.flt]; linarith
  · simp [ER.neg, ER.flt]; linarith
  · simp [ER.neg, ER.flt]
    constructor <;> linarith

lemma mixed_not_isPos {x : Interval} (h : x.IsMixed = true) : x.isPos = false := by
  have hm := h
  unfold Interval.IsMixed at hm
  simp only [Bool.and_eq_true] at hm
  obtain ⟨ha, hb⟩ := hm
  unfold Interval.isPos Interval.isP0 Interval.isP1
  have hfeq : ER.feq x.a (ER.fin 0) = false := by
    rcases ER.flt_zero_shape ha with h1 | ⟨q, h1, hq⟩ <;>
      simp [h1, ER.feq]
    exact ne_of_lt hq
  have hcont : x.Contains (ER.fin 0) = true := by
    unfold Interval.Contains
    rw [ha, show ER.fgt x.b (ER.fin 0) = ER.flt (ER.fin 0) x.b from rfl, hb]
    rfl
  simp [hfeq, hcont]

lemma mixed_not_isNeg {x : Interval} (h : x.IsMixed = true) : x.isNeg = false := by
  unfold Interval.isNeg
  exact mixed_not_isPos (neg_mixed h)

lemma isPos_not_isNeg {x : Interval} (h : x.isPos = true) : x.isNeg = false := by
  unfold Interval.isPos at h
  unfold Interval.isNeg Interval.isPos Interval.isP0 Interval.isP1
  have hb : ER.flt (ER.fin 0) x.b = true := by
    rcases Bool.or_eq_true_iff.mp h with h0 | h1
    · exact (isP0_shape h0).2.2
    · exact (isP1_facts h1).1
  have hnb : ER.feq (x.Neg.a) (ER.fin 0) = false := by
    show ER.feq (ER.neg x.b) (ER.fin 0) = false
    rcases ER.zero_flt_shape hb with h1 | ⟨q, h1, hq⟩ <;> simp [h1, ER.neg, ER.feq]
    intro hcon
    exact absurd hcon (ne_of_gt hq)
  have hna : ER.fgt (x.Neg.b) (ER.fin 0) = false := by
    show ER.flt (ER.fin 0) (ER.neg x.a) = false
    rcases Bool.or_eq_true_iff.mp h with h0 | h1
    · rw [(isP0_shape h0).1]; rfl
    · have hfa := (isP1_facts h1).2.1
      cases hxa : x.a with
      | nan => rfl
      | pinf => rfl
      | ninf => rw [hxa] at hfa; exact absurd hfa (by decide)
      | fin q =>
          rw [hxa] at hfa
          simp [ER.flt] at hfa
          simp [ER.neg, ER.flt]
          linarith
  simp [hnb, hna]

lemma isZero_shape {x : Interval} (h : x.IsZero = true) :
    x.a = ER.fin 0 ∧ x.b = ER.fin 0 ∧ x.ends = EClosed := by
  unfold Interval.IsZero Interval.IsSingle at h
  simp only [Bool.and_eq_true, beq_iff_eq] at h
  obtain ⟨⟨hab, he⟩, ha⟩ := h
  have ha' := ER.feq_fin_left ha
  refine ⟨ha', ?_, he⟩
  rw [ha'] at hab
  exact ER.feq_fin_right hab

lemma isP0_not_isZero {x : Interval} (h : x.isP0 = true) : x.IsZero = false := by
  by_contra hcon
  simp only [Bool.not_eq_false] at hcon
  have hb := (isZero_shape hcon).2.1
  have := (isP0_shape h).2.2
  rw [hb] at this
  exact absurd this (by decide)

lemma isP1_not_isZero {x : Interval} (h : x.isP1 = true) : x.IsZero = false := by
  by_contra hcon
  simp only [Bool.not_eq_false] at hcon
  have hb := (isZero_shape hcon).2.1
  have := (isP1_facts h).1
  rw [hb] at this
  exact absurd this (by decide)

lemma isPos_not_isZero {x : Interval} (h : x.isPos = true) : x.IsZero = false := by
  rcases Bool.or_eq_true_iff.mp h with h0 | h1
  · exact isP0_not_isZero h0
  · exact isP1_not_isZero h1

lemma mixed_not_isZero {x : Interval} (h : x.IsMixed = true) : x.IsZero = false := by
  by_contra hcon
  simp only [Bool.not_eq_false] at hcon
  have ha := (isZero_shape hcon).1
  unfold Interval.IsMixed at h
  simp only [Bool.and_eq_true] at h
  rw [ha] at h
  exact absurd h.1 (by decide)

lemma isP1_not_mixed {x : Interval} (h : x.isP1 = true) : x.IsMixed = false := by
  unfold Interval.IsMixed
  rw [(isP1_facts h).2.1]
  rfl

lemma isP1_not_has0 {x : Interval} (h : x.isP1 = true) : x.has0 = false := by
  obtain ⟨hb, hfa, hor⟩ := isP1_facts h
  unfold Interval.has0
  have h0 : x.isP0 = false := by
    unfold Interval.isP0
    rcases hor with h1 | h1 <;> simp [h1]
  have hm : x.IsMixed = false := isP1_not_mixed h
  have hn : x.isN0 = false := by
    unfold Interval.isN0 Interval.isP0
    have : ER.feq x.Neg.a (ER.fin 0) = false := by
      show ER.feq (ER.neg x.b) (ER.fin 0) = false
      rcases ER.zero_flt_shape hb with h1 | ⟨q, h1, hq⟩ <;> simp [h1, ER.neg, ER.feq]
      intro hcon
      exact absurd hcon (ne_of_gt hq)
    simp [this]
  simp [h0, hm, hn]

lemma not_contains_zero_of_left {x : Interval}
    (h : (ER.flt x.a (ER.fin 0) || (ER.feq x.a (ER.fin 0) && x.LeftIsClosed)) = false) :
    x.Contains (ER.fin 0) = false := by
  unfold Interval.Contains
  rw [h]
  rfl

lemma mk_isP1 {x : Interval} (hb : ER.flt (ER.fin 0) x.b = true)
    (ha : ER.flt x.a (ER.fin 0) = false)
    (h2 : ER.feq x.a (ER.fin 0) = false ∨ x.LeftIsClosed = false) :
    x.isP1 = true := by
  unfold Interval.isP1
  have hc : x.Contains (ER.fin 0) = false := by
    apply not_contains_zero_of_left
    rcases h2 with h2 | h2 <;> simp [ha, h2]
  simp [hc]
  exact hb

lemma mk_isP0 {x : Interval} (ha : x.a = ER.fin 0) (hb : ER.flt (ER.fin 0) x.b = true)
    (hl : x.LeftIsClosed = true) : x.isP0 = true := by
  unfold Interval.isP0
  rw [ha]
  simp [ER.feq, hl]
  exact hb

/-- Totality of the sign classification: a valid, non-empty interval other than
[0, 0] is negative, positive, or mixed. -/
lemma classify {x : Interval} (hv : Valid x) (he : x.IsEmpty = false) (hz : x.IsZero = false) :
    x.isNeg = true ∨ x.isPos = true ∨ x.IsMixed = true := by
  obtain ⟨h4, han, hbn, hac, hbc⟩ := valid_nonempty_facts hv he
  obtain ⟨hsa, hsb⟩ := nonempty_shape hv he
  have hord : ER.fgt x.a x.b = false ∧ (ER.feq x.a x.b = false ∨ x.ends = EClosed) := by
    unfold Interval.IsEmpty at he
    simp only [Bool.or_eq_false_iff, Bool.and_eq_false_iff, bne_eq_false_iff_eq] at he
    tauto
  have hmk_mixed : ER.flt x.a (ER.fin 0) = true → ER.flt (ER.fin 0) x.b = true →
      x.IsMixed = true := by
    intro h1 h2
    unfold Interval.IsMixed
    simp [h1, h2]
  rcases hsa with ha | ⟨qa, ha⟩
  · -- x.a = -inf: left endpoint open by validity
    have hlc : x.LeftIsClosed = false := by
      by_contra hcon
      simp only [Bool.not_eq_false] at hcon
      exact hac ⟨ha, hcon⟩
    have hfa : ER.flt x.a (ER.fin 0) = true := by rw [ha]; rfl
    rcases hsb with hb | ⟨qb, hb⟩
    · exact Or.inr (Or.inr (hmk_mixed hfa (by rw [hb]; rfl)))
    · rcases lt_trichotomy qb 0 with hq | hq | hq
      · -- b = fin qb < 0 : N1
        left
        unfold Interval.isNeg Interval.isPos
        have : x.Neg.isP1 = true := by
          apply mk_isP1
          · show ER.flt (ER.fin 0) (ER.neg x.a) = true
            rw [ha]; rfl
          · show ER.flt (ER.neg x.b) (ER.fin 0) = false
            rw [hb]; simp [ER.neg, ER.flt]; linarith
          · left
            show ER.feq (ER.neg x.b) (ER.fin 0) = false
            rw [hb]; simp [ER.neg, ER.feq]; linarith
        simp [this]
      · -- b = fin 0 : N0 or N1 depending on the right flag
        subst hq
        left
        unfold Interval.isNeg Interval.isPos
        cases hrc : x.RightIsClosed
        · have : x.Neg.isP1 = true := by
            apply mk_isP1
            · show ER.flt (ER.fin 0) (ER.neg x.a) = true
              rw [ha]; rfl
            · show ER.flt (ER.neg x.b) (ER.fin 0) = false
              rw [hb]; simp [ER.neg, ER.flt]
            · right
              rw [lc_neg]
              exact hrc
          simp [this]
        · have : x.Neg.isP0 = true := by
            apply mk_isP0
            · show ER.neg x.b = ER.fin 0
              rw [hb]; simp [ER.neg]
            · show ER.flt (ER.fin 0) (ER.neg x.a) = true
              rw [ha]; rfl
            · rw [lc_neg]; exact hrc
          simp [this]
      · exact Or.inr (Or.inr (hmk_mixed hfa (by rw [hb]; simpa [ER.flt] using hq)))
  · -- x.a = fin qa
    rcases lt_trichotomy qa 0 with hqa | hqa | hqa
    · -- qa < 0
      have hfa : ER.flt x.a (ER.fin 0) = true := by rw [ha]; simpa [ER.flt] using hqa
      rcases hsb with hb | ⟨qb, hb⟩
      · exact Or.inr (Or.inr (hmk_mixed hfa (by rw [hb]; rfl)))
      · rcases lt_trichotomy qb 0 with hqb | hqb | hqb
        · -- b = fin qb < 0 : N1
          left
          unfold Interval.isNeg Interval.isPos
          have : x.Neg.isP1 = true := by
            apply mk_isP1
            · show ER.flt (ER.fin 0) (ER.neg x.a) = true
              rw [ha]; simp [ER.neg, ER.flt]; linarith
            · show ER.flt (ER.neg x.b) (ER.fin 0) = false
              rw [hb]; simp [ER.neg, ER.flt]; linarith
            · left
              show ER.feq (ER.neg x.b) (ER.fin 0) = false
              rw [hb]; simp [ER.neg, ER.feq]; linarith
          simp [this]
        · -- b = fin 0 : N0 or N1
          subst hqb
          left
          unfold Interval.isNeg Interval.isPos
          cases hrc : x.RightIsClosed
          · have : x.Neg.isP1 = true := by
              apply mk_isP1
              · show ER.flt (ER.fin 0) (ER.neg x.a) = true
                rw [ha]; simp [ER.neg, ER.flt]; linarith
              · show ER.flt (ER.neg x.b) (ER.fin 0) = false
                rw [hb]; simp [ER.neg, ER.flt]
              · right
                rw [lc_neg]
                exact hrc
            simp [this]
          · have : x.Neg.isP0 = true := by
              apply mk_isP0
              · show ER.neg x.b = ER.fin 0
                rw [hb]; simp [ER.neg]
              · show ER.flt (ER.fin 0) (ER.neg x.a) = true
                rw [ha]; simp [ER.neg, ER.flt]; linarith
              · rw [lc_neg]; exact hrc
            simp [this]
        · exact Or.inr (Or.inr (hmk_mixed hfa (by rw [hb]; simpa [ER.flt] using hqb)))
    · -- qa = 0
      subst hqa
      have hb0 : ER.flt (ER.fin 0) x.b = true := by
        rcases hsb with hb | ⟨qb, hb⟩
        · rw [hb]; rfl
        · rcases hord with ⟨ho1, ho2⟩
          rw [ha, hb] at ho1
          have hle : (0 : ℚ) ≤ qb := by
            by_contra hcon
            rw [show ER.fgt (ER.fin (0 : ℚ)) (ER.fin qb) = decide (qb < 0) from rfl] at ho1
            simp at ho1
            exact absurd ho1 (by push_neg at hcon ⊢; linarith)
          rcases eq_or_lt_of_le hle with heq | hlt
          · -- b = 0 as well: x would be [0,0], contradicting hz
            exfalso
            rw [ha, hb, ← heq] at ho2
            have hends : x.ends = EClosed := by
              rcases ho2 with h | h
              · exact absurd h (by simp [ER.feq])
              · exact h
            have : x.IsZero = true := by
              unfold Interval.IsZero Interval.IsSingle
              rw [ha, hb, ← heq, hends]
              rfl
            rw [hz] at this
            exact absurd this (by decide)
          · rw [hb]; simpa [ER.flt] using hlt
      cases hlc : x.LeftIsClosed
      · right; left
        unfold Interval.isPos
        have : x.isP1 = true := by
          apply mk_isP1 hb0
          · rw [ha]; rfl
          · right; exact hlc
        simp [this]
      · right; left
        unfold Interval.isPos
        have : x.isP0 = true := mk_isP0 ha hb0 hlc
        simp [this]
    · -- qa > 0 : P1
      right; left
      unfold Interval.isPos
      have hb0 : ER.flt (ER.fin 0) x.b = true := by
        rcases hsb with hb | ⟨qb, hb⟩
        · rw [hb]; rfl
        · rcases hord with ⟨ho1, _⟩
          rw [ha, hb] at ho1
          rw [show ER.fgt (ER.fin qa) (ER.fin qb) = decide (qb < qa) from rfl] at ho1
          simp at ho1
          rw [hb]
          simp [ER.flt]
          linarith
      have : x.isP1 = true := by
        apply mk_isP1 hb0
        · rw [ha]; simp [ER.flt]; linarith
        · left
          rw [ha]; simp [ER.feq]; linarith
      simp [this]

lemma isPos_of_isP1 {x : Interval} (h : x.isP1 = true) : x.isPos = true := by
  unfold Interval.isPos
  simp [h]

lemma not_equal_zeroI {y : Interval} (h : Equal y zeroI = false) : y.IsZero = false := by
  by_contra hcon
  simp only [Bool.not_eq_false] at hcon
  obtain ⟨ha, hb, he⟩ := isZero_shape hcon
  have hne : y.IsEmpty = false := by
    unfold Interval.IsEmpty
    rw [ha, hb, he]
    rfl
  unfold Equal at h
  rw [hne, ha, hb, he] at h
  exact absurd h (by decide)

lemma isP1_not_isP0 {x : Interval} (h : x.isP1 = true) : x.isP0 = false := by
  unfold Interval.isP0
  rcases (isP1_facts h).2.2 with h1 | h1 <;> simp [h1]

lemma mixed_not_isP1 {x : Interval} (h : x.IsMixed = true) : x.isP1 = false := by
  have := mixed_not_isPos h
  unfold Interval.isPos at this
  exact (Bool.or_eq_false_iff.mp this).2

lemma bit_sum_land1 {e1 e2 : Nat} (h1 : e1 = 0 ∨ e1 = 1) (h2 : e2 = 0 ∨ e2 = 2) :
    Nat.land (e1 + e2) 1 = e1 := by
  rcases h1 with h | h <;> rcases h2 with h' | h' <;> rw [h, h'] <;> rfl

lemma bit_sum_land2 {e1 e2 : Nat} (h1 : e1 = 0 ∨ e1 = 1) (h2 : e2 = 0 ∨ e2 = 2) :
    Nat.land (e1 + e2) 2 = e2 := by
  rcases h1 with h | h <;> rcases h2 with h' | h' <;> rw [h, h'] <;> rfl

lemma land_land_one_ne (m n : Nat) :
    (Nat.land (Nat.land m n) 1 != 0) = ((Nat.land m 1 != 0) && (Nat.land n 1 != 0)) := by
  rw [land_land_one]
  rcases land1_cases m with h | h <;> rcases land1_cases n with h' | h' <;> rw [h, h'] <;> rfl

lemma land_land_two_ne (m n : Nat) :
    (Nat.land (Nat.land m n) 2 != 0) = ((Nat.land m 2 != 0) && (Nat.land n 2 != 0)) := by
  rw [land_land_two]
  rcases land2_cases m with h | h <;> rcases land2_cases n with h' | h' <;> rw [h, h'] <;> rfl

lemma flip_land_one_ne (e : Nat) : (Nat.land (endsFlip e) 1 != 0) = (Nat.land e 2 != 0) := by
  rw [endsFlip_land1]
  rcases land2_cases e with h | h <;> rw [h] <;> rfl

lemma flip_land_two_ne (e : Nat) : (Nat.land (endsFlip e) 2 != 0) = (Nat.land e 1 != 0) := by
  rw [endsFlip_land2]
  rcases land1_cases e with h | h <;> rw [h] <;> rfl

/-! ### Claim theorems -/

/-- C1: dividing a strictly positive interval that does not touch zero (`P1`)
by an interval that straddles zero (mixed) yields the open interval
(-inf, +inf) together with the `DisjointUnion` error; in particular
[1,2] / [-2,4] does. -/
theorem C1_div_p1_by_mixed :
    (∀ x y : Interval, Valid x → Valid y → x.IsEmpty = false → y.IsEmpty = false →
      x.isP1 = true → y.IsMixed = true →
      Div x y = some (⟨ER.ninf, ER.pinf, EOpen⟩, some DivErr.DisjointUnion)) ∧
    Div ⟨ER.fin 1, ER.fin 2, EClosed⟩ ⟨ER.fin (-2), ER.fin 4, EClosed⟩ =
      some (⟨ER.ninf, ER.pinf, EOpen⟩, some DivErr.DisjointUnion) := by
  constructor
  · intro x y hvx hvy hex hey hp1 hmix
    have h1 : (x.IsEmpty || y.IsEmpty) = false := by rw [hex, hey]; rfl
    have h2 : y.IsZero = false := mixed_not_isZero hmix
    have h3 : x.IsZero = false := isP1_not_isZero hp1
    have h4 : x.isNeg = false := isPos_not_isNeg (isPos_of_isP1 hp1)
    have h5 : y.isNeg = false := mixed_not_isNeg hmix
    have h6 : ((x.has0 && y.IsMixed) || (x.IsMixed && y.has0)) = false := by
      rw [isP1_not_has0 hp1, isP1_not_mixed hp1]
      rfl
    have h7 : (x.isP1 && y.IsMixed) = true := by rw [hp1, hmix]; rfl
    show DivAux 3 x y = _
    unfold DivAux
    rw [h1, h2, h3, h4, h5, h6, h7]
    simp
  · decide

/-- C1 witness: a concrete P1 numerator and mixed denominator. -/
theorem C1_witness :
    Div ⟨ER.fin 1, ER.fin 3, EClosed⟩ ⟨ER.fin (-1), ER.fin 5, EClosed⟩ =
      some (⟨ER.ninf, ER.pinf, EOpen⟩, some DivErr.DisjointUnion) :=
  C1_div_p1_by_mixed.1 _ _ (by decide) (by decide) (by decide) (by decide)
    (by decide) (by decide)

/-- C6: multiplying any non-empty interval by [0, 0] yields [0, 0];
dividing [0, 0] by any non-empty interval other than [0, 0] yields [0, 0]
with no error; and dividing any non-empty interval by [0, 0] yields the
empty interval with the `DivByZero` error. -/
theorem C6_zero_identities :
    (∀ x : Interval, Valid x → x.IsEmpty = false → Mul x zeroI = some zeroI) ∧
    (∀ y : Interval, Valid y → y.IsEmpty = false → Equal y zeroI = false →
      Div zeroI y = some (zeroI, none)) ∧
    (∀ x : Interval, Valid x → x.IsEmpty = false →
      Div x zeroI = some (emptyI, some DivErr.DivByZero)) := by
  refine ⟨?_, ?_, ?_⟩
  · intro x hv hex
    have h1 : (x.IsEmpty || zeroI.IsEmpty) = false := by rw [hex]; rfl
    have h2 : (x.IsZero || zeroI.IsZero) = true := by
      rw [show zeroI.IsZero = true from rfl]
      simp
    show MulAux 4 x zeroI = _
    unfold MulAux
    rw [h1, h2]
    simp
  · intro y hv hey hne
    have h1 : (zeroI.IsEmpty || y.IsEmpty) = false := by rw [hey]; rfl
    have h2 : y.IsZero = false := not_equal_zeroI hne
    have h3 : zeroI.IsZero = true := by decide
    show DivAux 3 zeroI y = _
    unfold DivAux
    rw [h1, h2, h3]
    simp
  · intro x hv hex
    have h1 : (x.IsEmpty || zeroI.IsEmpty) = false := by rw [hex]; rfl
    have h2 : zeroI.IsZero = true := by decide
    show DivAux 3 x zeroI = _
    unfold DivAux
    rw [h1, h2]
    simp

/-- C6 witness: the three zero identities at concrete operands. -/
theorem C6_witness :
    Mul ⟨ER.fin 1, ER.fin 2, EClosed⟩ zeroI = some zeroI ∧
    Div zeroI ⟨ER.fin 1, ER.fin 2, EClosed⟩ = some (zeroI, none) ∧
    Div ⟨ER.fin 1, ER.fin 2, EClosed⟩ zeroI = some (emptyI, some DivErr.DivByZero) :=
  ⟨C6_zero_identities.1 _ (by decide) (by decide),
   C6_zero_identities.2.1 _ (by decide) (by decide) (by decide),
   C6_zero_identities.2.2 _ (by decide) (by decide)⟩

/-- C8 counterexample: with all operands closed,
add(sub(add([1,2],[3,4]), [3,4]), [0,0]) is [0,3], which is not equal
to [1,2] as the claim states (interval subtraction does not invert
interval addition). -/
theorem C8_counterexample :
    Equal (Add (Sub (Add ⟨ER.fin 1, ER.fin 2, EClosed⟩ ⟨ER.fin 3, ER.fin 4, EClosed⟩)
        ⟨ER.fin 3, ER.fin 4, EClosed⟩) zeroI) ⟨ER.fin 1, ER.fin 2, EClosed⟩ = false := by
  norm_num +decide [Add, Sub, Equal, Interval.IsEmpty, Interval.Neg, ER.fgt, ER.flt, ER.feq,
    ER.add, ER.neg, endsFlip, EClosed, EOpen, leftEndMask, rightEndMask, zeroI, emptyI]

/-- C8 amended: with all operands closed,
add(sub(add([1,2],[3,4]), [3,4]), [0,0]) equals the closed interval [0,3]
(an enclosure of [1,2]; the dependency effect widens the result). -/
theorem C8_round_trip_amended :
    Add (Sub (Add ⟨ER.fin 1, ER.fin 2, EClosed⟩ ⟨ER.fin 3, ER.fin 4, EClosed⟩)
        ⟨ER.fin 3, ER.fin 4, EClosed⟩) zeroI = ⟨ER.fin 0, ER.fin 3, EClosed⟩ := by
  norm_num +decide [Add, Sub, Interval.IsEmpty, Interval.Neg, ER.fgt, ER.flt, ER.feq,
    ER.add, ER.neg, endsFlip, EClosed, EOpen, leftEndMask, rightEndMask, zeroI, emptyI]

/-- C4 counterexample: for the mixed interval [-1,1] divided by the strictly
positive interval [1,2] (all endpoints closed), the code returns [-1,1] with a
closed right endpoint and no error, while the claim's XOR rule for the right
endpoint (x's mode XOR y's flipped mode, here giving bit value 0) predicts an
open right endpoint. -/
theorem C4_counterexample :
    Div ⟨ER.fin (-1), ER.fin 1, EClosed⟩ ⟨ER.fin 1, ER.fin 2, EClosed⟩ =
      some (⟨ER.fin (-1), ER.fin 1, EClosed⟩, none) ∧
    Interval.RightIsClosed ⟨ER.fin (-1), ER.fin 1, EClosed⟩ = true ∧
    Nat.land (Nat.xor EClosed (endsFlip EClosed)) rightEndMask = 0 := by
  refine ⟨?_, by decide, by decide⟩
  norm_num +decide [Div, DivAux, Interval.IsEmpty, Interval.IsZero, Interval.IsSingle,
    Interval.isNeg, Interval.isPos, Interval.isP0, Interval.isP1, Interval.isN0,
    Interval.IsMixed, Interval.has0, Interval.Neg, Interval.Contains,
    Interval.LeftIsClosed, Interval.RightIsClosed, ER.fgt, ER.flt, ER.feq, ER.neg, ER.div,
    endsFlip, EOpen, EClosed, leftEndMask, rightEndMask]

/-- C4 amended: for valid non-empty x mixed and y strictly positive not
touching zero (`P1`), Div returns [x.a/y.a, x.b/y.a] with no error; the left
endpoint is closed iff both x's and y's left endpoints are closed, and the
right endpoint is closed iff x's right-endpoint mode AND-combined with y's
flipped mode gives closed (i.e. x's right endpoint and y's left endpoint are
both closed) — AND, not XOR as claimed. -/
theorem C4_div_mixed_by_p1_amended :
    ∀ x y : Interval, Valid x → Valid y → x.IsEmpty = false → y.IsEmpty = false →
      x.IsMixed = true → y.isP1 = true →
      ∃ r : Interval, Div x y = some (r, none) ∧
        r.a = ER.div x.a y.a ∧ r.b = ER.div x.b y.a ∧
        r.LeftIsClosed = (x.LeftIsClosed && y.LeftIsClosed) ∧
        r.RightIsClosed = (x.RightIsClosed && y.LeftIsClosed) := by
  intro x y hvx hvy hex hey hmix hp1
  have h1 : (x.IsEmpty || y.IsEmpty) = false := by rw [hex, hey]; rfl
  have h2 : y.IsZero = false := isP1_not_isZero hp1
  have h3 : x.IsZero = false := mixed_not_isZero hmix
  have h4 : x.isNeg = false := mixed_not_isNeg hmix
  have h5 : y.isNeg = false := isPos_not_isNeg (isPos_of_isP1 hp1)
  have h6 : ((x.has0 && y.IsMixed) || (x.IsMixed && y.has0)) = false := by
    rw [isP1_not_mixed hp1, isP1_not_has0 hp1]
    simp
  have h7 : (x.isP1 && y.IsMixed) = false := by
    rw [isP1_not_mixed hp1]
    simp
  have h8 : y.isP0 = false := isP1_not_isP0 hp1
  have h9 : x.isPos = false := mixed_not_isPos hmix
  have hdiv : DivAux 3 x y = some (⟨ER.div x.a y.a, ER.div x.b y.a,
      Nat.land (Nat.land x.ends y.ends) leftEndMask +
        Nat.land (Nat.land x.ends (endsFlip y.ends)) rightEndMask⟩, none) := by
    unfold DivAux
    rw [h1, h2, h3, h4, h5, h6, h7, h8, h9, hmix]
    simp
  refine ⟨_, hdiv, rfl, rfl, ?_, ?_⟩
  · show (Nat.land (Nat.land (Nat.land x.ends y.ends) leftEndMask +
        Nat.land (Nat.land x.ends (endsFlip y.ends)) rightEndMask) leftEndMask != 0) = _
    simp only [Interval.LeftIsClosed, leftEndMask, rightEndMask]
    rw [bit_sum_land1 (land1_cases _) (land2_cases _), land_land_one_ne]
  · show (Nat.land (Nat.land (Nat.land x.ends y.ends) leftEndMask +
        Nat.land (Nat.land x.ends (endsFlip y.ends)) rightEndMask) rightEndMask != 0) = _
    simp only [Interval.RightIsClosed, Interval.LeftIsClosed, leftEndMask, rightEndMask]
    rw [bit_sum_land2 (land1_cases _) (land2_cases _), land_land_two_ne, flip_land_two_ne]

/-- C4 witness: the amended endpoint rule at x = [-1,1], y = [1,2]: both
result endpoints closed, no error. -/
theorem C4_witness :
    (Div ⟨ER.fin (-1), ER.fin 1, EClosed⟩ ⟨ER.fin 1, ER.fin 2, EClosed⟩).map
        (fun p => (p.1.LeftIsClosed, p.1.RightIsClosed, p.2)) = some (true, true, none) := by
  obtain ⟨r, hd, _, _, hl, hr⟩ :=
    C4_div_mixed_by_p1_amended ⟨ER.fin (-1), ER.fin 1, EClosed⟩ ⟨ER.fin 1, ER.fin 2, EClosed⟩
      (by decide) (by decide) (by decide) (by decide) (by decide) (by decide)
  rw [hd]
  simp only [Option.map_some']
  rw [hl, hr]
  rfl

lemma overlaps_guard {x y : Interval} (h : Overlaps x y = true) :
    (!(x.Contains y.a) && !(x.Contains y.b) && !(y.Contains x.a) && !(y.Contains x.b)) = false := by
  unfold Overlaps at h
  cases hA : x.Contains y.a <;> cases hB : x.Contains y.b <;>
    cases hC : y.Contains x.a <;> cases hD : y.Contains x.b <;> simp_all

/-- The XOR-accumulation of one bit-0 value and one bit-1 value is their sum. -/
lemma xor_bits {e1 e2 : Nat} (h1 : e1 = 0 ∨ e1 = 1) (h2 : e2 = 0 ∨ e2 = 2) :
    Nat.xor e1 e2 = e1 + e2 := by
  rcases h1 with h | h <;> rcases h2 with h' | h' <;> rw [h, h'] <;> rfl

lemma if_val_cases (b : Bool) (v : Nat) :
    (if b = true then v else 0) = 0 ∨ (if b = true then v else 0) = v := by
  cases b <;> simp

lemma chain_cases {v : Nat} (c1 c2 c3 : Prop) [Decidable c1] [Decidable c2] [Decidable c3]
    {n1 n2 n3 : Nat} (h1 : n1 = 0 ∨ n1 = v) (h2 : n2 = 0 ∨ n2 = v) (h3 : n3 = 0 ∨ n3 = v) :
    (if c1 then n1 else if c2 then n2 else if c3 then n3 else 0) = 0 ∨
      (if c1 then n1 else if c2 then n2 else if c3 then n3 else 0) = v := by
  split_ifs
  · exact h1
  · exact h2
  · exact h3
  · exact Or.inl rfl

lemma inter_left_eq (x y : Interval) :
    (if ER.flt x.a y.a then Nat.land y.ends leftEndMask
     else if ER.feq x.a y.a then Nat.land (Nat.land x.ends y.ends) leftEndMask
     else if ER.fgt x.a y.a then Nat.land x.ends leftEndMask else 0)
    = (if ER.flt x.a y.a then (if y.LeftIsClosed then 1 else 0)
       else if ER.feq x.a y.a then (if x.LeftIsClosed && y.LeftIsClosed then 1 else 0)
       else if ER.fgt x.a y.a then (if x.LeftIsClosed then 1 else 0) else 0) := by
  simp only [Interval.LeftIsClosed, leftEndMask, land_land_one]
  rcases land1_cases x.ends with hx1 | hx1 <;> rcases land1_cases y.ends with hy1 | hy1 <;>
    simp only [hx1, hy1] <;> split_ifs <;> simp_all <;> decide

lemma inter_right_eq (x y : Interval) :
    (if ER.flt x.b y.b then Nat.land x.ends rightEndMask
     else if ER.feq x.b y.b then Nat.land (Nat.land x.ends y.ends) rightEndMask
     else if ER.fgt x.b y.b then Nat.land y.ends rightEndMask else 0)
    = (if ER.flt x.b y.b then (if x.RightIsClosed then 2 else 0)
       else if ER.feq x.b y.b then (if x.RightIsClosed && y.RightIsClosed then 2 else 0)
       else if ER.fgt x.b y.b then (if y.RightIsClosed then 2 else 0) else 0) := by
  simp only [Interval.RightIsClosed, rightEndMask, land_land_two]
  rcases land2_cases x.ends with hx2 | hx2 <;> rcases land2_cases y.ends with hy2 | hy2 <;>
    simp only [hx2, hy2] <;> split_ifs <;> simp_all <;> decide

lemma union_left_eq (x y : Interval) :
    (if ER.flt x.a y.a then Nat.land x.ends leftEndMask
     else if ER.feq x.a y.a then Nat.land (Nat.lor x.ends y.ends) leftEndMask
     else if ER.fgt x.a y.a then Nat.land y.ends leftEndMask else 0)
    = (if ER.flt x.a y.a then (if x.LeftIsClosed then 1 else 0)
       else if ER.feq x.a y.a then (if x.LeftIsClosed || y.LeftIsClosed then 1 else 0)
       else if ER.fgt x.a y.a then (if y.LeftIsClosed then 1 else 0) else 0) := by
  simp only [Interval.LeftIsClosed, leftEndMask, lor_land_one]
  rcases land1_cases x.ends with hx1 | hx1 <;> rcases land1_cases y.ends with hy1 | hy1 <;>
    simp only [hx1, hy1] <;> split_ifs <;> simp_all <;> decide

lemma union_right_eq (x y : Interval) :
    (if ER.flt x.b y.b then Nat.land y.ends rightEndMask
     else if ER.feq x.b y.b then Nat.land (Nat.lor x.ends y.ends) rightEndMask
     else if ER.fgt x.b y.b then Nat.land x.ends rightEndMask else 0)
    = (if ER.flt x.b y.b then (if y.RightIsClosed then 2 else 0)
       else if ER.feq x.b y.b then (if x.RightIsClosed || y.RightIsClosed then 2 else 0)
       else if ER.fgt x.b y.b then (if x.RightIsClosed then 2 else 0) else 0) := by
  simp only [Interval.RightIsClosed, rightEndMask, lor_land_two]
  rcases land2_cases x.ends with hx2 | hx2 <;> rcases land2_cases y.ends with hy2 | hy2 <;>
    simp only [hx2, hy2] <;> split_ifs <;> simp_all <;> decide

/-- C2: for valid, non-empty, non-equal, overlapping operands, Intersection
takes bounds max(x.a, y.a), min(x.b, y.b) and derives each endpoint's
closedness from the binding input, with AND semantics on ties; in particular
the intersection of (-1,2) and [2,4] is (Equal to) the canonical empty
interval (0, 0). -/
theorem C2_intersection :
    (∀ x y : Interval, Valid x → Valid y → x.IsEmpty = false → y.IsEmpty = false →
      Equal x y = false → Overlaps x y = true →
      Intersection x y = ⟨ER.fmax x.a y.a, ER.fmin x.b y.b, interEndsSpec x y⟩) ∧
    Equal (Intersection ⟨ER.fin (-1), ER.fin 2, EOpen⟩ ⟨ER.fin 2, ER.fin 4, EClosed⟩)
      emptyI = true := by
  constructor
  · intro x y hvx hvy hex hey heq hov
    have h1 : (x.IsEmpty || y.IsEmpty) = false := by rw [hex, hey]; rfl
    have h3 := overlaps_guard hov
    unfold Intersection
    rw [h1, heq, h3]
    simp only [Bool.false_eq_true, if_false, Interval.mk.injEq]
    refine ⟨trivial, trivial, ?_⟩
    rw [inter_left_eq, inter_right_eq,
      xor_bits (chain_cases _ _ _ (if_val_cases _ _) (if_val_cases _ _) (if_val_cases _ _))
        (chain_cases _ _ _ (if_val_cases _ _) (if_val_cases _ _) (if_val_cases _ _))]
    rfl
  · decide

/-- C2 witness: intersection of [1,4] and (2,6): binding left bound 2 comes
from the open-left second operand, binding right bound 4 from the closed-right
first operand. -/
theorem C2_witness :
    Intersection ⟨ER.fin 1, ER.fin 4, EClosed⟩ ⟨ER.fin 2, ER.fin 6, EOpen⟩ =
      ⟨ER.fmax (ER.fin 1) (ER.fin 2), ER.fmin (ER.fin 4) (ER.fin 6),
        interEndsSpec ⟨ER.fin 1, ER.fin 4, EClosed⟩ ⟨ER.fin 2, ER.fin 6, EOpen⟩⟩ :=
  C2_intersection.1 _ _ (by decide) (by decide) (by decide) (by decide) (by decide) (by decide)

/-- C3: for valid, non-empty, non-equal, overlapping operands, Union takes
bounds min(x.a, y.a), max(x.b, y.b) and derives each endpoint's closedness
from the binding input, with OR semantics on ties; in particular the union of
(-1,2] and [2,4] is (-1,4]. -/
theorem C3_union :
    (∀ x y : Interval, Valid x → Valid y → x.IsEmpty = false → y.IsEmpty = false →
      Equal x y = false → Overlaps x y = true →
      Union x y = ⟨ER.fmin x.a y.a, ER.fmax x.b y.b, unionEndsSpec x y⟩) ∧
    Union ⟨ER.fin (-1), ER.fin 2, ERightClosed⟩ ⟨ER.fin 2, ER.fin 4, EClosed⟩ =
      ⟨ER.fin (-1), ER.fin 4, ERightClosed⟩ := by
  constructor
  · intro x y hvx hvy hex hey heq hov
    have h1 : (x.IsEmpty || y.IsEmpty) = false := by rw [hex, hey]; rfl
    have h3 := overlaps_guard hov
    unfold Union
    rw [h1, heq, h3]
    simp only [Bool.false_eq_true, if_false, Interval.mk.injEq]
    refine ⟨trivial, trivial, ?_⟩
    rw [union_left_eq, union_right_eq,
      xor_bits (chain_cases _ _ _ (if_val_cases _ _) (if_val_cases _ _) (if_val_cases _ _))
        (chain_cases _ _ _ (if_val_cases _ _) (if_val_cases _ _) (if_val_cases _ _))]
    rfl
  · decide

/-- C3 witness: union of [1,4] and (2,6): binding left bound 1 comes from the
closed-left first operand, binding right bound 6 from the open-right second
operand. -/
theorem C3_witness :
    Union ⟨ER.fin 1, ER.fin 4, EClosed⟩ ⟨ER.fin 2, ER.fin 6, EOpen⟩ =
      ⟨ER.fmin (ER.fin 1) (ER.fin 2), ER.fmax (ER.fin 4) (ER.fin 6),
        unionEndsSpec ⟨ER.fin 1, ER.fin 4, EClosed⟩ ⟨ER.fin 2, ER.fin 6, EOpen⟩⟩ :=
  C3_union.1 _ _ (by decide) (by decide) (by decide) (by decide) (by decide) (by decide)

lemma isPos_not_mixed {x : Interval} (h : x.isPos = true) : x.IsMixed = false := by
  rcases Bool.or_eq_true_iff.mp h with h0 | h1
  · have ha := (isP0_shape h0).1
    unfold Interval.IsMixed
    rw [ha]
    rfl
  · exact isP1_not_mixed h1

/-- Terminal branch: positive times positive succeeds in one step. -/
lemma mulAux_pos_pos {n : Nat} {x y : Interval} (hx : x.isPos = true) (hy : y.isPos = true) :
    (MulAux (n + 1) x y).isSome = true := by
  have h1 := isPos_not_isNeg hx
  have h2 := isPos_not_isNeg hy
  unfold MulAux
  split_ifs <;> simp_all

/-- Terminal branch: positive times mixed succeeds in one step. -/
lemma mulAux_pos_mixed {n : Nat} {x y : Interval} (hx : x.isPos = true) (hy : y.IsMixed = true) :
    (MulAux (n + 1) x y).isSome = true := by
  have h1 := isPos_not_isNeg hx
  have h2 := mixed_not_isNeg hy
  have h3 := mixed_not_isPos hy
  unfold MulAux
  split_ifs <;> simp_all

/-- Terminal branch: mixed times mixed succeeds in one step. -/
lemma mulAux_mixed_mixed {n : Nat} {x y : Interval} (hx : x.IsMixed = true) (hy : y.IsMixed = true) :
    (MulAux (n + 1) x y).isSome = true := by
  have h1 := mixed_not_isNeg hx
  have h2 := mixed_not_isNeg hy
  have h3 := mixed_not_isPos hx
  have h4 := mixed_not_isPos hy
  unfold MulAux
  split_ifs <;> simp_all

/-- Mixed times positive succeeds in two steps (after the operand swap). -/
lemma mulAux_mixed_pos {n : Nat} {x y : Interval} (hx : x.IsMixed = true) (hy : y.isPos = true) :
    (MulAux (n + 2) x y).isSome = true := by
  have h1 := mixed_not_isNeg hx
  have h2 := isPos_not_isNeg hy
  have h3 := mixed_not_isPos hx
  have h4 := isPos_not_mixed hy
  have h5 : (MulAux (n + 1) y x).isSome = true := mulAux_pos_mixed hy hx
  unfold MulAux
  split_ifs <;> simp_all

/-- Both operands positive or mixed: `MulAux` succeeds with two units of fuel. -/
lemma mulAux_nonneg {n : Nat} {x y : Interval}
    (hx : x.isPos = true ∨ x.IsMixed = true) (hy : y.isPos = true ∨ y.IsMixed = true) :
    (MulAux (n + 2) x y).isSome = true := by
  rcases hx with hx | hx <;> rcases hy with hy | hy
  · exact mulAux_pos_pos hx hy
  · exact mulAux_pos_mixed hx hy
  · exact mulAux_mixed_pos hx hy
  · exact mulAux_mixed_mixed hx hy

lemma isSome_map (f : Interval → Interval) (o : Option Interval) :
    (o.map f).isSome = o.isSome := by
  cases o <;> rfl

/-- Reduction step: a negative first operand defers to `Mul(x.Neg, y)`. -/
lemma mulAux_negx {n : Nat} {x y : Interval} (hxn : x.isNeg = true)
    (hs : (MulAux n x.Neg y).isSome = true) : (MulAux (n + 1) x y).isSome = true := by
  unfold MulAux
  split_ifs <;> simp_all [isSome_map]

/-- Reduction step: a negative second operand defers to `Mul(y.Neg, x)`. -/
lemma mulAux_negy {n : Nat} {x y : Interval} (hxn : x.isNeg = false) (hyn : y.isNeg = true)
    (hs : (MulAux n y.Neg x).isSome = true) : (MulAux (n + 1) x y).isSome = true := by
  unfold MulAux
  split_ifs <;> simp_all [isSome_map]

/-- `Mul` is total on valid non-empty operands: fuel 4 always suffices and
the `default: panic` branch is never reached. -/
lemma mul_total {x y : Interval} (hvx : Valid x) (hvy : Valid y)
    (hex : x.IsEmpty = false) (hey : y.IsEmpty = false) :
    (Mul x y).isSome = true := by
  show (MulAux 4 x y).isSome = true
  have h1 : (x.IsEmpty || y.IsEmpty) = false := by rw [hex, hey]; rfl
  by_cases hz : (x.IsZero || y.IsZero) = true
  · unfold MulAux
    rw [h1, hz]
    simp
  · have hz' : (x.IsZero || y.IsZero) = false := by
      cases hc : (x.IsZero || y.IsZero)
      · rfl
      · exact absurd hc hz
    obtain ⟨hzx, hzy⟩ := Bool.or_eq_false_iff.mp hz'
    rcases classify hvx hex hzx with hxn | hxnn
    · -- x negative
      have hxp : x.Neg.isPos = true := hxn
      show (MulAux (3 + 1) x y).isSome = true
      apply mulAux_negx hxn
      rcases classify hvy hey hzy with hyn | hynn
      · -- y negative too
        have hyp : y.Neg.isPos = true := hyn
        show (MulAux (2 + 1) x.Neg y).isSome = true
        apply mulAux_negy (isPos_not_isNeg hxp) hyn
        show (MulAux (1 + 1) y.Neg x.Neg).isSome = true
        exact mulAux_pos_pos hyp hxp
      · rcases hynn with hy | hy
        · show (MulAux (2 + 1) x.Neg y).isSome = true
          exact mulAux_pos_pos hxp hy
        · show (MulAux (2 + 1) x.Neg y).isSome = true
          exact mulAux_pos_mixed hxp hy
    · -- x positive or mixed
      have hxnneg : x.isNeg = false := by
        rcases hxnn with hx | hx
        · exact isPos_not_isNeg hx
        · exact mixed_not_isNeg hx
      rcases classify hvy hey hzy with hyn | hynn
      · -- y negative
        have hyp : y.Neg.isPos = true := hyn
        show (MulAux (3 + 1) x y).isSome = true
        apply mulAux_negy hxnneg hyn
        rcases hxnn with hx | hx
        · show (MulAux (2 + 1) y.Neg x).isSome = true
          exact mulAux_pos_pos hyp hx
        · show (MulAux (2 + 1) y.Neg x).isSome = true
          exact mulAux_pos_mixed hyp hx
      · show (MulAux (2 + 2) x y).isSome = true
        exact mulAux_nonneg hxnn hynn

lemma isSome_mapP (f : Interval × Option DivErr → Interval × Option DivErr)
    (o : Option (Interval × Option DivErr)) : (o.map f).isSome = o.isSome := by
  cases o <;> rfl

set_option maxHeartbeats 1600000 in
/-- Both operands positive or mixed: `DivAux` reaches a terminal branch in
one step. -/
lemma divAux_nonneg {n : Nat} {x y : Interval}
    (hx : x.isPos = true ∨ x.IsMixed = true) (hy : y.isPos = true ∨ y.IsMixed = true) :
    (DivAux (n + 1) x y).isSome = true := by
  have hxn : x.isNeg = false := by
    rcases hx with hx | hx
    · exact isPos_not_isNeg hx
    · exact mixed_not_isNeg hx
  have hyn : y.isNeg = false := by
    rcases hy with hy | hy
    · exact isPos_not_isNeg hy
    · exact mixed_not_isNeg hy
  rcases hx with hx | hx <;> rcases hy with hy | hy <;>
    unfold DivAux <;> split_ifs <;> simp_all

/-- Reduction step: a negative numerator defers to `Div(x.Neg, y)`. -/
lemma divAux_negx {n : Nat} {x y : Interval} (hxn : x.isNeg = true)
    (hs : (DivAux n x.Neg y).isSome = true) : (DivAux (n + 1) x y).isSome = true := by
  unfold DivAux
  split_ifs <;> simp_all [isSome_mapP]

/-- Reduction step: a negative denominator defers to `Div(x, y.Neg)`. -/
lemma divAux_negy {n : Nat} {x y : Interval} (hxn : x.isNeg = false) (hyn : y.isNeg = true)
    (hs : (DivAux n x y.Neg).isSome = true) : (DivAux (n + 1) x y).isSome = true := by
  unfold DivAux
  split_ifs <;> simp_all [isSome_mapP]

/-- `Div` is total on valid non-empty operands: fuel 3 always suffices and
the `default: panic` branch is never reached. -/
lemma div_total {x y : Interval} (hvx : Valid x) (hvy : Valid y)
    (hex : x.IsEmpty = false) (hey : y.IsEmpty = false) :
    (Div x y).isSome = true := by
  show (DivAux 3 x y).isSome = true
  have h1 : (x.IsEmpty || y.IsEmpty) = false := by rw [hex, hey]; rfl
  by_cases hzy : y.IsZero = true
  · unfold DivAux
    rw [h1, hzy]
    simp
  · have hzy' : y.IsZero = false := by
      cases hc : y.IsZero
      · rfl
      · exact absurd hc hzy
    by_cases hzx : x.IsZero = true
    · unfold DivAux
      rw [h1, hzy', hzx]
      simp
    · have hzx' : x.IsZero = false := by
        cases hc : x.IsZero
        · rfl
        · exact absurd hc hzx
      rcases classify hvx hex hzx' with hxn | hxnn
      · -- x negative
        have hxp : x.Neg.isPos = true := hxn
        show (DivAux (2 + 1) x y).isSome = true
        apply divAux_negx hxn
        rcases classify hvy hey hzy' with hyn | hynn
        · -- y negative too
          have hyp : y.Neg.isPos = true := hyn
          show (DivAux (1 + 1) x.Neg y).isSome = true
          apply divAux_negy (isPos_not_isNeg hxp) hyn
          show (DivAux (0 + 1) x.Neg y.Neg).isSome = true
          exact divAux_nonneg (Or.inl hxp) (Or.inl hyp)
        · show (DivAux (1 + 1) x.Neg y).isSome = true
          exact divAux_nonneg (Or.inl hxp) hynn
      · -- x positive or mixed
        have hxnneg : x.isNeg = false := by
          rcases hxnn with hx | hx
          · exact isPos_not_isNeg hx
          · exact mixed_not_isNeg hx
        rcases classify hvy hey hzy' with hyn | hynn
        · -- y negative
          have hyp : y.Neg.isPos = true := hyn
          show (DivAux (2 + 1) x y).isSome = true
          apply divAux_negy hxnneg hyn
          show (DivAux (1 + 1) x y.Neg).isSome = true
          exact divAux_nonneg hxnn (Or.inl hyp)
        · show (DivAux (2 + 1) x y).isSome = true
          exact divAux_nonneg hxnn hynn

/-- C7: for valid non-empty operands the sign-classification dispatch in `Mul`
and `Div` always reaches a defined branch: the `default: panic("unhandled
case")` branches (modelled as `none`) are unreachable, because the sign
classification is total over non-empty non-zero intervals. -/
theorem C7_dispatch_total :
    ∀ x y : Interval, Valid x → Valid y → x.IsEmpty = false → y.IsEmpty = false →
      (Mul x y).isSome = true ∧ (Div x y).isSome = true := by
  intro x y hvx hvy hex hey
  exact ⟨mul_total hvx hvy hex hey, div_total hvx hvy hex hey⟩

/-- C7 witness: the dispatch succeeds at concrete negative and mixed operands. -/
theorem C7_witness :
    (Mul ⟨ER.fin (-8), ER.fin (-4), EClosed⟩ ⟨ER.fin (-2), ER.fin 4, EClosed⟩).isSome = true ∧
    (Div ⟨ER.fin (-8), ER.fin (-4), EClosed⟩ ⟨ER.fin (-2), ER.fin 4, EClosed⟩).isSome = true :=
  C7_dispatch_total _ _ (by decide) (by decide) (by decide) (by decide)

/-! ### NaN-freedom infrastructure (C9) -/

/-- `v` is +inf or a strictly positive finite value (shape of a positive
interval's right bound). -/
def PosHi (v : ER) : Prop := v = ER.pinf ∨ ∃ q : ℚ, v = ER.fin q ∧ 0 < q

/-- `v` is -inf or a strictly negative finite value (shape of a mixed
interval's left bound). -/
def NegLo (v : ER) : Prop := v = ER.ninf ∨ ∃ q : ℚ, v = ER.fin q ∧ q < 0

/-- `v` is a finite non-negative value (shape of a positive interval's left
bound). -/
def FinNN (v : ER) : Prop := ∃ q : ℚ, v = ER.fin q ∧ 0 ≤ q

lemma ER.mul_posHi_posHi {v w : ER} (hv : PosHi v) (hw : PosHi w) : ER.mul v w ≠ ER.nan := by
  rcases hv with hv | ⟨p, hv, hp⟩ <;> rcases hw with hw | ⟨q, hw, hq⟩ <;> subst hv <;> subst hw
  · simp [ER.mul]
  · simp [ER.mul, hq]
  · simp [ER.mul, hp]
  · simp [ER.mul]

lemma ER.mul_posHi_negLo {v w : ER} (hv : PosHi v) (hw : NegLo w) : ER.mul v w ≠ ER.nan := by
  rcases hv with hv | ⟨p, hv, hp⟩ <;> rcases hw with hw | ⟨q, hw, hq⟩ <;> subst hv <;> subst hw
  · simp [ER.mul]
  · simp [ER.mul, hq, hq.not_lt]
  · simp [ER.mul, hp]
  · simp [ER.mul]

lemma ER.mul_negLo_posHi {v w : ER} (hv : NegLo v) (hw : PosHi w) : ER.mul v w ≠ ER.nan := by
  rcases hv with hv | ⟨p, hv, hp⟩ <;> rcases hw with hw | ⟨q, hw, hq⟩ <;> subst hv <;> subst hw
  · simp [ER.mul]
  · simp [ER.mul, hq]
  · simp [ER.mul, hp, hp.not_lt]
  · simp [ER.mul]

lemma ER.mul_negLo_negLo {v w : ER} (hv : NegLo v) (hw : NegLo w) : ER.mul v w ≠ ER.nan := by
  rcases hv with hv | ⟨p, hv, hp⟩ <;> rcases hw with hw | ⟨q, hw, hq⟩ <;> subst hv <;> subst hw
  · simp [ER.mul]
  · simp [ER.mul, hq, hq.not_lt]
  · simp [ER.mul, hp, hp.not_lt]
  · simp [ER.mul]

lemma ER.mul_fin_fin {p q : ℚ} : ER.mul (ER.fin p) (ER.fin q) ≠ ER.nan := by
  simp [ER.mul]

lemma ER.add_lo_lo {v w : ER} (hv : v = ER.ninf ∨ ∃ q : ℚ, v = ER.fin q)
    (hw : w = ER.ninf ∨ ∃ q : ℚ, w = ER.fin q) : ER.add v w ≠ ER.nan := by
  rcases hv with hv | ⟨p, hv⟩ <;> rcases hw with hw | ⟨q, hw⟩ <;> subst hv <;> subst hw <;>
    simp [ER.add]

lemma ER.add_hi_hi {v w : ER} (hv : v = ER.pinf ∨ ∃ q : ℚ, v = ER.fin q)
    (hw : w = ER.pinf ∨ ∃ q : ℚ, w = ER.fin q) : ER.add v w ≠ ER.nan := by
  rcases hv with hv | ⟨p, hv⟩ <;> rcases hw with hw | ⟨q, hw⟩ <;> subst hv <;> subst hw <;>
    simp [ER.add]

lemma ER.div_finNN_posHi {v w : ER} (hv : FinNN v) (hw : PosHi w) : ER.div v w ≠ ER.nan := by
  obtain ⟨p, hv, hp⟩ := hv
  rcases hw with hw | ⟨q, hw, hq⟩ <;> subst hv <;> subst hw
  · simp [ER.div]
  · simp [ER.div, ne_of_gt hq]

lemma ER.div_posHi_finNN {v w : ER} (hv : PosHi v) (hw : FinNN w) : ER.div v w ≠ ER.nan := by
  obtain ⟨q, hw, hq⟩ := hw
  rcases hv with hv | ⟨p, hv, hp⟩ <;> subst hv <;> subst hw
  · simp only [ER.div]
    split_ifs <;> simp
  · simp only [ER.div]
    split_ifs <;> simp

lemma ER.div_negLo_finNN {v w : ER} (hv : NegLo v) (hw : FinNN w) : ER.div v w ≠ ER.nan := by
  obtain ⟨q, hw, hq⟩ := hw
  rcases hv with hv | ⟨p, hv, hp⟩ <;> subst hv <;> subst hw
  · simp only [ER.div]
    split_ifs <;> simp
  · simp only [ER.div]
    split_ifs <;> simp

lemma ER.neg_ne_nan {v : ER} (h : v ≠ ER.nan) : ER.neg v ≠ ER.nan := by
  cases v <;> simp [ER.neg] at h ⊢

lemma ER.fmax_ne_nan {v w : ER} (hv : v ≠ ER.nan) (hw : w ≠ ER.nan) : ER.fmax v w ≠ ER.nan := by
  unfold ER.fmax
  rw [if_neg (by tauto)]
  split_ifs <;> assumption

lemma ER.fmin_ne_nan {v w : ER} (hv : v ≠ ER.nan) (hw : w ≠ ER.nan) : ER.fmin v w ≠ ER.nan := by
  unfold ER.fmin
  rw [if_neg (by tauto)]
  split_ifs <;> assumption

lemma valid_noNaN {x : Interval} (hv : Valid x) : NoNaN x := by
  rcases hv with h | h
  · rw [h]; decide
  · exact ⟨h.2.2.1, h.2.2.2.1⟩

lemma noNaN_neg {x : Interval} (h : NoNaN x) : NoNaN x.Neg :=
  ⟨ER.neg_ne_nan h.2, ER.neg_ne_nan h.1⟩

lemma noNaN_emptyI : NoNaN emptyI := by decide

lemma noNaN_zeroI : NoNaN zeroI := by decide

/-- Detailed bound shapes of a valid non-empty positive interval. -/
lemma isPos_shape {x : Interval} (hv : Valid x) (he : x.IsEmpty = false)
    (h : x.isPos = true) : FinNN x.a ∧ PosHi x.b := by
  obtain ⟨h4, han, hbn, _, _⟩ := valid_nonempty_facts hv he
  rcases Bool.or_eq_true_iff.mp h with h0 | h1
  · obtain ⟨ha, _, hb⟩ := isP0_shape h0
    exact ⟨⟨0, ha, le_refl 0⟩, (ER.zero_flt_shape hb).imp id (fun ⟨q, hq, h⟩ => ⟨q, hq, h⟩)⟩
  · obtain ⟨hb, hfa, _⟩ := isP1_facts h1
    refine ⟨?_, (ER.zero_flt_shape hb).imp id (fun ⟨q, hq, h⟩ => ⟨q, hq, h⟩)⟩
    obtain ⟨q, hq, h⟩ := ER.not_flt_zero_shape hfa han (nonempty_a_ne_pinf hv he)
    exact ⟨q, hq, h⟩

/-- Detailed bound shapes of a mixed interval. -/
lemma mixed_shape' {x : Interval} (h : x.IsMixed = true) : NegLo x.a ∧ PosHi x.b := by
  obtain ⟨ha, hb⟩ := mixed_shape h
  exact ⟨ha.imp id (fun ⟨q, hq, hlt⟩ => ⟨q, hq, hlt⟩),
    hb.imp id (fun ⟨q, hq, hlt⟩ => ⟨q, hq, hlt⟩)⟩

/-- Negation is antitone on the float order. -/
lemma ER.flt_neg (v w : ER) : ER.flt (ER.neg v) (ER.neg w) = ER.flt w v := by
  cases v <;> cases w <;> simp [ER.neg, ER.flt]

lemma ER.feq_neg (v w : ER) : ER.feq (ER.neg v) (ER.neg w) = ER.feq v w := by
  cases v <;> cases w <;> simp [ER.neg, ER.feq]

lemma ER.feq_comm (v w : ER) : ER.feq v w = ER.feq w v := by
  cases v <;> cases w <;> simp [ER.feq]
  exact eq_comm

lemma endsFlip_lt4 (e : Nat) : endsFlip e < 4 := by
  unfold endsFlip leftEndMask rightEndMask
  rcases land1_cases e with h | h <;> rcases land2_cases e with h' | h' <;> rw [h, h'] <;> decide

lemma endsFlip_ne3 {e : Nat} (h4 : e < 4) : ((endsFlip e) != EClosed) = (e != EClosed) := by
  interval_cases e <;> decide

/-- Negation preserves emptiness (for in-range `Ends`). -/
lemma isEmpty_neg {x : Interval} (h4 : x.ends < 4) : x.Neg.IsEmpty = x.IsEmpty := by
  show (ER.fgt (ER.neg x.b) (ER.neg x.a) ||
      (ER.feq (ER.neg x.b) (ER.neg x.a) && (endsFlip x.ends != EClosed))) = _
  rw [show ER.fgt (ER.neg x.b) (ER.neg x.a) = ER.flt (ER.neg x.a) (ER.neg x.b) from rfl,
    ER.flt_neg, ER.feq_neg, ER.feq_comm x.b x.a, endsFlip_ne3 h4]
  rfl

lemma ER.neg_eq_ninf {v : ER} : ER.neg v = ER.ninf ↔ v = ER.pinf := by
  cases v <;> simp [ER.neg]

lemma ER.neg_eq_pinf {v : ER} : ER.neg v = ER.pinf ↔ v = ER.ninf := by
  cases v <;> simp [ER.neg]

/-- Negation preserves validity. -/
lemma valid_neg {x : Interval} (hv : Valid x) : Valid x.Neg := by
  rcases hv with h | h
  · left
    rw [h]
    decide
  · obtain ⟨he, h4, han, hbn, hac, hbc⟩ := h
    right
    refine ⟨?_, endsFlip_lt4 _, ER.neg_ne_nan hbn, ER.neg_ne_nan han, ?_, ?_⟩
    · rw [isEmpty_neg h4]
      exact he
    · intro hcon
      apply hbc
      refine ⟨ER.neg_eq_ninf.mp hcon.1, ?_⟩
      rw [← lc_neg x]
      exact hcon.2
    · intro hcon
      apply hac
      refine ⟨ER.neg_eq_pinf.mp hcon.1, ?_⟩
      rw [← rc_neg x]
      exact hcon.2

lemma noNaN_union_parts {A B : Interval} (hA : NoNaN A) (hB : NoNaN B) : NoNaN (Union A B) := by
  unfold Union
  by_cases h1 : (A.IsEmpty || B.IsEmpty) = true
  · rw [if_pos h1]; exact noNaN_emptyI
  · rw [if_neg h1]
    by_cases h2 : Equal A B = true
    · rw [if_pos h2]; exact ⟨hA.1, hA.2⟩
    · rw [if_neg h2]
      by_cases h3 : (!(A.Contains B.a) && !(A.Contains B.b) && !(B.Contains A.a) && !(B.Contains A.b)) = true
      · rw [if_pos h3]; exact noNaN_emptyI
      · rw [if_neg h3]
        exact ⟨ER.fmin_ne_nan hA.1 hB.1, ER.fmax_ne_nan hA.2 hB.2⟩

/-- Every interval produced by `MulAux` on valid operands has NaN-free
bounds (induction on fuel; every branch is checked). -/
lemma mulAux_noNaN : ∀ (n : Nat) (x y : Interval), Valid x → Valid y →
    ∀ r, MulAux n x y = some r → NoNaN r := by
  intro n
  induction n with
  | zero =>
      intro x y _ _ r hr
      exact absurd hr (by simp [MulAux])
  | succ n ih =>
      intro x y hvx hvy r hr
      unfold MulAux at hr
      by_cases c1 : (x.IsEmpty || y.IsEmpty) = true
      · rw [if_pos c1] at hr
        injection hr with h
        rw [← h]
        exact noNaN_emptyI
      rw [if_neg c1] at hr
      by_cases c2 : (x.IsZero || y.IsZero) = true
      · rw [if_pos c2] at hr
        injection hr with h
        rw [← h]
        exact noNaN_zeroI
      rw [if_neg c2] at hr
      by_cases c3 : x.isNeg = true
      · rw [if_pos c3] at hr
        rw [Option.map_eq_some'] at hr
        obtain ⟨s, hs, hmap⟩ := hr
        rw [← hmap]
        exact noNaN_neg (ih x.Neg y (valid_neg hvx) hvy s hs)
      rw [if_neg c3] at hr
      by_cases c4 : y.isNeg = true
      · rw [if_pos c4] at hr
        rw [Option.map_eq_some'] at hr
        obtain ⟨s, hs, hmap⟩ := hr
        rw [← hmap]
        exact noNaN_neg (ih y.Neg x (valid_neg hvy) hvx s hs)
      rw [if_neg c4] at hr
      have hc1 : (x.IsEmpty || y.IsEmpty) = false := by
        cases hc : (x.IsEmpty || y.IsEmpty)
        · rfl
        · exact absurd hc c1
      obtain ⟨hex, hey⟩ := Bool.or_eq_false_iff.mp hc1
      by_cases c5 : (x.isPos && y.isPos) = true
      · rw [if_pos c5] at hr
        obtain ⟨hx, hy⟩ := Bool.and_eq_true_iff.mp c5
        obtain ⟨⟨qa, hqa, _⟩, hbx⟩ := isPos_shape hvx hex hx
        obtain ⟨⟨qb, hqb, _⟩, hby⟩ := isPos_shape hvy hey hy
        injection hr with h
        rw [← h]
        constructor
        · show ER.mul x.a y.a ≠ ER.nan
          rw [hqa, hqb]
          exact ER.mul_fin_fin
        · exact ER.mul_posHi_posHi hbx hby
      rw [if_neg c5] at hr
      by_cases c6 : (x.isPos && y.IsMixed) = true
      · rw [if_pos c6] at hr
        obtain ⟨hx, hy⟩ := Bool.and_eq_true_iff.mp c6
        obtain ⟨_, hbx⟩ := isPos_shape hvx hex hx
        obtain ⟨hya, hyb⟩ := mixed_shape' hy
        have hra : r.a = ER.mul x.b y.a ∧ r.b = ER.mul x.b y.b := by
          split_ifs at hr <;> (injection hr with h; rw [← h]; exact ⟨rfl, rfl⟩)
        constructor
        · rw [hra.1]
          exact ER.mul_posHi_negLo hbx hya
        · rw [hra.2]
          exact ER.mul_posHi_posHi hbx hyb
      rw [if_neg c6] at hr
      by_cases c7 : (x.IsMixed && y.IsMixed) = true
      · rw [if_pos c7] at hr
        obtain ⟨hx, hy⟩ := Bool.and_eq_true_iff.mp c7
        obtain ⟨hxa, hxb⟩ := mixed_shape' hx
        obtain ⟨hya, hyb⟩ := mixed_shape' hy
        injection hr with h
        rw [← h]
        apply noNaN_union_parts
        · exact ⟨ER.mul_negLo_posHi hxa hyb, ER.mul_posHi_posHi hxb hyb⟩
        · exact ⟨ER.mul_posHi_negLo hxb hya, ER.mul_negLo_negLo hxa hya⟩
      rw [if_neg c7] at hr
      by_cases c8 : y.isPos = true
      · rw [if_pos c8] at hr
        exact ih y x hvy hvx r hr
      rw [if_neg c8] at hr
      exact absurd hr (by simp)

/-- Every interval produced by `DivAux` on valid operands has NaN-free
bounds (induction on fuel; every branch is checked). -/
lemma divAux_noNaN : ∀ (n : Nat) (x y : Interval), Valid x → Valid y →
    ∀ r e, DivAux n x y = some (r, e) → NoNaN r := by
  intro n
  induction n with
  | zero =>
      intro x y _ _ r e hr
      exact absurd hr (by simp [DivAux])
  | succ n ih =>
      intro x y hvx hvy r e hr
      unfold DivAux at hr
      by_cases c1 : (x.IsEmpty || y.IsEmpty) = true
      · rw [if_pos c1] at hr
        injection hr with h
        injection h with h1 h2
        rw [← h1]
        exact noNaN_emptyI
      rw [if_neg c1] at hr
      by_cases c2 : y.IsZero = true
      · rw [if_pos c2] at hr
        injection hr with h
        injection h with h1 h2
        rw [← h1]
        exact noNaN_emptyI
      rw [if_neg c2] at hr
      by_cases c3 : x.IsZero = true
      · rw [if_pos c3] at hr
        injection hr with h
        injection h with h1 h2
        rw [← h1]
        exact noNaN_zeroI
      rw [if_neg c3] at hr
      by_cases c4 : x.isNeg = true
      · rw [if_pos c4] at hr
        rw [Option.map_eq_some'] at hr
        obtain ⟨⟨s, se⟩, hs, hmap⟩ := hr
        injection hmap with h1 h2
        rw [← h1]
        exact noNaN_neg (ih x.Neg y (valid_neg hvx) hvy s se hs)
      rw [if_neg c4] at hr
      by_cases c5 : y.isNeg = true
      · rw [if_pos c5] at hr
        rw [Option.map_eq_some'] at hr
        obtain ⟨⟨s, se⟩, hs, hmap⟩ := hr
        injection hmap with h1 h2
        rw [← h1]
        exact noNaN_neg (ih x y.Neg hvx (valid_neg hvy) s se hs)
      rw [if_neg c5] at hr
      have hc1 : (x.IsEmpty || y.IsEmpty) = false := by
        cases hc : (x.IsEmpty || y.IsEmpty)
        · rfl
        · exact absurd hc c1
      obtain ⟨hex, hey⟩ := Bool.or_eq_false_iff.mp hc1
      have hzx : x.IsZero = false := by
        cases hc : x.IsZero
        · rfl
        · exact absurd hc c3
      have hzy : y.IsZero = false := by
        cases hc : y.IsZero
        · rfl
        · exact absurd hc c2
      have hnx : x.isNeg = false := by
        cases hc : x.isNeg
        · rfl
        · exact absurd hc c4
      have hny : y.isNeg = false := by
        cases hc : y.isNeg
        · rfl
        · exact absurd hc c5
      by_cases c6 : ((x.has0 && y.IsMixed) || (x.IsMixed && y.has0)) = true
      · rw [if_pos c6] at hr
        injection hr with h
        injection h with h1 h2
        rw [← h1]
        exact ⟨by simp, by simp⟩
      rw [if_neg c6] at hr
      by_cases c7 : (x.isP1 && y.IsMixed) = true
      · rw [if_pos c7] at hr
        injection hr with h
        injection h with h1 h2
        rw [← h1]
        exact ⟨by simp, by simp⟩
      rw [if_neg c7] at hr
      by_cases c8 : y.isP0 = true
      · rw [if_pos c8] at hr
        have hxpos : x.isPos = true := by
          rcases classify hvx hex hzx with h | h | h
          · rw [hnx] at h
            exact absurd h (by decide)
          · exact h
          · exfalso
            apply c6
            have hy0 : y.has0 = true := by
              unfold Interval.has0
              rw [c8]
              rfl
            rw [h, hy0]
            simp
        obtain ⟨hxa, _⟩ := isPos_shape hvx hex hxpos
        have hyb : PosHi y.b :=
          (ER.zero_flt_shape (isP0_shape c8).2.2).imp id (fun ⟨q, hq, hlt⟩ => ⟨q, hq, hlt⟩)
        injection hr with h
        injection h with h1 h2
        rw [← h1]
        exact ⟨ER.div_finNN_posHi hxa hyb, by simp⟩
      rw [if_neg c8] at hr
      have hyP1 : y.isP1 = true ∨ y.IsMixed = true := by
        rcases classify hvy hey hzy with h | h | h
        · rw [hny] at h
          exact absurd h (by decide)
        · rcases Bool.or_eq_true_iff.mp h with h0 | h1
          · exact absurd h0 c8
          · exact Or.inl h1
        · exact Or.inr h
      by_cases c9 : x.isPos = true
      · rw [if_pos c9] at hr
        have hy1 : y.isP1 = true := by
          rcases hyP1 with h | h
          · exact h
          · exfalso
            rcases Bool.or_eq_true_iff.mp c9 with hp0 | hp1
            · apply c6
              have hx0 : x.has0 = true := by
                unfold Interval.has0
                rw [hp0]
                rfl
              rw [hx0, h]
              simp
            · exact c7 (by rw [hp1, h]; rfl)
        obtain ⟨hxa, hxb⟩ := isPos_shape hvx hex c9
        have hya : FinNN y.a := by
          obtain ⟨_, hfa, _⟩ := isP1_facts hy1
          obtain ⟨q, hq, hle⟩ := ER.not_flt_zero_shape hfa
            (valid_nonempty_facts hvy hey).2.1 (nonempty_a_ne_pinf hvy hey)
          exact ⟨q, hq, hle⟩
        have hyb : PosHi y.b :=
          (ER.zero_flt_shape (isP1_facts hy1).1).imp id (fun ⟨q, hq, hlt⟩ => ⟨q, hq, hlt⟩)
        injection hr with h
        injection h with h1 h2
        rw [← h1]
        exact ⟨ER.div_finNN_posHi hxa hyb, ER.div_posHi_finNN hxb hya⟩
      rw [if_neg c9] at hr
      by_cases c10 : x.IsMixed = true
      · rw [if_pos c10] at hr
        have hy1 : y.isP1 = true := by
          rcases hyP1 with h | h
          · exact h
          · exfalso
            apply c6
            have hy0 : y.has0 = true := by
              unfold Interval.has0
              rw [h]
              simp
            rw [hy0, c10]
            simp
        obtain ⟨hxa, hxb⟩ := mixed_shape' c10
        have hya : FinNN y.a := by
          obtain ⟨_, hfa, _⟩ := isP1_facts hy1
          obtain ⟨q, hq, hle⟩ := ER.not_flt_zero_shape hfa
            (valid_nonempty_facts hvy hey).2.1 (nonempty_a_ne_pinf hvy hey)
          exact ⟨q, hq, hle⟩
        injection hr with h
        injection h with h1 h2
        rw [← h1]
        exact ⟨ER.div_negLo_finNN hxa hya, ER.div_posHi_finNN hxb hya⟩
      rw [if_neg c10] at hr
      exact absurd hr (by simp)

lemma noNaN_add {x y : Interval} (hvx : Valid x) (hvy : Valid y) : NoNaN (Add x y) := by
  unfold Add
  by_cases h1 : (x.IsEmpty || y.IsEmpty) = true
  · rw [if_pos h1]
    exact noNaN_emptyI
  · rw [if_neg h1]
    have hc : (x.IsEmpty || y.IsEmpty) = false := by
      cases hc : (x.IsEmpty || y.IsEmpty)
      · rfl
      · exact absurd hc h1
    obtain ⟨hex, hey⟩ := Bool.or_eq_false_iff.mp hc
    obtain ⟨hxa, hxb⟩ := nonempty_shape hvx hex
    obtain ⟨hya, hyb⟩ := nonempty_shape hvy hey
    exact ⟨ER.add_lo_lo hxa hya, ER.add_hi_hi hxb hyb⟩

lemma noNaN_sub {x y : Interval} (hvx : Valid x) (hvy : Valid y) : NoNaN (Sub x y) := by
  unfold Sub
  by_cases h1 : (x.IsEmpty || y.IsEmpty) = true
  · rw [if_pos h1]
    exact noNaN_emptyI
  · rw [if_neg h1]
    exact noNaN_add hvx (valid_neg hvy)

lemma noNaN_inter {x y : Interval} (hvx : Valid x) (hvy : Valid y) :
    NoNaN (Intersection x y) := by
  unfold Intersection
  by_cases h1 : (x.IsEmpty || y.IsEmpty) = true
  · rw [if_pos h1]; exact noNaN_emptyI
  · rw [if_neg h1]
    by_cases h2 : Equal x y = true
    · rw [if_pos h2]
      exact ⟨(valid_noNaN hvx).1, (valid_noNaN hvx).2⟩
    · rw [if_neg h2]
      by_cases h3 : (!(x.Contains y.a) && !(x.Contains y.b) && !(y.Contains x.a) &&
          !(y.Contains x.b)) = true
      · rw [if_pos h3]; exact noNaN_emptyI
      · rw [if_neg h3]
        exact ⟨ER.fmax_ne_nan (valid_noNaN hvx).1 (valid_noNaN hvy).1,
          ER.fmin_ne_nan (valid_noNaN hvx).2 (valid_noNaN hvy).2⟩

/-- C9: on valid operands, none of Neg, Add, Sub, Mul, Div, Intersection and
Union ever produces an interval with a NaN bound. -/
theorem C9_no_nan :
    ∀ x y : Interval, Valid x → Valid y →
      NoNaN x.Neg ∧ NoNaN (Add x y) ∧ NoNaN (Sub x y) ∧
      (∀ r, Mul x y = some r → NoNaN r) ∧
      (∀ r e, Div x y = some (r, e) → NoNaN r) ∧
      NoNaN (Intersection x y) ∧ NoNaN (Union x y) := by
  intro x y hvx hvy
  refine ⟨noNaN_neg (valid_noNaN hvx), noNaN_add hvx hvy, noNaN_sub hvx hvy, ?_, ?_, ?_, ?_⟩
  · exact fun r hr => mulAux_noNaN 4 x y hvx hvy r hr
  · exact fun r e hr => divAux_noNaN 3 x y hvx hvy r e hr
  · exact noNaN_inter hvx hvy
  · exact noNaN_union_parts (valid_noNaN hvx) (valid_noNaN hvy)

/-- C9 witness: NaN-freedom at x = [1,2], y = [0,0]. -/
theorem C9_witness :
    NoNaN (Interval.Neg ⟨ER.fin 1, ER.fin 2, EClosed⟩) ∧
    NoNaN (Add ⟨ER.fin 1, ER.fin 2, EClosed⟩ zeroI) ∧
    NoNaN (Sub ⟨ER.fin 1, ER.fin 2, EClosed⟩ zeroI) ∧
    NoNaN zeroI ∧ NoNaN emptyI ∧
    NoNaN (Intersection ⟨ER.fin 1, ER.fin 2, EClosed⟩ zeroI) ∧
    NoNaN (Union ⟨ER.fin 1, ER.fin 2, EClosed⟩ zeroI) := by
  obtain ⟨h1, h2, h3, h4, h5, h6, h7⟩ :=
    C9_no_nan ⟨ER.fin 1, ER.fin 2, EClosed⟩ zeroI (by decide) (by decide)
  exact ⟨h1, h2, h3, h4 zeroI (by decide), h5 emptyI (some DivErr.DivByZero) (by decide), h6, h7⟩

/-! ### Commutativity infrastructure (C5) -/

lemma ER.add_comm (v w : ER) : ER.add v w = ER.add w v := by
  cases v <;> cases w <;> simp [ER.add] <;> ring

lemma ER.mul_comm (v w : ER) : ER.mul v w = ER.mul w v := by
  cases v <;> cases w <;> simp [ER.mul] <;> ring

lemma ER.fmin_comm (v w : ER) : ER.fmin v w = ER.fmin w v := by
  unfold ER.fmin
  cases v with
  | nan => cases w <;> simp
  | ninf => cases w <;> simp [ER.flt]
  | pinf => cases w <;> simp [ER.flt]
  | fin p =>
      cases w with
      | nan => simp
      | ninf => simp [ER.flt]
      | pinf => simp [ER.flt]
      | fin q =>
          simp only [ER.flt, ER.fin.injEq, reduceCtorEq, or_self, if_false]
          rcases lt_trichotomy p q with h | h | h
          · rw [if_neg (by simp; linarith), if_pos (by simp [h])]
          · subst h
            split_ifs <;> rfl
          · rw [if_pos (by simp [h]), if_neg (by simp; linarith)]

lemma ER.fmax_comm (v w : ER) : ER.fmax v w = ER.fmax w v := by
  unfold ER.fmax
  cases v with
  | nan => cases w <;> simp
  | ninf => cases w <;> simp [ER.flt]
  | pinf => cases w <;> simp [ER.flt]
  | fin p =>
      cases w with
      | nan => simp
      | ninf => simp [ER.flt]
      | pinf => simp [ER.flt]
      | fin q =>
          simp only [ER.flt, ER.fin.injEq, reduceCtorEq, or_self, if_false]
          rcases lt_trichotomy p q with h | h | h
          · rw [if_pos (by simp [h]), if_neg (by simp; linarith)]
          · subst h
            split_ifs <;> rfl
          · rw [if_neg (by simp; linarith), if_pos (by simp [h])]

lemma ER.feq_to_eq {v w : ER} (hv : v ≠ ER.nan) (h : ER.feq v w = true) : v = w := by
  cases v <;> cases w <;> simp [ER.feq] at h ⊢ <;> first | rfl | exact h | exact absurd rfl hv

lemma ER.feq_refl {v : ER} (hv : v ≠ ER.nan) : ER.feq v v = true := by
  cases v <;> simp [ER.feq] at hv ⊢

lemma equal_refl_noNaN {r : Interval} (h : NoNaN r) : Equal r r = true := by
  unfold Equal
  split_ifs with he
  · exact he
  · simp [ER.feq_refl h.1, ER.feq_refl h.2]

lemma posPosEnds_comm (u v : Interval) : posPosEnds u v = posPosEnds v u := by
  unfold posPosEnds
  have hl : Nat.land u.ends v.ends = Nat.land v.ends u.ends := Nat.land_comm _ _
  rw [hl]
  by_cases h : ((ER.feq u.a (ER.fin 0) && u.LeftIsClosed) ||
      (ER.feq v.a (ER.fin 0) && v.LeftIsClosed)) = true
  · rw [if_pos h, if_pos (by rw [Bool.or_comm] at h; exact h)]
  · rw [if_neg h, if_neg (by rw [Bool.or_comm] at h; exact h)]

lemma add_comm_interval (x y : Interval) : Add x y = Add y x := by
  unfold Add
  have hl : Nat.land y.ends x.ends = Nat.land x.ends y.ends := Nat.land_comm _ _
  rw [Bool.or_comm y.IsEmpty x.IsEmpty, ER.add_comm y.a x.a, ER.add_comm y.b x.b, hl]

/-- Negation preserves being the zero interval (for in-range `Ends`). -/
lemma isZero_neg {x : Interval} (h4 : x.ends < 4) : x.Neg.IsZero = x.IsZero := by
  show (ER.feq (ER.neg x.b) (ER.neg x.a) && (endsFlip x.ends == EClosed) &&
      ER.feq (ER.neg x.b) (ER.fin 0)) = _
  rw [ER.feq_neg, ER.feq_comm x.b x.a]
  have h1 : (endsFlip x.ends == EClosed) = (x.ends == EClosed) := by
    interval_cases x.ends <;> decide
  rw [h1]
  have h2 : ER.feq (ER.neg x.b) (ER.fin 0) = ER.feq x.b (ER.fin 0) := by
    cases hb : x.b <;> simp [ER.neg, ER.feq]
  rw [h2]
  show _ = (ER.feq x.a x.b && (x.ends == EClosed) && ER.feq x.a (ER.fin 0))
  by_cases he : (x.ends == EClosed) = true
  · rw [he]
    by_cases hab : ER.feq x.a x.b = true
    · rw [hab]
      simp only [Bool.true_and, Bool.and_true]
      cases ha : x.a <;> cases hb : x.b <;>
        simp [ER.feq] at hab ⊢ <;> rw [ha, hb] at hab <;> simp [ER.feq] at hab <;> simp [hab]
    · have hab' : ER.feq x.a x.b = false := by
        cases hc : ER.feq x.a x.b
        · rfl
        · exact absurd hc hab
      rw [hab']
      rfl
  · have he' : (x.ends == EClosed) = false := by
      cases hc : (x.ends == EClosed)
      · rfl
      · exact absurd hc he
    rw [he']
    simp

lemma ER.feq_true_eq {v w : ER} (h : ER.feq v w = true) : v = w ∧ v ≠ ER.nan := by
  cases v <;> cases w <;> simp [ER.feq] at h ⊢
  exact h

lemma ER.mul_shape_np {v w : ER} (hv : NegLo v) (hw : PosHi w) : NegLo (ER.mul v w) := by
  rcases hv with hv | ⟨p, hv, hp⟩ <;> rcases hw with hw | ⟨q, hw, hq⟩ <;> subst hv <;> subst hw
  · exact Or.inl rfl
  · left; simp [ER.mul, hq]
  · left; simp [ER.mul, hp, hp.not_lt]
  · exact Or.inr ⟨_, rfl, mul_neg_of_neg_of_pos hp hq⟩

lemma ER.mul_shape_pp {v w : ER} (hv : PosHi v) (hw : PosHi w) : PosHi (ER.mul v w) := by
  rcases hv with hv | ⟨p, hv, hp⟩ <;> rcases hw with hw | ⟨q, hw, hq⟩ <;> subst hv <;> subst hw
  · exact Or.inl rfl
  · left; simp [ER.mul, hq]
  · left; simp [ER.mul, hp]
  · exact Or.inr ⟨_, rfl, mul_pos hp hq⟩

lemma ER.mul_shape_pn {v w : ER} (hv : PosHi v) (hw : NegLo w) : NegLo (ER.mul v w) := by
  rcases hv with hv | ⟨p, hv, hp⟩ <;> rcases hw with hw | ⟨q, hw, hq⟩ <;> subst hv <;> subst hw
  · exact Or.inl rfl
  · left; simp [ER.mul, hq, hq.not_lt]
  · left; simp [ER.mul, hp]
  · exact Or.inr ⟨_, rfl, mul_neg_of_pos_of_neg hp hq⟩

lemma ER.mul_shape_nn {v w : ER} (hv : NegLo v) (hw : NegLo w) : PosHi (ER.mul v w) := by
  rcases hv with hv | ⟨p, hv, hp⟩ <;> rcases hw with hw | ⟨q, hw, hq⟩ <;> subst hv <;> subst hw
  · exact Or.inl rfl
  · left; simp [ER.mul, hq, hq.not_lt]
  · left; simp [ER.mul, hp, hp.not_lt]
  · exact Or.inr ⟨_, rfl, mul_pos_of_neg_of_neg hp hq⟩

lemma negLo_ne_nan {v : ER} (h : NegLo v) : v ≠ ER.nan := by
  rcases h with h | ⟨q, h, _⟩ <;> subst h <;> simp

lemma posHi_ne_nan {v : ER} (h : PosHi v) : v ≠ ER.nan := by
  rcases h with h | ⟨q, h, _⟩ <;> subst h <;> simp

/-- A negative-low value is below a positive-high value. -/
lemma flt_negLo_posHi {v w : ER} (hv : NegLo v) (hw : PosHi w) : ER.flt v w = true := by
  rcases hv with hv | ⟨p, hv, hp⟩ <;> rcases hw with hw | ⟨q, hw, hq⟩ <;> subst hv <;> subst hw <;>
    simp [ER.flt]
  linarith

lemma straddle_isMixed {A : Interval} (ha : NegLo A.a) (hb : PosHi A.b) : A.IsMixed = true := by
  unfold Interval.IsMixed
  have h1 : ER.flt A.a (ER.fin 0) = true := by
    rcases ha with h | ⟨q, h, hq⟩ <;> rw [h] <;> simp [ER.flt]
    exact hq
  have h2 : ER.flt (ER.fin 0) A.b = true := by
    rcases hb with h | ⟨q, h, hq⟩ <;> rw [h] <;> simp [ER.flt]
    exact hq
  rw [h1, h2]
  rfl

/-- Float trichotomy for non-NaN values. -/
lemma ER.tricho {v w : ER} (hv : v ≠ ER.nan) (hw : w ≠ ER.nan) :
    (ER.flt v w = true ∧ ER.flt w v = false ∧ ER.feq v w = false ∧ ER.feq w v = false) ∨
    (ER.feq v w = true ∧ ER.feq w v = true ∧ ER.flt v w = false ∧ ER.flt w v = false) ∨
    (ER.flt w v = true ∧ ER.flt v w = false ∧ ER.feq v w = false ∧ ER.feq w v = false) := by
  cases v with
  | nan => exact absurd rfl hv
  | ninf =>
      cases w with
      | nan => exact absurd rfl hw
      | ninf => exact Or.inr (Or.inl (by simp [ER.flt, ER.feq]))
      | pinf => exact Or.inl (by simp [ER.flt, ER.feq])
      | fin q => exact Or.inl (by simp [ER.flt, ER.feq])
  | pinf =>
      cases w with
      | nan => exact absurd rfl hw
      | ninf => exact Or.inr (Or.inr (by simp [ER.flt, ER.feq]))
      | pinf => exact Or.inr (Or.inl (by simp [ER.flt, ER.feq]))
      | fin q => exact Or.inr (Or.inr (by simp [ER.flt, ER.feq]))
  | fin p =>
      cases w with
      | nan => exact absurd rfl hw
      | ninf => exact Or.inr (Or.inr (by simp [ER.flt, ER.feq]))
      | pinf => exact Or.inl (by simp [ER.flt, ER.feq])
      | fin q =>
          rcases lt_trichotomy p q with h | h | h
          · exact Or.inl (by simp [ER.flt, ER.feq]; exact ⟨h, by linarith, by linarith, by linarith⟩)
          · subst h
            exact Or.inr (Or.inl (by simp [ER.flt, ER.feq]))
          · exact Or.inr (Or.inr
              (by simp [ER.flt, ER.feq]; exact ⟨h, by linarith, by linarith, by linarith⟩))

/-- Any `Ends` value below 4 is the sum of its two masked bits. -/
lemma ends_decomp {e : Nat} (h : e < 4) : Nat.land e 1 + Nat.land e 2 = e := by
  interval_cases e <;> decide

lemma mmEnds1_lt4 (x y : Interval) : mmEnds1 x y < 4 := by
  unfold mmEnds1 leftEndMask rightEndMask
  rcases land1_cases (Nat.land x.ends (endsFlip y.ends)) with h1 | h1 <;>
    rcases land2_cases (Nat.land x.ends y.ends) with h2 | h2 <;> rw [h1, h2] <;> decide

lemma mmEnds2_lt4 (x y : Interval) : mmEnds2 x y < 4 := by
  unfold mmEnds2 leftEndMask rightEndMask
  rcases land1_cases (Nat.land (endsFlip x.ends) y.ends) with h1 | h1 <;>
    rcases land2_cases (Nat.land (endsFlip x.ends) (endsFlip y.ends)) with h2 | h2 <;>
    rw [h1, h2] <;> decide

/-- `Union` on the equal branch returns a copy of the first operand. -/
lemma union_eq_copy {x y : Interval} (hex : x.IsEmpty = false) (heq : Equal x y = true) :
    Union x y = ⟨x.a, x.b, x.ends⟩ := by
  have hey : y.IsEmpty = false := by
    unfold Equal at heq
    rw [hex] at heq
    simp only [Bool.false_eq_true, if_false, Bool.and_eq_true, beq_iff_eq] at heq
    obtain ⟨⟨ha, hb⟩, he⟩ := heq
    obtain ⟨ha', _⟩ := ER.feq_true_eq ha
    obtain ⟨hb', _⟩ := ER.feq_true_eq hb
    unfold Interval.IsEmpty at hex ⊢
    rw [← ha', ← hb', ← he]
    exact hex
  unfold Union
  rw [hex, hey]
  simp only [Bool.or_self, Bool.false_eq_true, if_false, heq, if_true]

/-- `Union` on the main branch: binding bounds and the spec endpoint rule. -/
lemma union_eq_spec {x y : Interval} (hex : x.IsEmpty = false) (hey : y.IsEmpty = false)
    (heq : Equal x y = false)
    (hov : (!(x.Contains y.a) && !(x.Contains y.b) && !(y.Contains x.a) &&
      !(y.Contains x.b)) = false) :
    Union x y = ⟨ER.fmin x.a y.a, ER.fmax x.b y.b, unionEndsSpec x y⟩ := by
  have h1 : (x.IsEmpty || y.IsEmpty) = false := by rw [hex, hey]; rfl
  unfold Union
  rw [h1, heq, hov]
  simp only [Bool.false_eq_true, if_false, Interval.mk.injEq]
  refine ⟨trivial, trivial, ?_⟩
  rw [union_left_eq, union_right_eq,
    xor_bits (chain_cases _ _ _ (if_val_cases _ _) (if_val_cases _ _) (if_val_cases _ _))
      (chain_cases _ _ _ (if_val_cases _ _) (if_val_cases _ _) (if_val_cases _ _))]
  rfl

/-- For a zero-straddling interval, containment of a negative-low value is
decided by the left endpoint alone. -/
lemma straddle_contains_lo {A : Interval} {v : ER} (hb : PosHi A.b) (hv : NegLo v) :
    A.Contains v = (ER.flt A.a v || (ER.feq A.a v && A.LeftIsClosed)) := by
  unfold Interval.Contains
  rw [show ER.fgt A.b v = ER.flt v A.b from rfl, flt_negLo_posHi hv hb]
  simp

/-- For a zero-straddling interval, containment of a positive-high value is
decided by the right endpoint alone. -/
lemma straddle_contains_hi {A : Interval} {v : ER} (ha : NegLo A.a) (hv : PosHi v) :
    A.Contains v = (ER.flt v A.b || (ER.feq A.b v && A.RightIsClosed)) := by
  unfold Interval.Contains
  rw [flt_negLo_posHi ha hv]
  rw [show ER.fgt A.b v = ER.flt v A.b from rfl]
  simp

/-- Two zero-straddling intervals overlap unless they are the same pair of
bounds with all four endpoints open. -/
lemma straddle_overlap {A B : Interval}
    (hAa : NegLo A.a) (hAb : PosHi A.b) (hBa : NegLo B.a) (hBb : PosHi B.b)
    (hne : ¬(A.a = B.a ∧ A.b = B.b ∧ A.LeftIsClosed = false ∧ B.LeftIsClosed = false ∧
      A.RightIsClosed = false ∧ B.RightIsClosed = false)) :
    (!(A.Contains B.a) && !(A.Contains B.b) && !(B.Contains A.a) && !(B.Contains A.b)) = false := by
  rw [straddle_contains_lo hAb hBa, straddle_contains_hi hAa hBb,
    straddle_contains_lo hBb hAa, straddle_contains_hi hBa hAb]
  rcases ER.tricho (negLo_ne_nan hAa) (negLo_ne_nan hBa) with
    ⟨hl1, hl2, hl3, hl4⟩ | ⟨hl1, hl2, hl3, hl4⟩ | ⟨hl1, hl2, hl3, hl4⟩
  · rw [hl1]
    simp
  · rcases ER.tricho (posHi_ne_nan hAb) (posHi_ne_nan hBb) with
      ⟨hr1, hr2, hr3, hr4⟩ | ⟨hr1, hr2, hr3, hr4⟩ | ⟨hr1, hr2, hr3, hr4⟩
    · rw [hr1]
      simp
    · rw [hl1, hl2, hl3, hl4, hr1, hr2, hr3, hr4]
      simp only [Bool.false_or, Bool.true_and]
      cases hlcA : A.LeftIsClosed
      · cases hlcB : B.LeftIsClosed
        · cases hrcA : A.RightIsClosed
          · cases hrcB : B.RightIsClosed
            · exact absurd ⟨(ER.feq_true_eq hl1).1, (ER.feq_true_eq hr1).1,
                hlcA, hlcB, hrcA, hrcB⟩ hne
            · simp
          · simp
        · simp
      · simp
    · rw [hr1]
      simp
  · rw [hl1]
    simp

lemma bit_sum_inj {l1 r1 l2 r2 : Nat} (hl1 : l1 = 0 ∨ l1 = 1) (hr1 : r1 = 0 ∨ r1 = 2)
    (hl2 : l2 = 0 ∨ l2 = 1) (hr2 : r2 = 0 ∨ r2 = 2) (h : l1 + r1 = l2 + r2) :
    l1 = l2 ∧ r1 = r2 := by
  rcases hl1 with h1 | h1 <;> rcases hr1 with h2 | h2 <;> rcases hl2 with h3 | h3 <;>
    rcases hr2 with h4 | h4 <;> omega

/-- The spec endpoint rule for Union is stable under regrouping the four
(bound, closedness-bit) pairs of two straddling operands. -/
lemma unionEndsSpec_regroup {p q r s : ER} {e1 e2 : Nat}
    (hpn : p ≠ ER.nan) (hrn : r ≠ ER.nan) :
    unionEndsSpec ⟨p, q, e1⟩ ⟨r, s, e2⟩ =
      unionEndsSpec ⟨r, q, Nat.land e2 1 + Nat.land e1 2⟩
        ⟨p, s, Nat.land e1 1 + Nat.land e2 2⟩ := by
  unfold unionEndsSpec
  show (if ER.flt p r = true then _ else _) + (if ER.flt q s = true then _ else _) = _
  simp only [Interval.LeftIsClosed, Interval.RightIsClosed, leftEndMask, rightEndMask]
  simp only [bit_sum_land1 (land1_cases e2) (land2_cases e1),
    bit_sum_land2 (land1_cases e2) (land2_cases e1),
    bit_sum_land1 (land1_cases e1) (land2_cases e2),
    bit_sum_land2 (land1_cases e1) (land2_cases e2)]
  congr 1
  rcases ER.tricho hpn hrn with
    ⟨hl1, hl2, hl3, hl4⟩ | ⟨hl1, hl2, hl3, hl4⟩ | ⟨hl1, hl2, hl3, hl4⟩
  · rw [hl1, hl2, hl4]
    simp [show ER.fgt r p = true from hl1]
  · rw [hl1, hl2, hl3, hl4]
    simp [Bool.or_comm]
  · rw [hl1, hl2, hl3]
    simp [show ER.fgt p r = true from hl1]

/-- `Union` of two straddling intervals is stable under regrouping the four
(bound, closedness-bit) pairs; this is what makes mixed-times-mixed
multiplication commutative. -/
lemma union_regroup {p q r s : ER} {e1 e2 : Nat}
    (hp : NegLo p) (hq : PosHi q) (hr : NegLo r) (hs : PosHi s)
    (h1 : e1 < 4) (h2 : e2 < 4) :
    Union ⟨p, q, e1⟩ ⟨r, s, e2⟩ =
      Union ⟨r, q, Nat.land e2 1 + Nat.land e1 2⟩ ⟨p, s, Nat.land e1 1 + Nat.land e2 2⟩ := by
  have hA : (⟨p, q, e1⟩ : Interval).IsEmpty = false :=
    mixed_nonempty (straddle_isMixed hp hq)
  have hB : (⟨r, s, e2⟩ : Interval).IsEmpty = false :=
    mixed_nonempty (straddle_isMixed hr hs)
  have hA' : (⟨r, q, Nat.land e2 1 + Nat.land e1 2⟩ : Interval).IsEmpty = false :=
    mixed_nonempty (straddle_isMixed hr hq)
  have hB' : (⟨p, s, Nat.land e1 1 + Nat.land e2 2⟩ : Interval).IsEmpty = false :=
    mixed_nonempty (straddle_isMixed hp hs)
  by_cases hEq : Equal ⟨p, q, e1⟩ ⟨r, s, e2⟩ = true
  · have hEq' := hEq
    unfold Equal at hEq'
    rw [hA] at hEq'
    simp only [Bool.false_eq_true, if_false, Bool.and_eq_true, beq_iff_eq] at hEq'
    obtain ⟨⟨hpr, hqs⟩, hee⟩ := hEq'
    obtain ⟨hpr', _⟩ := ER.feq_true_eq hpr
    obtain ⟨hqs', _⟩ := ER.feq_true_eq hqs
    subst hpr'
    subst hqs'
    subst hee
    rw [ends_decomp h1]
  · have hEqf : Equal ⟨p, q, e1⟩ ⟨r, s, e2⟩ = false := by
      cases hc : Equal ⟨p, q, e1⟩ ⟨r, s, e2⟩
      · rfl
      · exact absurd hc hEq
    have hne : ¬(p = r ∧ q = s ∧
        ((⟨p, q, e1⟩ : Interval).LeftIsClosed = false) ∧
        ((⟨r, s, e2⟩ : Interval).LeftIsClosed = false) ∧
        ((⟨p, q, e1⟩ : Interval).RightIsClosed = false) ∧
        ((⟨r, s, e2⟩ : Interval).RightIsClosed = false)) := by
      rintro ⟨hv1, hv2, hv3, hv4, hv5, hv6⟩
      apply hEq
      unfold Equal
      rw [hA]
      simp only [Bool.false_eq_true, if_false, Bool.and_eq_true, beq_iff_eq]
      refine ⟨⟨?_, ?_⟩, ?_⟩
      · rw [hv1]
        exact ER.feq_refl (negLo_ne_nan hr)
      · rw [hv2]
        exact ER.feq_refl (posHi_ne_nan hs)
      · have hb1 : Nat.land e1 1 = 0 := by
          have h : (Nat.land e1 1 != 0) = false := hv3
          simpa using h
        have hb2 : Nat.land e2 1 = 0 := by
          have h : (Nat.land e2 1 != 0) = false := hv4
          simpa using h
        have hb3 : Nat.land e1 2 = 0 := by
          have h : (Nat.land e1 2 != 0) = false := hv5
          simpa using h
        have hb4 : Nat.land e2 2 = 0 := by
          have h : (Nat.land e2 2 != 0) = false := hv6
          simpa using h
        have d1 := ends_decomp h1
        have d2 := ends_decomp h2
        omega
    have hne' : ¬(r = p ∧ q = s ∧
        ((⟨r, q, Nat.land e2 1 + Nat.land e1 2⟩ : Interval).LeftIsClosed = false) ∧
        ((⟨p, s, Nat.land e1 1 + Nat.land e2 2⟩ : Interval).LeftIsClosed = false) ∧
        ((⟨r, q, Nat.land e2 1 + Nat.land e1 2⟩ : Interval).RightIsClosed = false) ∧
        ((⟨p, s, Nat.land e1 1 + Nat.land e2 2⟩ : Interval).RightIsClosed = false)) := by
      rintro ⟨hv1, hv2, hv3, hv4, hv5, hv6⟩
      apply hne
      refine ⟨hv1.symm, hv2, ?_, ?_, ?_, ?_⟩
      · simpa [Interval.LeftIsClosed, leftEndMask,
          bit_sum_land1 (land1_cases e1) (land2_cases e2)] using hv4
      · simpa [Interval.LeftIsClosed, leftEndMask,
          bit_sum_land1 (land1_cases e2) (land2_cases e1)] using hv3
      · simpa [Interval.RightIsClosed, rightEndMask,
          bit_sum_land2 (land1_cases e2) (land2_cases e1)] using hv5
      · simpa [Interval.RightIsClosed, rightEndMask,
          bit_sum_land2 (land1_cases e1) (land2_cases e2)] using hv6
    have hEqf' : Equal ⟨r, q, Nat.land e2 1 + Nat.land e1 2⟩
        ⟨p, s, Nat.land e1 1 + Nat.land e2 2⟩ = false := by
      cases hc : Equal ⟨r, q, Nat.land e2 1 + Nat.land e1 2⟩
          ⟨p, s, Nat.land e1 1 + Nat.land e2 2⟩
      · rfl
      · exfalso
        unfold Equal at hc
        rw [hA'] at hc
        simp only [Bool.false_eq_true, if_false, Bool.and_eq_true, beq_iff_eq] at hc
        obtain ⟨⟨hrp, hqs⟩, hee⟩ := hc
        obtain ⟨hrp', _⟩ := ER.feq_true_eq hrp
        obtain ⟨hqs', _⟩ := ER.feq_true_eq hqs
        obtain ⟨hbl, hbr⟩ := bit_sum_inj (land1_cases e2) (land2_cases e1)
          (land1_cases e1) (land2_cases e2) hee
        apply hEq
        unfold Equal
        rw [hA]
        simp only [Bool.false_eq_true, if_false, Bool.and_eq_true, beq_iff_eq]
        refine ⟨⟨?_, ?_⟩, ?_⟩
        · rw [hrp'.symm]
          exact ER.feq_refl (negLo_ne_nan hr)
        · rw [hqs']
          exact ER.feq_refl (posHi_ne_nan hs)
        · have d1 := ends_decomp h1
          have d2 := ends_decomp h2
          omega
    have hguard := straddle_overlap (A := ⟨p, q, e1⟩) (B := ⟨r, s, e2⟩) hp hq hr hs hne
    have hguard' := straddle_overlap (A := ⟨r, q, Nat.land e2 1 + Nat.land e1 2⟩)
      (B := ⟨p, s, Nat.land e1 1 + Nat.land e2 2⟩) hr hq hp hs hne'
    rw [union_eq_spec hA hB hEqf hguard, union_eq_spec hA' hB' hEqf' hguard']
    rw [Interval.mk.injEq]
    refine ⟨ER.fmin_comm p r, rfl, ?_⟩
    exact unionEndsSpec_regroup (negLo_ne_nan hp) (negLo_ne_nan hr)

lemma bool_eq_false {b : Bool} (h : ¬ b = true) : b = false := by
  cases b
  · rfl
  · exact absurd rfl h

/-- Branch equation of `MulAux`: an empty operand yields the empty interval. -/
lemma mulAux_eq_empty {n : Nat} {x y : Interval} (h : (x.IsEmpty || y.IsEmpty) = true) :
    MulAux (n + 1) x y = some emptyI := by
  unfold MulAux
  rw [if_pos h]

/-- Branch equation of `MulAux`: a zero operand yields the zero interval. -/
lemma mulAux_eq_zero {n : Nat} {x y : Interval}
    (h1 : (x.IsEmpty || y.IsEmpty) = false) (h2 : (x.IsZero || y.IsZero) = true) :
    MulAux (n + 1) x y = some zeroI := by
  unfold MulAux
  rw [if_neg (by simp [h1]), if_pos h2]

/-- Branch equation of `MulAux`: a negative first operand defers to the
negated product of the negated first operand. -/
lemma mulAux_eq_negx {n : Nat} {x y : Interval}
    (h1 : (x.IsEmpty || y.IsEmpty) = false) (h2 : (x.IsZero || y.IsZero) = false)
    (h3 : x.isNeg = true) :
    MulAux (n + 1) x y = (MulAux n x.Neg y).map Interval.Neg := by
  conv_lhs => unfold MulAux
  rw [if_neg (by simp [h1]), if_neg (by simp [h2]), if_pos h3]

/-- Branch equation of `MulAux`: a negative second operand defers to the
negated, swapped product. -/
lemma mulAux_eq_negy {n : Nat} {x y : Interval}
    (h1 : (x.IsEmpty || y.IsEmpty) = false) (h2 : (x.IsZero || y.IsZero) = false)
    (h3 : x.isNeg = false) (h4 : y.isNeg = true) :
    MulAux (n + 1) x y = (MulAux n y.Neg x).map Interval.Neg := by
  conv_lhs => unfold MulAux
  rw [if_neg (by simp [h1]), if_neg (by simp [h2]), if_neg (by simp [h3]), if_pos h4]

/-- Branch equation of `MulAux`: positive times positive. -/
lemma mulAux_eq_pp {n : Nat} {x y : Interval}
    (h1 : (x.IsEmpty || y.IsEmpty) = false) (h2 : (x.IsZero || y.IsZero) = false)
    (h5 : x.isPos = true) (h6 : y.isPos = true) :
    MulAux (n + 1) x y = some ⟨ER.mul x.a y.a, ER.mul x.b y.b, posPosEnds x y⟩ := by
  have h3 := isPos_not_isNeg h5
  have h4 := isPos_not_isNeg h6
  unfold MulAux
  rw [if_neg (by simp [h1]), if_neg (by simp [h2]), if_neg (by simp [h3]),
    if_neg (by simp [h4]), if_pos (by simp [h5, h6])]

/-- Branch equation of `MulAux`: positive times mixed. -/
lemma mulAux_eq_pm {n : Nat} {x y : Interval}
    (h1 : (x.IsEmpty || y.IsEmpty) = false) (h2 : (x.IsZero || y.IsZero) = false)
    (h5 : x.isPos = true) (h6 : y.IsMixed = true) :
    MulAux (n + 1) x y =
      some (if x.RightIsClosed then ⟨ER.mul x.b y.a, ER.mul x.b y.b, y.ends⟩
            else ⟨ER.mul x.b y.a, ER.mul x.b y.b, EOpen⟩) := by
  have h3 := isPos_not_isNeg h5
  have h4 := mixed_not_isNeg h6
  have h7 := mixed_not_isPos h6
  unfold MulAux
  rw [if_neg (by simp [h1]), if_neg (by simp [h2]), if_neg (by simp [h3]),
    if_neg (by simp [h4]), if_neg (by simp [h7]), if_pos (by simp [h5, h6])]

/-- Branch equation of `MulAux`: mixed times mixed. -/
lemma mulAux_eq_mm {n : Nat} {x y : Interval}
    (h1 : (x.IsEmpty || y.IsEmpty) = false) (h2 : (x.IsZero || y.IsZero) = false)
    (h5 : x.IsMixed = true) (h6 : y.IsMixed = true) :
    MulAux (n + 1) x y =
      some (Union ⟨ER.mul x.a y.b, ER.mul x.b y.b, mmEnds1 x y⟩
                  ⟨ER.mul x.b y.a, ER.mul x.a y.a, mmEnds2 x y⟩) := by
  have h3 := mixed_not_isNeg h5
  have h4 := mixed_not_isNeg h6
  have h7 := mixed_not_isPos h5
  unfold MulAux
  rw [if_neg (by simp [h1]), if_neg (by simp [h2]), if_neg (by simp [h3]),
    if_neg (by simp [h4]), if_neg (by simp [h7]), if_neg (by simp [h7]),
    if_pos (by simp [h5, h6])]

/-- Branch equation of `MulAux`: mixed times positive swaps the operands. -/
lemma mulAux_eq_swap {n : Nat} {x y : Interval}
    (h1 : (x.IsEmpty || y.IsEmpty) = false) (h2 : (x.IsZero || y.IsZero) = false)
    (h5 : x.IsMixed = true) (h6 : y.isPos = true) :
    MulAux (n + 1) x y = MulAux n y x := by
  have h3 := mixed_not_isNeg h5
  have h4 := isPos_not_isNeg h6
  have h7 := mixed_not_isPos h5
  have h8 := isPos_not_mixed h6
  conv_lhs => unfold MulAux
  rw [if_neg (by simp [h1]), if_neg (by simp [h2]), if_neg (by simp [h3]),
    if_neg (by simp [h4]), if_neg (by simp [h7]), if_neg (by simp [h7]),
    if_neg (by simp [h8]), if_pos h6]

lemma land_swap (m n : Nat) : Nat.land m n = Nat.land n m := Nat.land_comm m n

/-- Under an operand swap, the first mixed-times-mixed endpoint mask carries
bit 0 of the second original mask and bit 1 of the first. -/
lemma mmEnds1_swap (x y : Interval) :
    mmEnds1 y x = Nat.land (mmEnds2 x y) 1 + Nat.land (mmEnds1 x y) 2 := by
  unfold mmEnds1 mmEnds2 leftEndMask rightEndMask
  rw [bit_sum_land1 (land1_cases _) (land2_cases _),
    bit_sum_land2 (land1_cases _) (land2_cases _),
    land_swap y.ends (endsFlip x.ends), land_swap y.ends x.ends]

/-- Under an operand swap, the second mixed-times-mixed endpoint mask carries
bit 0 of the first original mask and bit 1 of the second. -/
lemma mmEnds2_swap (x y : Interval) :
    mmEnds2 y x = Nat.land (mmEnds1 x y) 1 + Nat.land (mmEnds2 x y) 2 := by
  unfold mmEnds1 mmEnds2 leftEndMask rightEndMask
  rw [bit_sum_land1 (land1_cases _) (land2_cases _),
    bit_sum_land2 (land1_cases _) (land2_cases _),
    land_swap (endsFlip y.ends) x.ends, land_swap (endsFlip y.ends) (endsFlip x.ends)]

/-- `MulAux` is commutative on non-negative (positive or mixed) operands,
with at least two units of fuel on each side. -/
lemma mulAux_nn_comm {n m : Nat} {x y : Interval}
    (hxe : x.IsEmpty = false) (hye : y.IsEmpty = false)
    (hzx : x.IsZero = false) (hzy : y.IsZero = false)
    (hx : x.isPos = true ∨ x.IsMixed = true) (hy : y.isPos = true ∨ y.IsMixed = true) :
    MulAux (n + 2) x y = MulAux (m + 2) y x := by
  have he1 : (x.IsEmpty || y.IsEmpty) = false := by rw [hxe, hye]; rfl
  have he2 : (y.IsEmpty || x.IsEmpty) = false := by rw [hxe, hye]; rfl
  have hz1 : (x.IsZero || y.IsZero) = false := by rw [hzx, hzy]; rfl
  have hz2 : (y.IsZero || x.IsZero) = false := by rw [hzx, hzy]; rfl
  rcases hx with hx | hx <;> rcases hy with hy | hy
  · have l1 : MulAux (n + 2) x y = some ⟨ER.mul x.a y.a, ER.mul x.b y.b, posPosEnds x y⟩ :=
      mulAux_eq_pp (n := n + 1) he1 hz1 hx hy
    have l2 : MulAux (m + 2) y x = some ⟨ER.mul y.a x.a, ER.mul y.b x.b, posPosEnds y x⟩ :=
      mulAux_eq_pp (n := m + 1) he2 hz2 hy hx
    rw [l1, l2, ER.mul_comm y.a x.a, ER.mul_comm y.b x.b, posPosEnds_comm y x]
  · have l1 : MulAux (n + 2) x y =
        some (if x.RightIsClosed then ⟨ER.mul x.b y.a, ER.mul x.b y.b, y.ends⟩
              else ⟨ER.mul x.b y.a, ER.mul x.b y.b, EOpen⟩) :=
      mulAux_eq_pm (n := n + 1) he1 hz1 hx hy
    have l2 : MulAux (m + 2) y x = MulAux (m + 1) x y :=
      mulAux_eq_swap (n := m + 1) he2 hz2 hy hx
    have l3 : MulAux (m + 1) x y =
        some (if x.RightIsClosed then ⟨ER.mul x.b y.a, ER.mul x.b y.b, y.ends⟩
              else ⟨ER.mul x.b y.a, ER.mul x.b y.b, EOpen⟩) :=
      mulAux_eq_pm (n := m) he1 hz1 hx hy
    rw [l1, l2, l3]
  · have l1 : MulAux (n + 2) x y = MulAux (n + 1) y x :=
      mulAux_eq_swap (n := n + 1) he1 hz1 hx hy
    have l2 : MulAux (n + 1) y x =
        some (if y.RightIsClosed then ⟨ER.mul y.b x.a, ER.mul y.b x.b, x.ends⟩
              else ⟨ER.mul y.b x.a, ER.mul y.b x.b, EOpen⟩) :=
      mulAux_eq_pm (n := n) he2 hz2 hy hx
    have l3 : MulAux (m + 2) y x =
        some (if y.RightIsClosed then ⟨ER.mul y.b x.a, ER.mul y.b x.b, x.ends⟩
              else ⟨ER.mul y.b x.a, ER.mul y.b x.b, EOpen⟩) :=
      mulAux_eq_pm (n := m + 1) he2 hz2 hy hx
    rw [l1, l2, l3]
  · have l1 : MulAux (n + 2) x y =
        some (Union ⟨ER.mul x.a y.b, ER.mul x.b y.b, mmEnds1 x y⟩
                    ⟨ER.mul x.b y.a, ER.mul x.a y.a, mmEnds2 x y⟩) :=
      mulAux_eq_mm (n := n + 1) he1 hz1 hx hy
    have l2 : MulAux (m + 2) y x =
        some (Union ⟨ER.mul y.a x.b, ER.mul y.b x.b, mmEnds1 y x⟩
                    ⟨ER.mul y.b x.a, ER.mul y.a x.a, mmEnds2 y x⟩) :=
      mulAux_eq_mm (n := m + 1) he2 hz2 hy hx
    obtain ⟨hxa, hxb⟩ := mixed_shape' hx
    obtain ⟨hya, hyb⟩ := mixed_shape' hy
    rw [l1, l2, ER.mul_comm y.a x.b, ER.mul_comm y.b x.b, ER.mul_comm y.b x.a,
      ER.mul_comm y.a x.a, mmEnds1_swap x y, mmEnds2_swap x y]
    exact congrArg some (union_regroup (ER.mul_shape_np hxa hyb) (ER.mul_shape_pp hxb hyb)
      (ER.mul_shape_pn hxb hya) (ER.mul_shape_nn hxa hya) (mmEnds1_lt4 x y) (mmEnds2_lt4 x y))

/-- `Mul` is commutative on valid operands: the optional results are
structurally equal. -/
lemma mul_comm_interval {x y : Interval} (hvx : Valid x) (hvy : Valid y) :
    Mul x y = Mul y x := by
  show MulAux 4 x y = MulAux 4 y x
  by_cases he : (x.IsEmpty || y.IsEmpty) = true
  · have he' : (y.IsEmpty || x.IsEmpty) = true := by rw [Bool.or_comm]; exact he
    have l1 : MulAux 4 x y = some emptyI := mulAux_eq_empty (n := 3) he
    have l2 : MulAux 4 y x = some emptyI := mulAux_eq_empty (n := 3) he'
    rw [l1, l2]
  · have he1 : (x.IsEmpty || y.IsEmpty) = false := bool_eq_false he
    have he2 : (y.IsEmpty || x.IsEmpty) = false := by rw [Bool.or_comm]; exact he1
    obtain ⟨hxe, hye⟩ := Bool.or_eq_false_iff.mp he1
    by_cases hz : (x.IsZero || y.IsZero) = true
    · have hz' : (y.IsZero || x.IsZero) = true := by rw [Bool.or_comm]; exact hz
      have l1 : MulAux 4 x y = some zeroI := mulAux_eq_zero (n := 3) he1 hz
      have l2 : MulAux 4 y x = some zeroI := mulAux_eq_zero (n := 3) he2 hz'
      rw [l1, l2]
    · have hz1 : (x.IsZero || y.IsZero) = false := bool_eq_false hz
      have hz2 : (y.IsZero || x.IsZero) = false := by rw [Bool.or_comm]; exact hz1
      obtain ⟨hzx, hzy⟩ := Bool.or_eq_false_iff.mp hz1
      obtain ⟨hx4, _, _, _, _⟩ := valid_nonempty_facts hvx hxe
      obtain ⟨hy4, _, _, _, _⟩ := valid_nonempty_facts hvy hye
      have hxen : x.Neg.IsEmpty = false := by rw [isEmpty_neg hx4]; exact hxe
      have hyen : y.Neg.IsEmpty = false := by rw [isEmpty_neg hy4]; exact hye
      have hxzn : x.Neg.IsZero = false := by rw [isZero_neg hx4]; exact hzx
      have hyzn : y.Neg.IsZero = false := by rw [isZero_neg hy4]; exact hzy
      rcases classify hvx hxe hzx with hxn | hxnn
      · have hxp : x.Neg.isPos = true := hxn
        rcases classify hvy hye hzy with hyn | hynn
        · have hyp : y.Neg.isPos = true := hyn
          have ha1 : (x.Neg.IsEmpty || y.IsEmpty) = false := by rw [hxen, hye]; rfl
          have ha2 : (x.Neg.IsZero || y.IsZero) = false := by rw [hxzn, hzy]; rfl
          have hb1 : (y.Neg.IsEmpty || x.IsEmpty) = false := by rw [hyen, hxe]; rfl
          have hb2 : (y.Neg.IsZero || x.IsZero) = false := by rw [hyzn, hzx]; rfl
          have hc1 : (y.Neg.IsEmpty || x.Neg.IsEmpty) = false := by rw [hyen, hxen]; rfl
          have hc2 : (y.Neg.IsZero || x.Neg.IsZero) = false := by rw [hyzn, hxzn]; rfl
          have hd1 : (x.Neg.IsEmpty || y.Neg.IsEmpty) = false := by rw [hxen, hyen]; rfl
          have hd2 : (x.Neg.IsZero || y.Neg.IsZero) = false := by rw [hxzn, hyzn]; rfl
          have l1 : MulAux 4 x y = (MulAux 3 x.Neg y).map Interval.Neg :=
            mulAux_eq_negx (n := 3) he1 hz1 hxn
          have l2 : MulAux 3 x.Neg y = (MulAux 2 y.Neg x.Neg).map Interval.Neg :=
            mulAux_eq_negy (n := 2) ha1 ha2 (isPos_not_isNeg hxp) hyn
          have l3 : MulAux 2 y.Neg x.Neg =
              some ⟨ER.mul y.Neg.a x.Neg.a, ER.mul y.Neg.b x.Neg.b, posPosEnds y.Neg x.Neg⟩ :=
            mulAux_eq_pp (n := 1) hc1 hc2 hyp hxp
          have r1 : MulAux 4 y x = (MulAux 3 y.Neg x).map Interval.Neg :=
            mulAux_eq_negx (n := 3) he2 hz2 hyn
          have r2 : MulAux 3 y.Neg x = (MulAux 2 x.Neg y.Neg).map Interval.Neg :=
            mulAux_eq_negy (n := 2) hb1 hb2 (isPos_not_isNeg hyp) hxn
          have r3 : MulAux 2 x.Neg y.Neg =
              some ⟨ER.mul x.Neg.a y.Neg.a, ER.mul x.Neg.b y.Neg.b, posPosEnds x.Neg y.Neg⟩ :=
            mulAux_eq_pp (n := 1) hd1 hd2 hxp hyp
          rw [l1, l2, l3, r1, r2, r3, ER.mul_comm x.Neg.a y.Neg.a,
            ER.mul_comm x.Neg.b y.Neg.b, posPosEnds_comm x.Neg y.Neg]
        · have hyn' : y.isNeg = false := by
            rcases hynn with hy | hy
            · exact isPos_not_isNeg hy
            · exact mixed_not_isNeg hy
          have l1 : MulAux 4 x y = (MulAux 3 x.Neg y).map Interval.Neg :=
            mulAux_eq_negx (n := 3) he1 hz1 hxn
          have r1 : MulAux 4 y x = (MulAux 3 x.Neg y).map Interval.Neg :=
            mulAux_eq_negy (n := 3) he2 hz2 hyn' hxn
          rw [l1, r1]
      · have hxn' : x.isNeg = false := by
          rcases hxnn with hx | hx
          · exact isPos_not_isNeg hx
          · exact mixed_not_isNeg hx
        rcases classify hvy hye hzy with hyn | hynn
        · have l1 : MulAux 4 x y = (MulAux 3 y.Neg x).map Interval.Neg :=
            mulAux_eq_negy (n := 3) he1 hz1 hxn' hyn
          have r1 : MulAux 4 y x = (MulAux 3 y.Neg x).map Interval.Neg :=
            mulAux_eq_negx (n := 3) he2 hz2 hyn
          rw [l1, r1]
        · exact mulAux_nn_comm (n := 2) (m := 2) hxe hye hzx hzy hxnn hynn

/-! ### No closed endpoint at an infinite value (C10) -/

lemma noCI_emptyI : NoClosedInf emptyI := by decide

lemma noCI_zeroI : NoClosedInf zeroI := by decide

lemma valid_noCI {x : Interval} (hv : Valid x) : NoClosedInf x := by
  rcases hv with h | h
  · rw [h]
    exact noCI_emptyI
  · exact ⟨h.2.2.2.2.1, h.2.2.2.2.2⟩

/-- Constructor interface: the closedness bit vanishes at each infinite bound. -/
lemma noCI_mk {v w : ER} {e : Nat}
    (h1 : v = ER.ninf → Nat.land e 1 = 0) (h2 : w = ER.pinf → Nat.land e 2 = 0) :
    NoClosedInf ⟨v, w, e⟩ := by
  constructor
  · rintro ⟨ha, hc⟩
    have hb : (Nat.land e 1 != 0) = true := hc
    rw [h1 ha] at hb
    exact absurd hb (by decide)
  · rintro ⟨hbp, hc⟩
    have hb : (Nat.land e 2 != 0) = true := hc
    rw [h2 hbp] at hb
    exact absurd hb (by decide)

/-- Extraction: a `NoClosedInf` interval has a zero closedness bit at any
infinite bound. -/
lemma noCI_bits {x : Interval} (h : NoClosedInf x) :
    (x.a = ER.ninf → Nat.land x.ends 1 = 0) ∧ (x.b = ER.pinf → Nat.land x.ends 2 = 0) := by
  constructor
  · intro ha
    rcases land1_cases x.ends with h0 | h0
    · exact h0
    · exfalso
      apply h.1
      refine ⟨ha, ?_⟩
      show (Nat.land x.ends 1 != 0) = true
      rw [h0]
      rfl
  · intro hb
    rcases land2_cases x.ends with h0 | h0
    · exact h0
    · exfalso
      apply h.2
      refine ⟨hb, ?_⟩
      show (Nat.land x.ends 2 != 0) = true
      rw [h0]
      rfl

lemma noCI_neg {x : Interval} (h : NoClosedInf x) : NoClosedInf x.Neg := by
  constructor
  · rintro ⟨ha, hc⟩
    apply h.2
    refine ⟨ER.neg_eq_ninf.mp ha, ?_⟩
    rw [← lc_neg x]
    exact hc
  · rintro ⟨hb, hc⟩
    apply h.1
    refine ⟨ER.neg_eq_pinf.mp hb, ?_⟩
    rw [← rc_neg x]
    exact hc

lemma ER.add_eq_ninf {v w : ER} (h : ER.add v w = ER.ninf) : v = ER.ninf ∨ w = ER.ninf := by
  cases v <;> cases w <;> simp_all [ER.add]

lemma ER.add_eq_pinf {v w : ER} (h : ER.add v w = ER.pinf) : v = ER.pinf ∨ w = ER.pinf := by
  cases v <;> cases w <;> simp_all [ER.add]

lemma ER.mul_ninf_ff {p q : ℚ} : ER.mul (ER.fin p) (ER.fin q) ≠ ER.ninf := by
  simp [ER.mul]

/-- A product of positive-high values is +inf only via a +inf factor. -/
lemma ER.mul_pinf_pp {v w : ER} (hv : PosHi v) (hw : PosHi w) (h : ER.mul v w = ER.pinf) :
    v = ER.pinf ∨ w = ER.pinf := by
  rcases hv with hv | ⟨p, hp, _⟩
  · exact Or.inl hv
  rcases hw with hw | ⟨q, hq, _⟩
  · exact Or.inr hw
  subst hp
  subst hq
  exact absurd h (by simp [ER.mul])

/-- positive-high times negative-low is -inf only via an infinite factor. -/
lemma ER.mul_ninf_pn {v w : ER} (hv : PosHi v) (hw : NegLo w) (h : ER.mul v w = ER.ninf) :
    v = ER.pinf ∨ w = ER.ninf := by
  rcases hv with hv | ⟨p, hp, _⟩
  · exact Or.inl hv
  rcases hw with hw | ⟨q, hq, _⟩
  · exact Or.inr hw
  subst hp
  subst hq
  exact absurd h (by simp [ER.mul])

/-- negative-low times positive-high is -inf only via an infinite factor. -/
lemma ER.mul_ninf_np {v w : ER} (hv : NegLo v) (hw : PosHi w) (h : ER.mul v w = ER.ninf) :
    v = ER.ninf ∨ w = ER.pinf := by
  rcases hv with hv | ⟨p, hp, _⟩
  · exact Or.inl hv
  rcases hw with hw | ⟨q, hq, _⟩
  · exact Or.inr hw
  subst hp
  subst hq
  exact absurd h (by simp [ER.mul])

/-- A product of negative-low values is +inf only via a -inf factor. -/
lemma ER.mul_pinf_nn {v w : ER} (hv : NegLo v) (hw : NegLo w) (h : ER.mul v w = ER.pinf) :
    v = ER.ninf ∨ w = ER.ninf := by
  rcases hv with hv | ⟨p, hp, _⟩
  · exact Or.inl hv
  rcases hw with hw | ⟨q, hq, _⟩
  · exact Or.inr hw
  subst hp
  subst hq
  exact absurd h (by simp [ER.mul])

/-- A finite nonnegative value divided by a positive-high value is never -inf. -/
lemma ER.div_ne_ninf_fp {v w : ER} (hv : FinNN v) (hw : PosHi w) : ER.div v w ≠ ER.ninf := by
  obtain ⟨p, hp, hp0⟩ := hv
  subst hp
  rcases hw with hw | ⟨q, hq, hq0⟩
  · subst hw
    simp [ER.div]
  · subst hq
    have hq' : ¬ q = 0 := by linarith
    simp [ER.div, hq']

/-- positive-high over finite nonnegative is +inf only via a +inf dividend or
a zero divisor. -/
lemma ER.div_pinf_pf {v w : ER} (hv : PosHi v) (hw : FinNN w) (h : ER.div v w = ER.pinf) :
    v = ER.pinf ∨ w = ER.fin 0 := by
  rcases hv with hv | ⟨p, hp, _⟩
  · exact Or.inl hv
  subst hp
  obtain ⟨q, hq, _⟩ := hw
  subst hq
  by_cases h0 : q = 0
  · exact Or.inr (by rw [h0])
  · exfalso
    have hd : ER.div (ER.fin p) (ER.fin q) = ER.fin (p / q) := by simp [ER.div, h0]
    rw [hd] at h
    exact absurd h (by simp)

/-- negative-low over finite nonnegative is -inf only via a -inf dividend or
a zero divisor. -/
lemma ER.div_ninf_nf {v w : ER} (hv : NegLo v) (hw : FinNN w) (h : ER.div v w = ER.ninf) :
    v = ER.ninf ∨ w = ER.fin 0 := by
  rcases hv with hv | ⟨p, hp, _⟩
  · exact Or.inl hv
  subst hp
  obtain ⟨q, hq, _⟩ := hw
  subst hq
  by_cases h0 : q = 0
  · exact Or.inr (by rw [h0])
  · exfalso
    have hd : ER.div (ER.fin p) (ER.fin q) = ER.fin (p / q) := by simp [ER.div, h0]
    rw [hd] at h
    exact absurd h (by simp)

/-- An `isP1` interval with left bound 0 has an open left endpoint. -/
lemma isP1_zero_open {y : Interval} (h : y.isP1 = true) (ha : y.a = ER.fin 0) :
    Nat.land y.ends 1 = 0 := by
  obtain ⟨_, _, h3⟩ := isP1_facts h
  rcases h3 with h3 | h3
  · rw [ha] at h3
    exact absurd h3 (by decide)
  · rcases land1_cases y.ends with h0 | h0
    · exact h0
    · exfalso
      have hc : y.LeftIsClosed = true := by
        show (Nat.land y.ends 1 != 0) = true
        rw [h0]
        rfl
      rw [hc] at h3
      exact absurd h3 (by decide)

lemma land_land1_left {m n : Nat} (h : Nat.land m 1 = 0) : Nat.land (Nat.land m n) 1 = 0 := by
  rw [land_land_one, h]
  exact Nat.zero_and _

lemma land_land1_right {m n : Nat} (h : Nat.land n 1 = 0) : Nat.land (Nat.land m n) 1 = 0 := by
  rw [land_land_one, h]
  exact Nat.and_zero _

lemma land_land2_left {m n : Nat} (h : Nat.land m 2 = 0) : Nat.land (Nat.land m n) 2 = 0 := by
  rw [land_land_two, h]
  exact Nat.zero_and _

lemma land_land2_right {m n : Nat} (h : Nat.land n 2 = 0) : Nat.land (Nat.land m n) 2 = 0 := by
  rw [land_land_two, h]
  exact Nat.and_zero _

lemma endsFlip1_zero {e : Nat} (h : Nat.land e 2 = 0) : Nat.land (endsFlip e) 1 = 0 := by
  rw [endsFlip_land1, h]

lemma endsFlip2_zero {e : Nat} (h : Nat.land e 1 = 0) : Nat.land (endsFlip e) 2 = 0 := by
  rw [endsFlip_land2, h]

lemma land1_land2 (m : Nat) : Nat.land (Nat.land m leftEndMask) 2 = 0 := by
  show Nat.land (Nat.land m 1) 2 = 0
  rcases land1_cases m with h | h <;> rw [h] <;> rfl

lemma bit_sum_mask_land1 (m n : Nat) :
    Nat.land (Nat.land m leftEndMask + Nat.land n rightEndMask) 1 = Nat.land m 1 := by
  show Nat.land (Nat.land m 1 + Nat.land n 2) 1 = Nat.land m 1
  exact bit_sum_land1 (land1_cases _) (land2_cases _)

lemma bit_sum_mask_land2 (m n : Nat) :
    Nat.land (Nat.land m leftEndMask + Nat.land n rightEndMask) 2 = Nat.land n 2 := by
  show Nat.land (Nat.land m 1 + Nat.land n 2) 2 = Nat.land n 2
  exact bit_sum_land2 (land1_cases _) (land2_cases _)

lemma posPosEnds_land2 (x y : Interval) :
    Nat.land (posPosEnds x y) 2 = Nat.land (Nat.land x.ends y.ends) 2 := by
  unfold posPosEnds leftEndMask
  split_ifs
  · rw [lor_land_two, show Nat.land 1 2 = 0 from rfl]
    show Nat.land x.ends y.ends &&& 2 ||| 0 = Nat.land x.ends y.ends &&& 2
    rw [Nat.or_zero]
  · rfl

lemma mmEnds1_land1 (x y : Interval) :
    Nat.land (mmEnds1 x y) 1 = Nat.land (Nat.land x.ends (endsFlip y.ends)) 1 := by
  unfold mmEnds1
  exact bit_sum_mask_land1 _ _

lemma mmEnds1_land2 (x y : Interval) :
    Nat.land (mmEnds1 x y) 2 = Nat.land (Nat.land x.ends y.ends) 2 := by
  unfold mmEnds1
  exact bit_sum_mask_land2 _ _

lemma mmEnds2_land1 (x y : Interval) :
    Nat.land (mmEnds2 x y) 1 = Nat.land (Nat.land (endsFlip x.ends) y.ends) 1 := by
  unfold mmEnds2
  exact bit_sum_mask_land1 _ _

lemma mmEnds2_land2 (x y : Interval) :
    Nat.land (mmEnds2 x y) 2 = Nat.land (Nat.land (endsFlip x.ends) (endsFlip y.ends)) 2 := by
  unfold mmEnds2
  exact bit_sum_mask_land2 _ _

lemma fmin_eq_left {v w : ER} (hv : v ≠ ER.nan) (hw : w ≠ ER.nan)
    (h : ER.flt w v = false) : ER.fmin v w = v := by
  have h' : ¬ (ER.flt w v = true) := by rw [h]; decide
  unfold ER.fmin
  rw [if_neg (not_or.mpr ⟨hv, hw⟩), if_neg h']

lemma fmin_eq_right {v w : ER} (hv : v ≠ ER.nan) (hw : w ≠ ER.nan)
    (h : ER.flt w v = true) : ER.fmin v w = w := by
  unfold ER.fmin
  rw [if_neg (not_or.mpr ⟨hv, hw⟩), if_pos h]

lemma fmax_eq_left {v w : ER} (hv : v ≠ ER.nan) (hw : w ≠ ER.nan)
    (h : ER.flt v w = false) : ER.fmax v w = v := by
  have h' : ¬ (ER.flt v w = true) := by rw [h]; decide
  unfold ER.fmax
  rw [if_neg (not_or.mpr ⟨hv, hw⟩), if_neg h']

lemma fmax_eq_right {v w : ER} (hv : v ≠ ER.nan) (hw : w ≠ ER.nan)
    (h : ER.flt v w = true) : ER.fmax v w = w := by
  unfold ER.fmax
  rw [if_neg (not_or.mpr ⟨hv, hw⟩), if_pos h]

lemma unionEndsSpec_land1 (x y : Interval) :
    Nat.land (unionEndsSpec x y) 1 =
      (if ER.flt x.a y.a then (if x.LeftIsClosed then 1 else 0)
       else if ER.feq x.a y.a then (if x.LeftIsClosed || y.LeftIsClosed then 1 else 0)
       else if ER.fgt x.a y.a then (if y.LeftIsClosed then 1 else 0)
       else 0) := by
  unfold unionEndsSpec
  exact bit_sum_land1
    (chain_cases _ _ _ (if_val_cases _ _) (if_val_cases _ _) (if_val_cases _ _))
    (chain_cases _ _ _ (if_val_cases _ _) (if_val_cases _ _) (if_val_cases _ _))

lemma unionEndsSpec_land2 (x y : Interval) :
    Nat.land (unionEndsSpec x y) 2 =
      (if ER.flt x.b y.b then (if y.RightIsClosed then 2 else 0)
       else if ER.feq x.b y.b then (if x.RightIsClosed || y.RightIsClosed then 2 else 0)
       else if ER.fgt x.b y.b then (if x.RightIsClosed then 2 else 0)
       else 0) := by
  unfold unionEndsSpec
  exact bit_sum_land2
    (chain_cases _ _ _ (if_val_cases _ _) (if_val_cases _ _) (if_val_cases _ _))
    (chain_cases _ _ _ (if_val_cases _ _) (if_val_cases _ _) (if_val_cases _ _))

lemma interEndsSpec_land1 (x y : Interval) :
    Nat.land (interEndsSpec x y) 1 =
      (if ER.flt x.a y.a then (if y.LeftIsClosed then 1 else 0)
       else if ER.feq x.a y.a then (if x.LeftIsClosed && y.LeftIsClosed then 1 else 0)
       else if ER.fgt x.a y.a then (if x.LeftIsClosed then 1 else 0)
       else 0) := by
  unfold interEndsSpec
  exact bit_sum_land1
    (chain_cases _ _ _ (if_val_cases _ _) (if_val_cases _ _) (if_val_cases _ _))
    (chain_cases _ _ _ (if_val_cases _ _) (if_val_cases _ _) (if_val_cases _ _))

lemma interEndsSpec_land2 (x y : Interval) :
    Nat.land (interEndsSpec x y) 2 =
      (if ER.flt x.b y.b then (if x.RightIsClosed then 2 else 0)
       else if ER.feq x.b y.b then (if x.RightIsClosed && y.RightIsClosed then 2 else 0)
       else if ER.fgt x.b y.b then (if y.RightIsClosed then 2 else 0)
       else 0) := by
  unfold interEndsSpec
  exact bit_sum_land2
    (chain_cases _ _ _ (if_val_cases _ _) (if_val_cases _ _) (if_val_cases _ _))
    (chain_cases _ _ _ (if_val_cases _ _) (if_val_cases _ _) (if_val_cases _ _))

/-- `Intersection` on the main branch: binding bounds and the spec endpoint
rule. -/
lemma inter_eq_spec {x y : Interval} (hex : x.IsEmpty = false) (hey : y.IsEmpty = false)
    (heq : Equal x y = false)
    (hov : (!(x.Contains y.a) && !(x.Contains y.b) && !(y.Contains x.a) &&
      !(y.Contains x.b)) = false) :
    Intersection x y = ⟨ER.fmax x.a y.a, ER.fmin x.b y.b, interEndsSpec x y⟩ := by
  have h1 : (x.IsEmpty || y.IsEmpty) = false := by rw [hex, hey]; rfl
  unfold Intersection
  rw [h1, heq, hov]
  simp only [Bool.false_eq_true, if_false, Interval.mk.injEq]
  refine ⟨trivial, trivial, ?_⟩
  rw [inter_left_eq, inter_right_eq,
    xor_bits (chain_cases _ _ _ (if_val_cases _ _) (if_val_cases _ _) (if_val_cases _ _))
      (chain_cases _ _ _ (if_val_cases _ _) (if_val_cases _ _) (if_val_cases _ _))]
  rfl

/-- A closedness flag is false once its bit is zero. -/
lemma lc_false_of_bit {x : Interval} (h : Nat.land x.ends 1 = 0) :
    x.LeftIsClosed = false := by
  show (Nat.land x.ends 1 != 0) = false
  rw [h]
  rfl

lemma rc_false_of_bit {x : Interval} (h : Nat.land x.ends 2 = 0) :
    x.RightIsClosed = false := by
  show (Nat.land x.ends 2 != 0) = false
  rw [h]
  rfl

/-- `Union` preserves the no-closed-infinity invariant of its operands. -/
lemma noCI_union_parts {A B : Interval} (hnA : NoNaN A) (hnB : NoNaN B)
    (hA : NoClosedInf A) (hB : NoClosedInf B) : NoClosedInf (Union A B) := by
  by_cases h1 : (A.IsEmpty || B.IsEmpty) = true
  · unfold Union
    rw [if_pos h1]
    exact noCI_emptyI
  obtain ⟨hex, hey⟩ := Bool.or_eq_false_iff.mp (bool_eq_false h1)
  by_cases h2 : Equal A B = true
  · rw [union_eq_copy hex h2]
    exact hA
  by_cases h3 : (!(A.Contains B.a) && !(A.Contains B.b) && !(B.Contains A.a) &&
      !(B.Contains A.b)) = true
  · unfold Union
    rw [if_neg (by simp [bool_eq_false h1]), if_neg (by simp [bool_eq_false h2]), if_pos h3]
    exact noCI_emptyI
  rw [union_eq_spec hex hey (bool_eq_false h2) (bool_eq_false h3)]
  apply noCI_mk
  · intro hmin
    rw [unionEndsSpec_land1]
    rcases ER.tricho hnA.1 hnB.1 with
      ⟨hl1, hl2, hl3, hl4⟩ | ⟨hl1, hl2, hl3, hl4⟩ | ⟨hl1, hl2, hl3, hl4⟩
    · have ha : A.a = ER.ninf := by rw [← fmin_eq_left hnA.1 hnB.1 hl2]; exact hmin
      rw [hl1, lc_false_of_bit ((noCI_bits hA).1 ha)]
      simp
    · have ha : A.a = ER.ninf := by rw [← fmin_eq_left hnA.1 hnB.1 hl4]; exact hmin
      have hb : B.a = ER.ninf := by rw [← ER.feq_to_eq hnA.1 hl1]; exact ha
      rw [hl3, hl1, lc_false_of_bit ((noCI_bits hA).1 ha),
        lc_false_of_bit ((noCI_bits hB).1 hb)]
      simp
    · have hb : B.a = ER.ninf := by rw [← fmin_eq_right hnA.1 hnB.1 hl1]; exact hmin
      rw [hl2, hl3, show ER.fgt A.a B.a = ER.flt B.a A.a from rfl, hl1,
        lc_false_of_bit ((noCI_bits hB).1 hb)]
      simp
  · intro hmax
    rw [unionEndsSpec_land2]
    rcases ER.tricho hnA.2 hnB.2 with
      ⟨hl1, hl2, hl3, hl4⟩ | ⟨hl1, hl2, hl3, hl4⟩ | ⟨hl1, hl2, hl3, hl4⟩
    · have hb : B.b = ER.pinf := by rw [← fmax_eq_right hnA.2 hnB.2 hl1]; exact hmax
      rw [hl1, rc_false_of_bit ((noCI_bits hB).2 hb)]
      simp
    · have ha : A.b = ER.pinf := by rw [← fmax_eq_left hnA.2 hnB.2 hl3]; exact hmax
      have hb : B.b = ER.pinf := by rw [← ER.feq_to_eq hnA.2 hl1]; exact ha
      rw [hl3, hl1, rc_false_of_bit ((noCI_bits hA).2 ha),
        rc_false_of_bit ((noCI_bits hB).2 hb)]
      simp
    · have ha : A.b = ER.pinf := by rw [← fmax_eq_left hnA.2 hnB.2 hl2]; exact hmax
      rw [hl2, hl3, show ER.fgt A.b B.b = ER.flt B.b A.b from rfl, hl1,
        rc_false_of_bit ((noCI_bits hA).2 ha)]
      simp

/-- `Intersection` preserves the no-closed-infinity invariant. -/
lemma noCI_inter {x y : Interval} (hvx : Valid x) (hvy : Valid y) :
    NoClosedInf (Intersection x y) := by
  have hnx := valid_noNaN hvx
  have hny := valid_noNaN hvy
  have hx := valid_noCI hvx
  have hy := valid_noCI hvy
  by_cases h1 : (x.IsEmpty || y.IsEmpty) = true
  · unfold Intersection
    rw [if_pos h1]
    exact noCI_emptyI
  obtain ⟨hex, hey⟩ := Bool.or_eq_false_iff.mp (bool_eq_false h1)
  by_cases h2 : Equal x y = true
  · unfold Intersection
    rw [if_neg (by simp [bool_eq_false h1]), if_pos h2]
    exact hx
  by_cases h3 : (!(x.Contains y.a) && !(x.Contains y.b) && !(y.Contains x.a) &&
      !(y.Contains x.b)) = true
  · unfold Intersection
    rw [if_neg (by simp [bool_eq_false h1]), if_neg (by simp [bool_eq_false h2]), if_pos h3]
    exact noCI_emptyI
  rw [inter_eq_spec hex hey (bool_eq_false h2) (bool_eq_false h3)]
  apply noCI_mk
  · intro hmaxn
    rw [interEndsSpec_land1]
    rcases ER.tricho hnx.1 hny.1 with
      ⟨hl1, hl2, hl3, hl4⟩ | ⟨hl1, hl2, hl3, hl4⟩ | ⟨hl1, hl2, hl3, hl4⟩
    · have hb : y.a = ER.ninf := by rw [← fmax_eq_right hnx.1 hny.1 hl1]; exact hmaxn
      rw [hl1, lc_false_of_bit ((noCI_bits hy).1 hb)]
      simp
    · have ha : x.a = ER.ninf := by rw [← fmax_eq_left hnx.1 hny.1 hl3]; exact hmaxn
      rw [hl3, hl1, lc_false_of_bit ((noCI_bits hx).1 ha)]
      simp
    · have ha : x.a = ER.ninf := by rw [← fmax_eq_left hnx.1 hny.1 hl2]; exact hmaxn
      rw [hl2, hl3, show ER.fgt x.a y.a = ER.flt y.a x.a from rfl, hl1,
        lc_false_of_bit ((noCI_bits hx).1 ha)]
      simp
  · intro hminp
    rw [interEndsSpec_land2]
    rcases ER.tricho hnx.2 hny.2 with
      ⟨hl1, hl2, hl3, hl4⟩ | ⟨hl1, hl2, hl3, hl4⟩ | ⟨hl1, hl2, hl3, hl4⟩
    · have ha : x.b = ER.pinf := by rw [← fmin_eq_left hnx.2 hny.2 hl2]; exact hminp
      rw [hl1, rc_false_of_bit ((noCI_bits hx).2 ha)]
      simp
    · have ha : x.b = ER.pinf := by rw [← fmin_eq_left hnx.2 hny.2 hl4]; exact hminp
      rw [hl3, hl1, rc_false_of_bit ((noCI_bits hx).2 ha)]
      simp
    · have hb : y.b = ER.pinf := by rw [← fmin_eq_right hnx.2 hny.2 hl1]; exact hminp
      rw [hl2, hl3, show ER.fgt x.b y.b = ER.flt y.b x.b from rfl, hl1,
        rc_false_of_bit ((noCI_bits hy).2 hb)]
      simp

/-- `Add` preserves the no-closed-infinity invariant. -/
lemma noCI_add {x y : Interval} (hvx : Valid x) (hvy : Valid y) :
    NoClosedInf (Add x y) := by
  unfold Add
  by_cases h1 : (x.IsEmpty || y.IsEmpty) = true
  · rw [if_pos h1]
    exact noCI_emptyI
  · rw [if_neg h1]
    apply noCI_mk
    · intro ha
      rcases ER.add_eq_ninf ha with h | h
      · exact land_land1_left ((noCI_bits (valid_noCI hvx)).1 h)
      · exact land_land1_right ((noCI_bits (valid_noCI hvy)).1 h)
    · intro hb
      rcases ER.add_eq_pinf hb with h | h
      · exact land_land2_left ((noCI_bits (valid_noCI hvx)).2 h)
      · exact land_land2_right ((noCI_bits (valid_noCI hvy)).2 h)

/-- `Sub` preserves the no-closed-infinity invariant. -/
lemma noCI_sub {x y : Interval} (hvx : Valid x) (hvy : Valid y) :
    NoClosedInf (Sub x y) := by
  unfold Sub
  by_cases h1 : (x.IsEmpty || y.IsEmpty) = true
  · rw [if_pos h1]
    exact noCI_emptyI
  · rw [if_neg h1]
    exact noCI_add hvx (valid_neg hvy)

/-- Every interval produced by `MulAux` on valid operands has no closed
endpoint at an infinite bound (induction on fuel; every branch is checked). -/
lemma mulAux_noCI : ∀ (n : Nat) (x y : Interval), Valid x → Valid y →
    ∀ r, MulAux n x y = some r → NoClosedInf r := by
  intro n
  induction n with
  | zero =>
      intro x y _ _ r hr
      exact absurd hr (by simp [MulAux])
  | succ n ih =>
      intro x y hvx hvy r hr
      unfold MulAux at hr
      by_cases c1 : (x.IsEmpty || y.IsEmpty) = true
      · rw [if_pos c1] at hr
        injection hr with h
        rw [← h]
        exact noCI_emptyI
      rw [if_neg c1] at hr
      by_cases c2 : (x.IsZero || y.IsZero) = true
      · rw [if_pos c2] at hr
        injection hr with h
        rw [← h]
        exact noCI_zeroI
      rw [if_neg c2] at hr
      by_cases c3 : x.isNeg = true
      · rw [if_pos c3] at hr
        rw [Option.map_eq_some'] at hr
        obtain ⟨s, hs, hmap⟩ := hr
        rw [← hmap]
        exact noCI_neg (ih x.Neg y (valid_neg hvx) hvy s hs)
      rw [if_neg c3] at hr
      by_cases c4 : y.isNeg = true
      · rw [if_pos c4] at hr
        rw [Option.map_eq_some'] at hr
        obtain ⟨s, hs, hmap⟩ := hr
        rw [← hmap]
        exact noCI_neg (ih y.Neg x (valid_neg hvy) hvx s hs)
      rw [if_neg c4] at hr
      have hc1 : (x.IsEmpty || y.IsEmpty) = false := bool_eq_false c1
      obtain ⟨hex, hey⟩ := Bool.or_eq_false_iff.mp hc1
      by_cases c5 : (x.isPos && y.isPos) = true
      · rw [if_pos c5] at hr
        obtain ⟨hx, hy⟩ := Bool.and_eq_true_iff.mp c5
        obtain ⟨⟨qa, hqa, _⟩, hbx⟩ := isPos_shape hvx hex hx
        obtain ⟨⟨qb, hqb, _⟩, hby⟩ := isPos_shape hvy hey hy
        injection hr with h
        rw [← h]
        apply noCI_mk
        · intro ha
          exfalso
          rw [hqa, hqb] at ha
          exact ER.mul_ninf_ff ha
        · intro hb
          rw [posPosEnds_land2]
          rcases ER.mul_pinf_pp hbx hby hb with h' | h'
          · exact land_land2_left ((noCI_bits (valid_noCI hvx)).2 h')
          · exact land_land2_right ((noCI_bits (valid_noCI hvy)).2 h')
      rw [if_neg c5] at hr
      by_cases c6 : (x.isPos && y.IsMixed) = true
      · rw [if_pos c6] at hr
        obtain ⟨hx, hy⟩ := Bool.and_eq_true_iff.mp c6
        obtain ⟨_, hbx⟩ := isPos_shape hvx hex hx
        obtain ⟨hya, hyb⟩ := mixed_shape' hy
        by_cases hrc : x.RightIsClosed = true
        · rw [if_pos hrc] at hr
          injection hr with h
          rw [← h]
          apply noCI_mk
          · intro ha
            rcases ER.mul_ninf_pn hbx hya ha with h' | h'
            · exact absurd ⟨h', hrc⟩ (valid_nonempty_facts hvx hex).2.2.2.2
            · exact (noCI_bits (valid_noCI hvy)).1 h'
          · intro hb
            rcases ER.mul_pinf_pp hbx hyb hb with h' | h'
            · exact absurd ⟨h', hrc⟩ (valid_nonempty_facts hvx hex).2.2.2.2
            · exact (noCI_bits (valid_noCI hvy)).2 h'
        · rw [if_neg hrc] at hr
          injection hr with h
          rw [← h]
          exact noCI_mk (fun _ => by decide) (fun _ => by decide)
      rw [if_neg c6] at hr
      by_cases c7 : (x.IsMixed && y.IsMixed) = true
      · rw [if_pos c7] at hr
        obtain ⟨hx, hy⟩ := Bool.and_eq_true_iff.mp c7
        obtain ⟨hxa, hxb⟩ := mixed_shape' hx
        obtain ⟨hya, hyb⟩ := mixed_shape' hy
        injection hr with h
        rw [← h]
        apply noCI_union_parts
        · exact ⟨ER.mul_negLo_posHi hxa hyb, ER.mul_posHi_posHi hxb hyb⟩
        · exact ⟨ER.mul_posHi_negLo hxb hya, ER.mul_negLo_negLo hxa hya⟩
        · apply noCI_mk
          · intro ha
            rw [mmEnds1_land1]
            rcases ER.mul_ninf_np hxa hyb ha with h' | h'
            · exact land_land1_left ((noCI_bits (valid_noCI hvx)).1 h')
            · exact land_land1_right (endsFlip1_zero ((noCI_bits (valid_noCI hvy)).2 h'))
          · intro hb
            rw [mmEnds1_land2]
            rcases ER.mul_pinf_pp hxb hyb hb with h' | h'
            · exact land_land2_left ((noCI_bits (valid_noCI hvx)).2 h')
            · exact land_land2_right ((noCI_bits (valid_noCI hvy)).2 h')
        · apply noCI_mk
          · intro ha
            rw [mmEnds2_land1]
            rcases ER.mul_ninf_pn hxb hya ha with h' | h'
            · exact land_land1_left (endsFlip1_zero ((noCI_bits (valid_noCI hvx)).2 h'))
            · exact land_land1_right ((noCI_bits (valid_noCI hvy)).1 h')
          · intro hb
            rw [mmEnds2_land2]
            rcases ER.mul_pinf_nn hxa hya hb with h' | h'
            · exact land_land2_left (endsFlip2_zero ((noCI_bits (valid_noCI hvx)).1 h'))
            · exact land_land2_right (endsFlip2_zero ((noCI_bits (valid_noCI hvy)).1 h'))
      rw [if_neg c7] at hr
      by_cases c8 : y.isPos = true
      · rw [if_pos c8] at hr
        exact ih y x hvy hvx r hr
      rw [if_neg c8] at hr
      exact absurd hr (by simp)

/-- Every interval produced by `DivAux` on valid operands has no closed
endpoint at an infinite bound (induction on fuel; every branch is checked). -/
lemma divAux_noCI : ∀ (n : Nat) (x y : Interval), Valid x → Valid y →
    ∀ r e, DivAux n x y = some (r, e) → NoClosedInf r := by
  intro n
  induction n with
  | zero =>
      intro x y _ _ r e hr
      exact absurd hr (by simp [DivAux])
  | succ n ih =>
      intro x y hvx hvy r e hr
      unfold DivAux at hr
      by_cases c1 : (x.IsEmpty || y.IsEmpty) = true
      · rw [if_pos c1] at hr
        injection hr with h
        injection h with h1 h2
        rw [← h1]
        exact noCI_emptyI
      rw [if_neg c1] at hr
      by_cases c2 : y.IsZero = true
      · rw [if_pos c2] at hr
        injection hr with h
        injection h with h1 h2
        rw [← h1]
        exact noCI_emptyI
      rw [if_neg c2] at hr
      by_cases c3 : x.IsZero = true
      · rw [if_pos c3] at hr
        injection hr with h
        injection h with h1 h2
        rw [← h1]
        exact noCI_zeroI
      rw [if_neg c3] at hr
      by_cases c4 : x.isNeg = true
      · rw [if_pos c4] at hr
        rw [Option.map_eq_some'] at hr
        obtain ⟨⟨s, se⟩, hs, hmap⟩ := hr
        injection hmap with h1 h2
        rw [← h1]
        exact noCI_neg (ih x.Neg y (valid_neg hvx) hvy s se hs)
      rw [if_neg c4] at hr
      by_cases c5 : y.isNeg = true
      · rw [if_pos c5] at hr
        rw [Option.map_eq_some'] at hr
        obtain ⟨⟨s, se⟩, hs, hmap⟩ := hr
        injection hmap with h1 h2
        rw [← h1]
        exact noCI_neg (ih x y.Neg hvx (valid_neg hvy) s se hs)
      rw [if_neg c5] at hr
      have hc1 : (x.IsEmpty || y.IsEmpty) = false := bool_eq_false c1
      obtain ⟨hex, hey⟩ := Bool.or_eq_false_iff.mp hc1
      have hzx : x.IsZero = false := bool_eq_false c3
      have hzy : y.IsZero = false := bool_eq_false c2
      have hnx : x.isNeg = false := bool_eq_false c4
      have hny : y.isNeg = false := bool_eq_false c5
      by_cases c6 : ((x.has0 && y.IsMixed) || (x.IsMixed && y.has0)) = true
      · rw [if_pos c6] at hr
        injection hr with h
        injection h with h1 h2
        rw [← h1]
        exact noCI_mk (fun _ => by decide) (fun _ => by decide)
      rw [if_neg c6] at hr
      by_cases c7 : (x.isP1 && y.IsMixed) = true
      · rw [if_pos c7] at hr
        injection hr with h
        injection h with h1 h2
        rw [← h1]
        exact noCI_mk (fun _ => by decide) (fun _ => by decide)
      rw [if_neg c7] at hr
      by_cases c8 : y.isP0 = true
      · rw [if_pos c8] at hr
        have hxpos : x.isPos = true := by
          rcases classify hvx hex hzx with h | h | h
          · rw [hnx] at h
            exact absurd h (by decide)
          · exact h
          · exfalso
            apply c6
            have hy0 : y.has0 = true := by
              unfold Interval.has0
              rw [c8]
              rfl
            rw [h, hy0]
            simp
        obtain ⟨hxa, _⟩ := isPos_shape hvx hex hxpos
        have hyb : PosHi y.b :=
          (ER.zero_flt_shape (isP0_shape c8).2.2).imp id (fun ⟨q, hq, hlt⟩ => ⟨q, hq, hlt⟩)
        injection hr with h
        injection h with h1 h2
        rw [← h1]
        apply noCI_mk
        · intro ha
          exact absurd ha (ER.div_ne_ninf_fp hxa hyb)
        · intro _
          exact land1_land2 _
      rw [if_neg c8] at hr
      have hyP1 : y.isP1 = true ∨ y.IsMixed = true := by
        rcases classify hvy hey hzy with h | h | h
        · rw [hny] at h
          exact absurd h (by decide)
        · rcases Bool.or_eq_true_iff.mp h with h0 | h1
          · exact absurd h0 c8
          · exact Or.inl h1
        · exact Or.inr h
      by_cases c9 : x.isPos = true
      · rw [if_pos c9] at hr
        have hy1 : y.isP1 = true := by
          rcases hyP1 with h | h
          · exact h
          · exfalso
            rcases Bool.or_eq_true_iff.mp c9 with hp0 | hp1
            · apply c6
              have hx0 : x.has0 = true := by
                unfold Interval.has0
                rw [hp0]
                rfl
              rw [hx0, h]
              simp
            · exact c7 (by rw [hp1, h]; rfl)
        obtain ⟨hxa, hxb⟩ := isPos_shape hvx hex c9
        have hya : FinNN y.a := by
          obtain ⟨_, hfa, _⟩ := isP1_facts hy1
          obtain ⟨q, hq, hle⟩ := ER.not_flt_zero_shape hfa
            (valid_nonempty_facts hvy hey).2.1 (nonempty_a_ne_pinf hvy hey)
          exact ⟨q, hq, hle⟩
        have hyb : PosHi y.b :=
          (ER.zero_flt_shape (isP1_facts hy1).1).imp id (fun ⟨q, hq, hlt⟩ => ⟨q, hq, hlt⟩)
        injection hr with h
        injection h with h1 h2
        rw [← h1]
        apply noCI_mk
        · intro ha
          exact absurd ha (ER.div_ne_ninf_fp hxa hyb)
        · intro hb
          rcases ER.div_pinf_pf hxb hya hb with h' | h'
          · exact land_land2_left ((noCI_bits (valid_noCI hvx)).2 h')
          · exact land_land2_right (endsFlip2_zero (isP1_zero_open hy1 h'))
      rw [if_neg c9] at hr
      by_cases c10 : x.IsMixed = true
      · rw [if_pos c10] at hr
        have hy1 : y.isP1 = true := by
          rcases hyP1 with h | h
          · exact h
          · exfalso
            apply c6
            have hy0 : y.has0 = true := by
              unfold Interval.has0
              rw [h]
              simp
            rw [hy0, c10]
            simp
        obtain ⟨hxa, hxb⟩ := mixed_shape' c10
        have hya : FinNN y.a := by
          obtain ⟨_, hfa, _⟩ := isP1_facts hy1
          obtain ⟨q, hq, hle⟩ := ER.not_flt_zero_shape hfa
            (valid_nonempty_facts hvy hey).2.1 (nonempty_a_ne_pinf hvy hey)
          exact ⟨q, hq, hle⟩
        injection hr with h
        injection h with h1 h2
        rw [← h1]
        apply noCI_mk
        · intro ha
          rw [bit_sum_mask_land1]
          rcases ER.div_ninf_nf hxa hya ha with h' | h'
          · exact land_land1_left ((noCI_bits (valid_noCI hvx)).1 h')
          · exact land_land1_right (isP1_zero_open hy1 h')
        · intro hb
          rw [bit_sum_mask_land2]
          rcases ER.div_pinf_pf hxb hya hb with h' | h'
          · exact land_land2_left ((noCI_bits (valid_noCI hvx)).2 h')
          · exact land_land2_right (endsFlip2_zero (isP1_zero_open hy1 h'))
      rw [if_neg c10] at hr
      exact absurd hr (by simp)

/-! ### Properties of binary64 rounding -/

lemma nearestEven_ge_floor (t : ℚ) : ⌊t⌋ ≤ nearestEven t := by
  unfold nearestEven
  split_ifs <;> omega

lemma nearestEven_intCast (m : ℤ) : nearestEven (m : ℚ) = m := by
  unfold nearestEven
  rw [Int.floor_intCast, sub_self]
  norm_num

lemma nearestEven_small {t : ℚ} (h0 : 0 ≤ t) (h : t ≤ 1/2) : nearestEven t = 0 := by
  have hf : ⌊t⌋ = 0 := by
    rw [Int.floor_eq_zero_iff]
    exact ⟨h0, by linarith⟩
  unfold nearestEven
  rw [hf]
  split_ifs with h1 h2 h3
  · rfl
  · exfalso
    push_cast at h2
    linarith
  · rfl
  · exact absurd (by decide : (0:ℤ) % 2 = 0) h3

lemma ratLog2_aux {a : ℚ} {n d : ℕ} (hn : n ≠ 0) (hd : d ≠ 0)
    (heq : a = (n : ℚ) / (d : ℚ)) :
    (2:ℚ)^((Nat.log2 n : ℤ) - (Nat.log2 d : ℤ) - 1) < a ∧
      a < (2:ℚ)^((Nat.log2 n : ℤ) - (Nat.log2 d : ℤ) + 1) := by
  have h1 : (2:ℕ)^(Nat.log2 n) ≤ n := Nat.log2_self_le hn
  have h2 : n < 2^(Nat.log2 n + 1) := Nat.lt_log2_self
  have h3 : (2:ℕ)^(Nat.log2 d) ≤ d := Nat.log2_self_le hd
  have h4 : d < 2^(Nat.log2 d + 1) := Nat.lt_log2_self
  have hnq : (0:ℚ) < (n:ℚ) := by exact_mod_cast Nat.pos_of_ne_zero hn
  have hdq : (0:ℚ) < (d:ℚ) := by exact_mod_cast Nat.pos_of_ne_zero hd
  have h1q : (2:ℚ)^(Nat.log2 n) ≤ (n:ℚ) := by exact_mod_cast h1
  have h2q : (n:ℚ) < 2^(Nat.log2 n + 1) := by exact_mod_cast h2
  have h3q : (2:ℚ)^(Nat.log2 d) ≤ (d:ℚ) := by exact_mod_cast h3
  have h4q : (d:ℚ) < 2^(Nat.log2 d + 1) := by exact_mod_cast h4
  constructor
  · have hz : (2:ℚ)^((Nat.log2 n : ℤ) - (Nat.log2 d : ℤ) - 1) =
        (2:ℚ)^(Nat.log2 n) / (2:ℚ)^(Nat.log2 d + 1) := by
      rw [show (Nat.log2 n : ℤ) - (Nat.log2 d : ℤ) - 1 =
          ((Nat.log2 n : ℕ) : ℤ) - ((Nat.log2 d + 1 : ℕ) : ℤ) by push_cast; ring,
        zpow_sub₀ (by norm_num : (2:ℚ) ≠ 0), zpow_natCast, zpow_natCast]
    rw [hz, heq, div_lt_div_iff (by positivity) hdq]
    calc (2:ℚ)^(Nat.log2 n) * (d:ℚ) ≤ (n:ℚ) * (d:ℚ) :=
          mul_le_mul_of_nonneg_right h1q hdq.le
      _ < (n:ℚ) * (2:ℚ)^(Nat.log2 d + 1) := mul_lt_mul_of_pos_left h4q hnq
  · have hz : (2:ℚ)^((Nat.log2 n : ℤ) - (Nat.log2 d : ℤ) + 1) =
        (2:ℚ)^(Nat.log2 n + 1) / (2:ℚ)^(Nat.log2 d) := by
      rw [show (Nat.log2 n : ℤ) - (Nat.log2 d : ℤ) + 1 =
          ((Nat.log2 n + 1 : ℕ) : ℤ) - ((Nat.log2 d : ℕ) : ℤ) by push_cast; ring,
        zpow_sub₀ (by norm_num : (2:ℚ) ≠ 0), zpow_natCast, zpow_natCast]
    rw [hz, heq, div_lt_div_iff hdq (by positivity)]
    calc (n:ℚ) * (2:ℚ)^(Nat.log2 d) ≤ (n:ℚ) * (d:ℚ) :=
          mul_le_mul_of_nonneg_left h3q hnq.le
      _ < (2:ℚ)^(Nat.log2 n + 1) * (d:ℚ) := mul_lt_mul_of_pos_right h2q hdq

/-- `ratLog2` is the floor of log2: the two-sided bracketing. -/
lemma ratLog2_spec {a : ℚ} (ha : 0 < a) :
    (2:ℚ)^(ratLog2 a) ≤ a ∧ a < (2:ℚ)^(ratLog2 a + 1) := by
  have hnum : 0 < a.num := Rat.num_pos.mpr ha
  have hn : a.num.toNat ≠ 0 := by omega
  have hd : a.den ≠ 0 := a.den_nz
  have heq : a = (a.num.toNat : ℚ) / (a.den : ℚ) := by
    rw [show ((a.num.toNat : ℕ) : ℚ) = ((a.num.toNat : ℤ) : ℚ) by push_cast; ring,
      Int.toNat_of_nonneg hnum.le, Rat.num_div_den]
  obtain ⟨hlo, hhi⟩ := ratLog2_aux hn hd heq
  unfold ratLog2
  split_ifs with hc
  · exact ⟨hc, hhi⟩
  · refine ⟨hlo.le, ?_⟩
    rw [show (Nat.log2 a.num.toNat : ℤ) - (Nat.log2 a.den : ℤ) - 1 + 1 =
        (Nat.log2 a.num.toNat : ℤ) - (Nat.log2 a.den : ℤ) by ring]
    exact not_le.mp hc

lemma roundQ_ne_nan (v : ℚ) : roundQ v ≠ ER.nan := by
  unfold roundQ
  split_ifs <;> simp

/-- Any rational at least `2^1024` rounds to +inf: binary64 overflow. -/
lemma roundQ_overflow {v : ℚ} (h : (2:ℚ)^1024 ≤ v) : roundQ v = ER.pinf := by
  have hv0 : (0:ℚ) < v := lt_of_lt_of_le (by positivity) h
  have hne : ¬ (v = 0) := by linarith
  have hnlt : ¬ (v < 0) := by linarith
  have habs : |v| = v := abs_of_pos hv0
  obtain ⟨hl, hu⟩ := ratLog2_spec hv0
  have hL : (1024:ℤ) ≤ ratLog2 v := by
    have h' : (2:ℚ)^((1024:ℤ)) < (2:ℚ)^(ratLog2 v + 1) := by
      rw [show ((1024:ℤ)) = ((1024:ℕ) : ℤ) by norm_num, zpow_natCast]
      exact lt_of_le_of_lt h hu
    have := (zpow_lt_zpow_iff_right₀ (by norm_num : (1:ℚ) < 2)).mp h'
    omega
  have hE : floatE v = ratLog2 v - 52 := by
    unfold floatE
    rw [max_eq_right]
    omega
  have hEpos : (0:ℚ) < (2:ℚ)^(floatE v) := by positivity
  have ht : (2:ℚ)^((52:ℤ)) ≤ v / (2:ℚ)^(floatE v) := by
    rw [le_div_iff hEpos, hE, ← zpow_add₀ (by norm_num : (2:ℚ) ≠ 0)]
    rw [show (52:ℤ) + (ratLog2 v - 52) = ratLog2 v by ring]
    exact hl
  have hm : (2:ℤ)^52 ≤ nearestEven (v / (2:ℚ)^(floatE v)) := by
    have hfl : (2:ℤ)^52 ≤ ⌊v / (2:ℚ)^(floatE v)⌋ := by
      apply Int.le_floor.mpr
      rw [show (((2:ℤ)^52 : ℤ) : ℚ) = (2:ℚ)^((52:ℤ)) by push_cast; norm_num]
      exact ht
    exact le_trans hfl (nearestEven_ge_floor _)
  have hr : (2:ℚ)^1024 ≤ floatR v := by
    unfold floatR
    have hmq : (2:ℚ)^((52:ℤ)) ≤ (nearestEven (v / (2:ℚ)^(floatE v)) : ℚ) := by
      rw [show ((2:ℚ)^((52:ℤ))) = (((2:ℤ)^52 : ℤ) : ℚ) by push_cast; norm_num]
      exact_mod_cast hm
    have hgrid : (2:ℚ)^((972:ℤ)) ≤ (2:ℚ)^(floatE v) := by
      apply zpow_le_zpow_right₀ (by norm_num : (1:ℚ) ≤ 2)
      omega
    calc (2:ℚ)^1024 = (2:ℚ)^((52:ℤ)) * (2:ℚ)^((972:ℤ)) := by
          rw [← zpow_add₀ (by norm_num : (2:ℚ) ≠ 0)]
          norm_num
      _ ≤ (nearestEven (v / (2:ℚ)^(floatE v)) : ℚ) * (2:ℚ)^(floatE v) := by
          apply mul_le_mul hmq hgrid (by positivity) (le_trans (by positivity) hmq)
  unfold roundQ
  rw [if_neg hne, habs, if_pos hr, if_neg hnlt]

/-- Any rational of magnitude at most `2^(-1075)` rounds to zero: binary64
underflow (the halfway case ties to the even mantissa 0). -/
lemma roundQ_small {v : ℚ} (h : |v| * 2^1075 ≤ 1) : roundQ v = ER.fin 0 := by
  by_cases h0 : v = 0
  · unfold roundQ
    rw [if_pos h0]
  · have ha0 : (0:ℚ) < |v| := abs_pos.mpr h0
    have hbound : |v| ≤ (2:ℚ)^((-1075 : ℤ)) := by
      rw [zpow_neg, show ((1075:ℤ)) = ((1075:ℕ) : ℤ) by norm_num, zpow_natCast, ← one_div]
      rw [le_div_iff (by positivity : (0:ℚ) < (2:ℚ)^(1075:ℕ))]
      exact h
    obtain ⟨hl, _⟩ := ratLog2_spec ha0
    have hL : ratLog2 |v| ≤ -1075 := by
      have h' : (2:ℚ)^(ratLog2 |v|) ≤ (2:ℚ)^((-1075 : ℤ)) := le_trans hl hbound
      exact (zpow_le_zpow_iff_right₀ (by norm_num : (1:ℚ) < 2)).mp h'
    have hE : floatE |v| = -1074 := by
      unfold floatE
      rw [max_eq_left]
      omega
    have ht : |v| / (2:ℚ)^((-1074 : ℤ)) ≤ 1/2 := by
      rw [div_le_iff (by positivity)]
      calc |v| ≤ (2:ℚ)^((-1075 : ℤ)) := hbound
        _ = 1/2 * (2:ℚ)^((-1074 : ℤ)) := by
            rw [show ((-1075 : ℤ)) = (-1) + (-1074) by norm_num,
              zpow_add₀ (by norm_num : (2:ℚ) ≠ 0)]
            congr 1
            norm_num [zpow_neg]
    have hm : nearestEven (|v| / (2:ℚ)^(floatE |v|)) = 0 := by
      rw [hE]
      exact nearestEven_small (by positivity) ht
    have hfr : floatR |v| = 0 := by
      unfold floatR
      rw [hm]
      norm_num
    unfold roundQ
    rw [if_neg h0, hfr, if_neg (by norm_num : ¬ (2:ℚ)^1024 ≤ 0)]
    rw [show (if v < 0 then -(0:ℚ) else (0:ℚ)) = 0 by split_ifs <;> simp]

lemma ratLog2_one : ratLog2 1 = 0 := by
  unfold ratLog2
  rw [Rat.num_one, Rat.den_one]
  norm_num [Nat.log2_eq_log_two, Nat.log_one_right]

lemma floatE_one : floatE 1 = -52 := by
  unfold floatE
  rw [ratLog2_one]
  norm_num

/-- One is exactly representable. -/
lemma roundQ_one : roundQ 1 = ER.fin 1 := by
  have hfr : floatR 1 = 1 := by
    unfold floatR
    rw [floatE_one]
    have ht : (1:ℚ) / (2:ℚ)^((-52 : ℤ)) = (((2:ℤ)^52 : ℤ) : ℚ) := by
      rw [zpow_neg, one_div, inv_inv]
      push_cast
      norm_num
    rw [ht, nearestEven_intCast]
    rw [show (((2:ℤ)^52 : ℤ) : ℚ) = (2:ℚ)^((52:ℤ)) by push_cast; norm_num,
      ← zpow_add₀ (by norm_num : (2:ℚ) ≠ 0)]
    norm_num
  unfold roundQ
  rw [if_neg (by norm_num : ¬ (1:ℚ) = 0), abs_one, hfr,
    if_neg (by norm_num : ¬ (2:ℚ)^1024 ≤ 1), if_neg (by norm_num : ¬ (1:ℚ) < 0)]

/-- Rounding commutes with negation (no signed zero in the model). -/
lemma roundQ_neg (v : ℚ) : roundQ (-v) = ER.neg (roundQ v) := by
  by_cases h0 : v = 0
  · subst h0
    norm_num [roundQ, ER.neg]
  · have h0' : ¬ (-v = 0) := by simpa using h0
    unfold roundQ
    rw [if_neg h0', if_neg h0, abs_neg]
    by_cases hov : (2:ℚ)^1024 ≤ floatR |v|
    · rw [if_pos hov, if_pos hov]
      rcases lt_trichotomy v 0 with hv | hv | hv
      · rw [if_pos hv, if_neg (by linarith : ¬ (-v < 0))]
        rfl
      · exact absurd hv h0
      · rw [if_neg (by linarith : ¬ (v < 0)), if_pos (by linarith : -v < 0)]
        rfl
    · rw [if_neg hov, if_neg hov]
      rcases lt_trichotomy v 0 with hv | hv | hv
      · rw [if_pos hv, if_neg (by linarith : ¬ (-v < 0))]
        show ER.fin (floatR |v|) = ER.neg (ER.fin (-(floatR |v|)))
        simp [ER.neg]
      · exact absurd hv h0
      · rw [if_neg (by linarith : ¬ (v < 0)), if_pos (by linarith : -v < 0)]
        rfl

/-! ### Commutativity and NaN-freedom of the rounded operations -/

lemma ER.addF_comm (v w : ER) : ER.addF v w = ER.addF w v := by
  cases v <;> cases w <;> simp [ER.addF] <;> rw [Rat.add_comm]

lemma ER.mulF_comm (v w : ER) : ER.mulF v w = ER.mulF w v := by
  cases v <;> cases w <;> simp [ER.mulF] <;> rw [Rat.mul_comm]

lemma addF_comm_interval (x y : Interval) : AddF x y = AddF y x := by
  unfold AddF
  have hl : Nat.land y.ends x.ends = Nat.land x.ends y.ends := Nat.land_comm _ _
  rw [Bool.or_comm y.IsEmpty x.IsEmpty, ER.addF_comm y.a x.a, ER.addF_comm y.b x.b, hl]

lemma ER.addF_lo_lo {v w : ER} (hv : v = ER.ninf ∨ ∃ q : ℚ, v = ER.fin q)
    (hw : w = ER.ninf ∨ ∃ q : ℚ, w = ER.fin q) : ER.addF v w ≠ ER.nan := by
  rcases hv with hv | ⟨p, hv⟩ <;> rcases hw with hw | ⟨q, hw⟩ <;> subst hv <;> subst hw <;>
    simp [ER.addF]
  exact roundQ_ne_nan _

lemma ER.addF_hi_hi {v w : ER} (hv : v = ER.pinf ∨ ∃ q : ℚ, v = ER.fin q)
    (hw : w = ER.pinf ∨ ∃ q : ℚ, w = ER.fin q) : ER.addF v w ≠ ER.nan := by
  rcases hv with hv | ⟨p, hv⟩ <;> rcases hw with hw | ⟨q, hw⟩ <;> subst hv <;> subst hw <;>
    simp [ER.addF]
  exact roundQ_ne_nan _

lemma noNaN_addF {x y : Interval} (hvx : Valid x) (hvy : Valid y) : NoNaN (AddF x y) := by
  unfold AddF
  by_cases h1 : (x.IsEmpty || y.IsEmpty) = true
  · rw [if_pos h1]
    exact noNaN_emptyI
  · rw [if_neg h1]
    obtain ⟨hex, hey⟩ := Bool.or_eq_false_iff.mp (bool_eq_false h1)
    obtain ⟨hxa, hxb⟩ := nonempty_shape hvx hex
    obtain ⟨hya, hyb⟩ := nonempty_shape hvy hey
    exact ⟨ER.addF_lo_lo hxa hya, ER.addF_hi_hi hxb hyb⟩

/-! ### Branch equations of the rounded multiplication -/

lemma mulAuxF_eq_empty {n : Nat} {x y : Interval} (h : (x.IsEmpty || y.IsEmpty) = true) :
    MulAuxF (n + 1) x y = some emptyI := by
  unfold MulAuxF
  rw [if_pos h]

lemma mulAuxF_eq_zero {n : Nat} {x y : Interval}
    (h1 : (x.IsEmpty || y.IsEmpty) = false) (h2 : (x.IsZero || y.IsZero) = true) :
    MulAuxF (n + 1) x y = some zeroI := by
  unfold MulAuxF
  rw [if_neg (by simp [h1]), if_pos h2]

lemma mulAuxF_eq_negx {n : Nat} {x y : Interval}
    (h1 : (x.IsEmpty || y.IsEmpty) = false) (h2 : (x.IsZero || y.IsZero) = false)
    (h3 : x.isNeg = true) :
    MulAuxF (n + 1) x y = (MulAuxF n x.Neg y).map Interval.Neg := by
  conv_lhs => unfold MulAuxF
  rw [if_neg (by simp [h1]), if_neg (by simp [h2]), if_pos h3]

lemma mulAuxF_eq_negy {n : Nat} {x y : Interval}
    (h1 : (x.IsEmpty || y.IsEmpty) = false) (h2 : (x.IsZero || y.IsZero) = false)
    (h3 : x.isNeg = false) (h4 : y.isNeg = true) :
    MulAuxF (n + 1) x y = (MulAuxF n y.Neg x).map Interval.Neg := by
  conv_lhs => unfold MulAuxF
  rw [if_neg (by simp [h1]), if_neg (by simp [h2]), if_neg (by simp [h3]), if_pos h4]

lemma mulAuxF_eq_pp {n : Nat} {x y : Interval}
    (h1 : (x.IsEmpty || y.IsEmpty) = false) (h2 : (x.IsZero || y.IsZero) = false)
    (h5 : x.isPos = true) (h6 : y.isPos = true) :
    MulAuxF (n + 1) x y = some ⟨ER.mulF x.a y.a, ER.mulF x.b y.b, posPosEnds x y⟩ := by
  have h3 := isPos_not_isNeg h5
  have h4 := isPos_not_isNeg h6
  unfold MulAuxF
  rw [if_neg (by simp [h1]), if_neg (by simp [h2]), if_neg (by simp [h3]),
    if_neg (by simp [h4]), if_pos (by simp [h5, h6])]

lemma mulAuxF_eq_pm {n : Nat} {x y : Interval}
    (h1 : (x.IsEmpty || y.IsEmpty) = false) (h2 : (x.IsZero || y.IsZero) = false)
    (h5 : x.isPos = true) (h6 : y.IsMixed = true) :
    MulAuxF (n + 1) x y =
      some (if x.RightIsClosed then ⟨ER.mulF x.b y.a, ER.mulF x.b y.b, y.ends⟩
            else ⟨ER.mulF x.b y.a, ER.mulF x.b y.b, EOpen⟩) := by
  have h3 := isPos_not_isNeg h5
  have h4 := mixed_not_isNeg h6
  have h7 := mixed_not_isPos h6
  unfold MulAuxF
  rw [if_neg (by simp [h1]), if_neg (by simp [h2]), if_neg (by simp [h3]),
    if_neg (by simp [h4]), if_neg (by simp [h7]), if_pos (by simp [h5, h6])]

lemma mulAuxF_eq_mm {n : Nat} {x y : Interval}
    (h1 : (x.IsEmpty || y.IsEmpty) = false) (h2 : (x.IsZero || y.IsZero) = false)
    (h5 : x.IsMixed = true) (h6 : y.IsMixed = true) :
    MulAuxF (n + 1) x y =
      some (Union ⟨ER.mulF x.a y.b, ER.mulF x.b y.b, mmEnds1 x y⟩
                  ⟨ER.mulF x.b y.a, ER.mulF x.a y.a, mmEnds2 x y⟩) := by
  have h3 := mixed_not_isNeg h5
  have h4 := mixed_not_isNeg h6
  have h7 := mixed_not_isPos h5
  unfold MulAuxF
  rw [if_neg (by simp [h1]), if_neg (by simp [h2]), if_neg (by simp [h3]),
    if_neg (by simp [h4]), if_neg (by simp [h7]), if_neg (by simp [h7]),
    if_pos (by simp [h5, h6])]

lemma mulAuxF_eq_swap {n : Nat} {x y : Interval}
    (h1 : (x.IsEmpty || y.IsEmpty) = false) (h2 : (x.IsZero || y.IsZero) = false)
    (h5 : x.IsMixed = true) (h6 : y.isPos = true) :
    MulAuxF (n + 1) x y = MulAuxF n y x := by
  have h3 := mixed_not_isNeg h5
  have h4 := isPos_not_isNeg h6
  have h7 := mixed_not_isPos h5
  have h8 := isPos_not_mixed h6
  conv_lhs => unfold MulAuxF
  rw [if_neg (by simp [h1]), if_neg (by simp [h2]), if_neg (by simp [h3]),
    if_neg (by simp [h4]), if_neg (by simp [h7]), if_neg (by simp [h7]),
    if_neg (by simp [h8]), if_pos h6]

/-- The rounded `MulAuxF` is commutative on non-negative operands that are
not both mixed. -/
lemma mulAuxF_nn_comm {n m : Nat} {x y : Interval}
    (hxe : x.IsEmpty = false) (hye : y.IsEmpty = false)
    (hzx : x.IsZero = false) (hzy : y.IsZero = false)
    (hx : x.isPos = true ∨ x.IsMixed = true) (hy : y.isPos = true ∨ y.IsMixed = true)
    (hnmm : (x.IsMixed && y.IsMixed) = false) :
    MulAuxF (n + 2) x y = MulAuxF (m + 2) y x := by
  have he1 : (x.IsEmpty || y.IsEmpty) = false := by rw [hxe, hye]; rfl
  have he2 : (y.IsEmpty || x.IsEmpty) = false := by rw [hxe, hye]; rfl
  have hz1 : (x.IsZero || y.IsZero) = false := by rw [hzx, hzy]; rfl
  have hz2 : (y.IsZero || x.IsZero) = false := by rw [hzx, hzy]; rfl
  rcases hx with hx | hx <;> rcases hy with hy | hy
  · have l1 : MulAuxF (n + 2) x y = some ⟨ER.mulF x.a y.a, ER.mulF x.b y.b, posPosEnds x y⟩ :=
      mulAuxF_eq_pp (n := n + 1) he1 hz1 hx hy
    have l2 : MulAuxF (m + 2) y x = some ⟨ER.mulF y.a x.a, ER.mulF y.b x.b, posPosEnds y x⟩ :=
      mulAuxF_eq_pp (n := m + 1) he2 hz2 hy hx
    rw [l1, l2, ER.mulF_comm y.a x.a, ER.mulF_comm y.b x.b, posPosEnds_comm y x]
  · have l1 : MulAuxF (n + 2) x y =
        some (if x.RightIsClosed then ⟨ER.mulF x.b y.a, ER.mulF x.b y.b, y.ends⟩
              else ⟨ER.mulF x.b y.a, ER.mulF x.b y.b, EOpen⟩) :=
      mulAuxF_eq_pm (n := n + 1) he1 hz1 hx hy
    have l2 : MulAuxF (m + 2) y x = MulAuxF (m + 1) x y :=
      mulAuxF_eq_swap (n := m + 1) he2 hz2 hy hx
    have l3 : MulAuxF (m + 1) x y =
        some (if x.RightIsClosed then ⟨ER.mulF x.b y.a, ER.mulF x.b y.b, y.ends⟩
              else ⟨ER.mulF x.b y.a, ER.mulF x.b y.b, EOpen⟩) :=
      mulAuxF_eq_pm (n := m) he1 hz1 hx hy
    rw [l1, l2, l3]
  · have l1 : MulAuxF (n + 2) x y = MulAuxF (n + 1) y x :=
      mulAuxF_eq_swap (n := n + 1) he1 hz1 hx hy
    have l2 : MulAuxF (n + 1) y x =
        some (if y.RightIsClosed then ⟨ER.mulF y.b x.a, ER.mulF y.b x.b, x.ends⟩
              else ⟨ER.mulF y.b x.a, ER.mulF y.b x.b, EOpen⟩) :=
      mulAuxF_eq_pm (n := n) he2 hz2 hy hx
    have l3 : MulAuxF (m + 2) y x =
        some (if y.RightIsClosed then ⟨ER.mulF y.b x.a, ER.mulF y.b x.b, x.ends⟩
              else ⟨ER.mulF y.b x.a, ER.mulF y.b x.b, EOpen⟩) :=
      mulAuxF_eq_pm (n := m + 1) he2 hz2 hy hx
    rw [l1, l2, l3]
  · exfalso
    rw [hx, hy] at hnmm
    exact absurd hnmm (by decide)

/-- The rounded `MulF` is commutative on valid operands that are not both
mixed (binary64 underflow can break the both-mixed case). -/
lemma mulF_comm_interval {x y : Interval} (hvx : Valid x) (hvy : Valid y)
    (hnmm : (x.IsMixed && y.IsMixed) = false) : MulF x y = MulF y x := by
  show MulAuxF 4 x y = MulAuxF 4 y x
  by_cases he : (x.IsEmpty || y.IsEmpty) = true
  · have he' : (y.IsEmpty || x.IsEmpty) = true := by rw [Bool.or_comm]; exact he
    have l1 : MulAuxF 4 x y = some emptyI := mulAuxF_eq_empty (n := 3) he
    have l2 : MulAuxF 4 y x = some emptyI := mulAuxF_eq_empty (n := 3) he'
    rw [l1, l2]
  · have he1 : (x.IsEmpty || y.IsEmpty) = false := bool_eq_false he
    have he2 : (y.IsEmpty || x.IsEmpty) = false := by rw [Bool.or_comm]; exact he1
    obtain ⟨hxe, hye⟩ := Bool.or_eq_false_iff.mp he1
    by_cases hz : (x.IsZero || y.IsZero) = true
    · have hz' : (y.IsZero || x.IsZero) = true := by rw [Bool.or_comm]; exact hz
      have l1 : MulAuxF 4 x y = some zeroI := mulAuxF_eq_zero (n := 3) he1 hz
      have l2 : MulAuxF 4 y x = some zeroI := mulAuxF_eq_zero (n := 3) he2 hz'
      rw [l1, l2]
    · have hz1 : (x.IsZero || y.IsZero) = false := bool_eq_false hz
      have hz2 : (y.IsZero || x.IsZero) = false := by rw [Bool.or_comm]; exact hz1
      obtain ⟨hzx, hzy⟩ := Bool.or_eq_false_iff.mp hz1
      obtain ⟨hx4, _, _, _, _⟩ := valid_nonempty_facts hvx hxe
      obtain ⟨hy4, _, _, _, _⟩ := valid_nonempty_facts hvy hye
      have hxen : x.Neg.IsEmpty = false := by rw [isEmpty_neg hx4]; exact hxe
      have hyen : y.Neg.IsEmpty = false := by rw [isEmpty_neg hy4]; exact hye
      have hxzn : x.Neg.IsZero = false := by rw [isZero_neg hx4]; exact hzx
      have hyzn : y.Neg.IsZero = false := by rw [isZero_neg hy4]; exact hzy
      rcases classify hvx hxe hzx with hxn | hxnn
      · have hxp : x.Neg.isPos = true := hxn
        rcases classify hvy hye hzy with hyn | hynn
        · have hyp : y.Neg.isPos = true := hyn
          have ha1 : (x.Neg.IsEmpty || y.IsEmpty) = false := by rw [hxen, hye]; rfl
          have ha2 : (x.Neg.IsZero || y.IsZero) = false := by rw [hxzn, hzy]; rfl
          have hb1 : (y.Neg.IsEmpty || x.IsEmpty) = false := by rw [hyen, hxe]; rfl
          have hb2 : (y.Neg.IsZero || x.IsZero) = false := by rw [hyzn, hzx]; rfl
          have hc1 : (y.Neg.IsEmpty || x.Neg.IsEmpty) = false := by rw [hyen, hxen]; rfl
          have hc2 : (y.Neg.IsZero || x.Neg.IsZero) = false := by rw [hyzn, hxzn]; rfl
          have hd1 : (x.Neg.IsEmpty || y.Neg.IsEmpty) = false := by rw [hxen, hyen]; rfl
          have hd2 : (x.Neg.IsZero || y.Neg.IsZero) = false := by rw [hxzn, hyzn]; rfl
          have l1 : MulAuxF 4 x y = (MulAuxF 3 x.Neg y).map Interval.Neg :=
            mulAuxF_eq_negx (n := 3) he1 hz1 hxn
          have l2 : MulAuxF 3 x.Neg y = (MulAuxF 2 y.Neg x.Neg).map Interval.Neg :=
            mulAuxF_eq_negy (n := 2) ha1 ha2 (isPos_not_isNeg hxp) hyn
          have l3 : MulAuxF 2 y.Neg x.Neg =
              some ⟨ER.mulF y.Neg.a x.Neg.a, ER.mulF y.Neg.b x.Neg.b, posPosEnds y.Neg x.Neg⟩ :=
            mulAuxF_eq_pp (n := 1) hc1 hc2 hyp hxp
          have r1 : MulAuxF 4 y x = (MulAuxF 3 y.Neg x).map Interval.Neg :=
            mulAuxF_eq_negx (n := 3) he2 hz2 hyn
          have r2 : MulAuxF 3 y.Neg x = (MulAuxF 2 x.Neg y.Neg).map Interval.Neg :=
            mulAuxF_eq_negy (n := 2) hb1 hb2 (isPos_not_isNeg hyp) hxn
          have r3 : MulAuxF 2 x.Neg y.Neg =
              some ⟨ER.mulF x.Neg.a y.Neg.a, ER.mulF x.Neg.b y.Neg.b, posPosEnds x.Neg y.Neg⟩ :=
            mulAuxF_eq_pp (n := 1) hd1 hd2 hxp hyp
          rw [l1, l2, l3, r1, r2, r3, ER.mulF_comm x.Neg.a y.Neg.a,
            ER.mulF_comm x.Neg.b y.Neg.b, posPosEnds_comm x.Neg y.Neg]
        · have hyn' : y.isNeg = false := by
            rcases hynn with hy | hy
            · exact isPos_not_isNeg hy
            · exact mixed_not_isNeg hy
          have l1 : MulAuxF 4 x y = (MulAuxF 3 x.Neg y).map Interval.Neg :=
            mulAuxF_eq_negx (n := 3) he1 hz1 hxn
          have r1 : MulAuxF 4 y x = (MulAuxF 3 x.Neg y).map Interval.Neg :=
            mulAuxF_eq_negy (n := 3) he2 hz2 hyn' hxn
          rw [l1, r1]
      · have hxn' : x.isNeg = false := by
          rcases hxnn with hx | hx
          · exact isPos_not_isNeg hx
          · exact mixed_not_isNeg hx
        rcases classify hvy hye hzy with hyn | hynn
        · have l1 : MulAuxF 4 x y = (MulAuxF 3 y.Neg x).map Interval.Neg :=
            mulAuxF_eq_negy (n := 3) he1 hz1 hxn' hyn
          have r1 : MulAuxF 4 y x = (MulAuxF 3 y.Neg x).map Interval.Neg :=
            mulAuxF_eq_negx (n := 3) he2 hz2 hyn
          rw [l1, r1]
        · exact mulAuxF_nn_comm (n := 2) (m := 2) hxe hye hzx hzy hxnn hynn hnmm

/-- C10 counterexample: the original claim fails for the arithmetic
operations under binary64 rounding.  The point interval [2^1023, 2^1023]
(closed) is constructible and valid, but `Add` of it with itself overflows:
both bound sums are exactly 2^1024, which rounds to +inf, and the `Ends`
AND keeps `Closed` - a closed right endpoint at +infinity. -/
theorem C10_counterexample :
    Valid (⟨ER.fin ((2:ℚ)^1023), ER.fin ((2:ℚ)^1023), EClosed⟩ : Interval) ∧
    AddF ⟨ER.fin ((2:ℚ)^1023), ER.fin ((2:ℚ)^1023), EClosed⟩
      ⟨ER.fin ((2:ℚ)^1023), ER.fin ((2:ℚ)^1023), EClosed⟩ =
      ⟨ER.pinf, ER.pinf, EClosed⟩ ∧
    ¬ NoClosedInf (⟨ER.pinf, ER.pinf, EClosed⟩ : Interval) := by
  have hne : Interval.IsEmpty ⟨ER.fin ((2:ℚ)^1023), ER.fin ((2:ℚ)^1023), EClosed⟩ = false := by
    norm_num [Interval.IsEmpty, ER.fgt, ER.flt, ER.feq, EClosed]
  refine ⟨Or.inr ⟨hne, by decide, by simp, by simp, by simp, by simp⟩, ?_, by decide⟩
  have hadd : ER.addF (ER.fin ((2:ℚ)^1023)) (ER.fin ((2:ℚ)^1023)) = ER.pinf := by
    show roundQ ((2:ℚ)^1023 + (2:ℚ)^1023) = ER.pinf
    rw [show (2:ℚ)^1023 + (2:ℚ)^1023 = (2:ℚ)^1024 by norm_num]
    exact roundQ_overflow le_rfl
  unfold AddF
  rw [if_neg (by simp [hne])]
  dsimp only
  rw [hadd]
  rfl

/-- C10 (amended): For all valid-interval inputs, Neg, Intersection and
Union - the operations that perform no bound arithmetic - never return an
interval whose left bound is -infinity with the left endpoint closed or
whose right bound is +infinity with the right endpoint closed; binary64
overflow lets Add, Sub, Mul and Div violate the invariant. -/
theorem C10_no_closed_inf_amended :
    ∀ x y : Interval, Valid x → Valid y →
      NoClosedInf x.Neg ∧ NoClosedInf (Intersection x y) ∧ NoClosedInf (Union x y) := by
  intro x y hvx hvy
  exact ⟨noCI_neg (valid_noCI hvx), noCI_inter hvx hvy,
    noCI_union_parts (valid_noNaN hvx) (valid_noNaN hvy) (valid_noCI hvx) (valid_noCI hvy)⟩

/-- C10 witness: the amended invariant at x = [1, +inf), y = [1,2]. -/
theorem C10_witness :
    NoClosedInf (Interval.Neg ⟨ER.fin 1, ER.pinf, ELeftClosed⟩) ∧
    NoClosedInf (Intersection ⟨ER.fin 1, ER.pinf, ELeftClosed⟩ ⟨ER.fin 1, ER.fin 2, EClosed⟩) ∧
    NoClosedInf (Union ⟨ER.fin 1, ER.pinf, ELeftClosed⟩ ⟨ER.fin 1, ER.fin 2, EClosed⟩) :=
  C10_no_closed_inf_amended ⟨ER.fin 1, ER.pinf, ELeftClosed⟩ ⟨ER.fin 1, ER.fin 2, EClosed⟩
    (by decide) (by decide)

/-- C5 counterexample: with binary64 rounding, `Mul` is not commutative when
both operands are mixed.  For x = (-2^-600, 2^-600] and y = (-2^600, 2^-600]
(both valid, non-empty and mixed), both products of Mul(x,y)'s first
sub-interval underflow to zero, making that sub-interval empty, so the final
`Union` returns the empty interval; in the swapped order the degenerate zero
bounds land in different sub-intervals, both non-empty, and the union is
(-1, 1).  The two results are not `Equal`. -/
theorem C5_counterexample :
    Valid (⟨ER.fin (-(1/2^600)), ER.fin (1/2^600), ERightClosed⟩ : Interval) ∧
    Valid (⟨ER.fin (-(2^600)), ER.fin (1/2^600), ERightClosed⟩ : Interval) ∧
    Interval.IsEmpty (⟨ER.fin (-(1/2^600)), ER.fin (1/2^600), ERightClosed⟩ : Interval)
      = false ∧
    Interval.IsEmpty (⟨ER.fin (-(2^600)), ER.fin (1/2^600), ERightClosed⟩ : Interval)
      = false ∧
    MulF ⟨ER.fin (-(1/2^600)), ER.fin (1/2^600), ERightClosed⟩
      ⟨ER.fin (-(2^600)), ER.fin (1/2^600), ERightClosed⟩ = some emptyI ∧
    MulF ⟨ER.fin (-(2^600)), ER.fin (1/2^600), ERightClosed⟩
      ⟨ER.fin (-(1/2^600)), ER.fin (1/2^600), ERightClosed⟩ =
      some ⟨ER.fin (-1), ER.fin 1, EOpen⟩ ∧
    OEqual (MulF ⟨ER.fin (-(1/2^600)), ER.fin (1/2^600), ERightClosed⟩
        ⟨ER.fin (-(2^600)), ER.fin (1/2^600), ERightClosed⟩)
      (MulF ⟨ER.fin (-(2^600)), ER.fin (1/2^600), ERightClosed⟩
        ⟨ER.fin (-(1/2^600)), ER.fin (1/2^600), ERightClosed⟩) = false := by
  have hxe : Interval.IsEmpty
      (⟨ER.fin (-(1/2^600)), ER.fin (1/2^600), ERightClosed⟩ : Interval) = false := by
    norm_num [Interval.IsEmpty, ER.fgt, ER.flt, ER.feq, ERightClosed, EClosed]
  have hye : Interval.IsEmpty
      (⟨ER.fin (-(2^600)), ER.fin (1/2^600), ERightClosed⟩ : Interval) = false := by
    norm_num [Interval.IsEmpty, ER.fgt, ER.flt, ER.feq, ERightClosed, EClosed]
  have hxm : Interval.IsMixed
      (⟨ER.fin (-(1/2^600)), ER.fin (1/2^600), ERightClosed⟩ : Interval) = true := by
    norm_num [Interval.IsMixed, ER.flt]
  have hym : Interval.IsMixed
      (⟨ER.fin (-(2^600)), ER.fin (1/2^600), ERightClosed⟩ : Interval) = true := by
    norm_num [Interval.IsMixed, ER.flt]
  have hxz : Interval.IsZero
      (⟨ER.fin (-(1/2^600)), ER.fin (1/2^600), ERightClosed⟩ : Interval) = false := by
    norm_num [Interval.IsZero, Interval.IsSingle, ER.feq, ERightClosed, EClosed]
  have hyz : Interval.IsZero
      (⟨ER.fin (-(2^600)), ER.fin (1/2^600), ERightClosed⟩ : Interval) = false := by
    norm_num [Interval.IsZero, Interval.IsSingle, ER.feq, ERightClosed, EClosed]
  have g1 : (Interval.IsEmpty (⟨ER.fin (-(1/2^600)), ER.fin (1/2^600), ERightClosed⟩ :
      Interval) ||
      Interval.IsEmpty ⟨ER.fin (-(2^600)), ER.fin (1/2^600), ERightClosed⟩) = false := by
    rw [hxe, hye]
    rfl
  have g2 : (Interval.IsEmpty (⟨ER.fin (-(2^600)), ER.fin (1/2^600), ERightClosed⟩ :
      Interval) ||
      Interval.IsEmpty ⟨ER.fin (-(1/2^600)), ER.fin (1/2^600), ERightClosed⟩) = false := by
    rw [hxe, hye]
    rfl
  have z1 : (Interval.IsZero (⟨ER.fin (-(1/2^600)), ER.fin (1/2^600), ERightClosed⟩ :
      Interval) ||
      Interval.IsZero ⟨ER.fin (-(2^600)), ER.fin (1/2^600), ERightClosed⟩) = false := by
    rw [hxz, hyz]
    rfl
  have z2 : (Interval.IsZero (⟨ER.fin (-(2^600)), ER.fin (1/2^600), ERightClosed⟩ :
      Interval) ||
      Interval.IsZero ⟨ER.fin (-(1/2^600)), ER.fin (1/2^600), ERightClosed⟩) = false := by
    rw [hxz, hyz]
    rfl
  have p1 : ER.mulF (ER.fin (-(1/2^600))) (ER.fin (1/2^600)) = ER.fin 0 := by
    show roundQ (-(1/2^600) * (1/2^600)) = ER.fin 0
    apply roundQ_small
    rw [show (-(1/2^600) * (1/2^600) : ℚ) = -(1/2^1200) by norm_num, abs_neg,
      abs_of_pos (by positivity)]
    norm_num
  have p2 : ER.mulF (ER.fin ((1/2^600 : ℚ))) (ER.fin (1/2^600)) = ER.fin 0 := by
    show roundQ ((1/2^600 : ℚ) * (1/2^600)) = ER.fin 0
    apply roundQ_small
    rw [show ((1/2^600 : ℚ) * (1/2^600)) = (1/2^1200 : ℚ) by norm_num,
      abs_of_pos (by positivity)]
    norm_num
  have p3 : ER.mulF (ER.fin ((1/2^600 : ℚ))) (ER.fin (-(2^600))) = ER.fin (-1) := by
    show roundQ ((1/2^600 : ℚ) * (-(2^600))) = ER.fin (-1)
    rw [show ((1/2^600 : ℚ) * (-(2^600))) = -(1 : ℚ) by norm_num, roundQ_neg, roundQ_one]
    rfl
  have p4 : ER.mulF (ER.fin (-(1/2^600))) (ER.fin (-(2^600))) = ER.fin 1 := by
    show roundQ ((-(1/2^600) : ℚ) * (-(2^600))) = ER.fin 1
    rw [show ((-(1/2^600) : ℚ) * (-(2^600))) = (1 : ℚ) by norm_num, roundQ_one]
  have p5 : ER.mulF (ER.fin (-(2^600) : ℚ)) (ER.fin (1/2^600)) = ER.fin (-1) := by
    show roundQ ((-(2^600) : ℚ) * (1/2^600)) = ER.fin (-1)
    rw [show ((-(2^600) : ℚ) * (1/2^600)) = -(1 : ℚ) by norm_num, roundQ_neg, roundQ_one]
    rfl
  have p6 : ER.mulF (ER.fin ((1/2^600 : ℚ))) (ER.fin (-(1/2^600))) = ER.fin 0 := by
    show roundQ ((1/2^600 : ℚ) * (-(1/2^600))) = ER.fin 0
    apply roundQ_small
    rw [show ((1/2^600 : ℚ) * (-(1/2^600))) = -(1/2^1200 : ℚ) by norm_num, abs_neg,
      abs_of_pos (by positivity)]
    norm_num
  have p7 : ER.mulF (ER.fin (-(2^600) : ℚ)) (ER.fin (-(1/2^600))) = ER.fin 1 := by
    show roundQ ((-(2^600) : ℚ) * (-(1/2^600))) = ER.fin 1
    rw [show ((-(2^600) : ℚ) * (-(1/2^600))) = (1 : ℚ) by norm_num, roundQ_one]
  have hxy : MulF ⟨ER.fin (-(1/2^600)), ER.fin (1/2^600), ERightClosed⟩
      ⟨ER.fin (-(2^600)), ER.fin (1/2^600), ERightClosed⟩ =
      some (Union ⟨ER.fin 0, ER.fin 0, 2⟩ ⟨ER.fin (-1), ER.fin 1, 0⟩) := by
    show MulAuxF (3+1) _ _ = _
    rw [mulAuxF_eq_mm g1 z1 hxm hym]
    dsimp only
    rw [p1, p2, p3, p4]
    rfl
  have hyx : MulF ⟨ER.fin (-(2^600)), ER.fin (1/2^600), ERightClosed⟩
      ⟨ER.fin (-(1/2^600)), ER.fin (1/2^600), ERightClosed⟩ =
      some (Union ⟨ER.fin (-1), ER.fin 0, 2⟩ ⟨ER.fin 0, ER.fin 1, 0⟩) := by
    show MulAuxF (3+1) _ _ = _
    rw [mulAuxF_eq_mm g2 z2 hym hxm]
    dsimp only
    rw [p5, p2, p6, p7]
    rfl
  have hu1 : Union (⟨ER.fin 0, ER.fin 0, 2⟩ : Interval) ⟨ER.fin (-1), ER.fin 1, 0⟩ =
      emptyI := by decide
  have hu2 : Union (⟨ER.fin (-1), ER.fin 0, 2⟩ : Interval) ⟨ER.fin 0, ER.fin 1, 0⟩ =
      ⟨ER.fin (-1), ER.fin 1, EOpen⟩ := by decide
  refine ⟨Or.inr ⟨hxe, by decide, by simp, by simp, by simp, by simp⟩,
    Or.inr ⟨hye, by decide, by simp, by simp, by simp, by simp⟩, hxe, hye, ?_, ?_, ?_⟩
  · rw [hxy, hu1]
  · rw [hyx, hu2]
  · rw [hxy, hu1, hyx, hu2]
    decide

/-- C5 (amended): For all valid non-empty intervals x and y, Add(x, y)
equals Add(y, x) in the sense of the library's `Equal` - commutativity of
`Add` survives binary64 rounding, since the correctly rounded sum is
symmetric in its operands - and Mul(x, y) equals Mul(y, x) whenever the
operands are not both mixed; binary64 underflow can break `Mul`
commutativity in the mixed-times-mixed case. -/
theorem C5_commutativity_amended (x y : Interval) (hvx : Valid x) (hvy : Valid y)
    (hxe : x.IsEmpty = false) (hye : y.IsEmpty = false) :
    Equal (AddF x y) (AddF y x) = true ∧
      ((x.IsMixed && y.IsMixed) = false → MulF x y = MulF y x) := by
  constructor
  · rw [addF_comm_interval y x]
    exact equal_refl_noNaN (noNaN_addF hvx hvy)
  · intro hnmm
    exact mulF_comm_interval hvx hvy hnmm

/-- C5 witness: commutativity at the concrete pair [1,2] and [-1,1]
(the second operand is mixed, so the rounded `Mul` takes the swap path). -/
theorem C5_witness :
    Equal (AddF ⟨ER.fin 1, ER.fin 2, EClosed⟩ ⟨ER.fin (-1), ER.fin 1, EClosed⟩)
      (AddF ⟨ER.fin (-1), ER.fin 1, EClosed⟩ ⟨ER.fin 1, ER.fin 2, EClosed⟩) = true ∧
    MulF ⟨ER.fin 1, ER.fin 2, EClosed⟩ ⟨ER.fin (-1), ER.fin 1, EClosed⟩ =
      MulF ⟨ER.fin (-1), ER.fin 1, EClosed⟩ ⟨ER.fin 1, ER.fin 2, EClosed⟩ :=
  ⟨(C5_commutativity_amended ⟨ER.fin 1, ER.fin 2, EClosed⟩ ⟨ER.fin (-1), ER.fin 1, EClosed⟩
      (by decide) (by decide) (by decide) (by decide)).1,
   (C5_commutativity_amended ⟨ER.fin 1, ER.fin 2, EClosed⟩ ⟨ER.fin (-1), ER.fin 1, EClosed⟩
      (by decide) (by decide) (by decide) (by decide)).2 (by decide)⟩

end IntervalGo
